import Mathlib

/-!
# CrawlHQ Hooker: capture intake and deduplication pipeline

A shallow embedding of `src/background/core/Deduplicator.js` and of the
service worker (`src/background/service-worker.js`): the Deduplicator, the
StorageManager, the attribution builder and the intake handler, followed by
the properties proved about them.

Conventions of the embedding.
* A JavaScript value that may be `undefined` is an `Option`.
* `Date.now()` is an explicit `Int` argument (epoch milliseconds).
* A JavaScript `Set`/`Map` is a list in insertion order.
* Strings are Lean strings; `substring`/`slice` count characters, which is
  what JavaScript does on text of the Basic Multilingual Plane.
-/

namespace Hooker

/-! ## Data model -/

/-- The `source` object of a capture: `{url, line, column}`. -/
structure Source where
  url : Option String := none
  line : Option Int := none
  column : Option Int := none
deriving DecidableEq

/-- The fields of `capture.data` that the service worker reads. -/
structure CaptureData where
  parameterCode : Option Int := none
  property : Option String := none
deriving DecidableEq

/-- The fields of `capture.arguments` that the service worker reads. -/
structure CaptureArgs where
  text : Option String := none
deriving DecidableEq

/-- The `canvas` object of a capture (read by the CSV export). -/
structure CanvasInfo where
  width : Option Int := none
  height : Option Int := none
deriving DecidableEq

/-- The record returned by `buildAttribution`. -/
structure Attribution where
  topLevelDomain : String
  topLevelSiteBase : String
  topLevelUrlSanitized : String
  frameDomain : String
  frameUrlSanitized : String
  sourceDomain : String
  sourceSiteBase : String
  sourceUrlSanitized : String
  sourceKind : String
  isThirdParty : Bool
  isTopFrame : Bool
  isInIframe : Bool
deriving DecidableEq

/-- A capture: the raw payload of the detector and, with the fields the
intake handler adds (`tabId`, `tabUrl`, `tabTitle`, `frameId`, `receivedAt`,
`attribution`), the enriched record that is stored. -/
structure Capture where
  id : Option String := none
  category : Option String := none
  method : Option String := none
  timestamp : Int := 0
  tabId : Option Nat := none
  frameId : Option Nat := none
  pageUrl : Option String := none
  tabUrl : Option String := none
  tabTitle : Option String := none
  source : Option Source := none
  stackTrace : Option String := none
  data : Option CaptureData := none
  arguments : Option CaptureArgs := none
  canvas : Option CanvasInfo := none
  receivedAt : Option Int := none
  attribution : Option Attribution := none
deriving DecidableEq

/-! ## JavaScript helpers -/

/-- The expression `x || d` for a string-or-undefined `x`: the empty string is falsy. -/
def strOr (x : Option String) (d : String) : String :=
  match x with
  | some s => if s = "" then d else s
  | none => d

/-- The expression `x || d` for a number-or-undefined `x`: zero is falsy. -/
def intOr (x : Option Int) (d : Int) : Int :=
  match x with
  | some n => if n = 0 then d else n
  | none => d

/-- Truthiness of a string-or-undefined value. -/
def truthyStr (x : Option String) : Bool :=
  match x with
  | some s => s ≠ ""
  | none => false

/-- The expression `a || b` for two string-or-undefined values. -/
def jsOr (a b : Option String) : Option String :=
  if truthyStr a = true then a else b

/-- Truthiness of a number-or-undefined value. -/
def truthyInt (x : Option Int) : Bool :=
  match x with
  | some n => n ≠ 0
  | none => false

/-- The call `s.substring(0, n)`. -/
def substring0 (s : String) (n : Nat) : String := String.mk (s.data.take n)

/-- The call `Map.prototype.get`. -/
def mapGet {κ ν : Type} [DecidableEq κ] (m : List (κ × ν)) (k : κ) : Option ν :=
  match m with
  | [] => none
  | (k', v) :: rest => if k' = k then some v else mapGet rest k

/-- The call `Map.prototype.set`: an existing key keeps its place, a new key goes last. -/
def mapSet {κ ν : Type} [DecidableEq κ] (m : List (κ × ν)) (k : κ) (v : ν) : List (κ × ν) :=
  match m with
  | [] => [(k, v)]
  | (k', v') :: rest => if k' = k then (k, v) :: rest else (k', v') :: mapSet rest k v

/-- The call `Set.prototype.add`: a value already present is not added again. -/
def setAdd (s : List (Option String)) (x : Option String) : List (Option String) :=
  if x ∈ s then s else s ++ [x]

/-! ## Deduplicator (`Deduplicator.js`, inlined in the service worker) -/

/-- The `options` argument of the constructor. -/
structure DedupOptions where
  windowMs : Option Int := none
  sameMethodMinGapMs : Option Int := none
deriving DecidableEq

/-- The state of a `Deduplicator` instance. -/
structure Deduplicator where
  windowMs : Int
  sameMethodMinGapMs : Int
  recentSignatures : List (String × Int)
  recentIds : List (Option String)
deriving DecidableEq

/-- The result object `{ isDuplicate, reason? }`. -/
structure DupResult where
  isDuplicate : Bool
  reason : Option String := none
deriving DecidableEq

/-- The constructor: `options.windowMs || 1000`, `options.sameMethodMinGapMs || 50`,
an empty signature map and an empty id set. -/
def Deduplicator.new (options : DedupOptions) : Deduplicator :=
  { windowMs := intOr options.windowMs 1000
    sameMethodMinGapMs := intOr options.sameMethodMinGapMs 50
    recentSignatures := []
    recentIds := [] }

/-- The method `generateSignature`: the parts joined with a vertical bar
(`join` renders an undefined `method` as the empty string). -/
def generateSignature (capture : Capture) : String :=
  let parts : List String :=
    [ strOr capture.category "canvas",
      capture.method.getD "",
      strOr (capture.source.bind fun s => s.url) "",
      toString (intOr (capture.source.bind fun s => s.line) 0) ]
  let parameterCode := capture.data.bind fun d => d.parameterCode
  let parts :=
    if capture.method = some "getParameter" ∧ truthyInt parameterCode = true then
      parts ++ [toString (parameterCode.getD 0)]
    else parts
  let text := capture.arguments.bind fun a => a.text
  let parts :=
    if capture.method = some "measureText" ∧ truthyStr text = true then
      parts ++ [substring0 (text.getD "") 50]
    else parts
  let property := capture.data.bind fun d => d.property
  let parts :=
    if truthyStr property = true then parts ++ [property.getD ""] else parts
  "|".intercalate parts

/-- The method `isDuplicate`, with `now` the value of `Date.now()`: the result
object and the state after the call. -/
def Deduplicator.isDuplicate (self : Deduplicator) (now : Int) (capture : Capture) :
    DupResult × Deduplicator :=
  if capture.id ∈ self.recentIds then
    ({ isDuplicate := true, reason := some "duplicate_id" }, self)
  else
    let signature := generateSignature capture
    let lastSeen := mapGet self.recentSignatures signature
    if truthyInt lastSeen = true ∧ now - lastSeen.getD 0 < self.sameMethodMinGapMs then
      ({ isDuplicate := true, reason := some "too_fast" }, self)
    else
      ({ isDuplicate := false },
        { self with
          recentIds := setAdd self.recentIds capture.id
          recentSignatures := mapSet self.recentSignatures signature now })

/-- The method `cleanup`, with `now` the value of `Date.now()`. -/
def Deduplicator.cleanup (self : Deduplicator) (now : Int) : Deduplicator :=
  let cutoff := now - self.windowMs
  let sigs := self.recentSignatures.filter fun e => ¬ (e.2 < cutoff)
  let ids :=
    if self.recentIds.length > 1000 then
      (self.recentIds.drop (self.recentIds.length - 500)).foldl setAdd []
    else self.recentIds
  { self with recentSignatures := sigs, recentIds := ids }

/-- The method `clear`. -/
def Deduplicator.clear (self : Deduplicator) : Deduplicator :=
  { self with recentSignatures := [], recentIds := [] }

/-- The periodic timer: `cleanup` fired at each of the clock values of `ticks`, in order. -/
def Deduplicator.cleanups (self : Deduplicator) (ticks : List Int) : Deduplicator :=
  ticks.foldl Deduplicator.cleanup self

/-- A run of `isDuplicate` calls, each with its clock value, on the evolving state. -/
def Deduplicator.run (self : Deduplicator) (calls : List (Int × Capture)) : Deduplicator :=
  calls.foldl (fun d call => (d.isDuplicate call.1 call.2).2) self

/-- The method `filterDuplicates` of `Deduplicator.js`: the array `unique` and
the state after the loop. Each capture comes with the value that `Date.now()`
has in its `isDuplicate` call. -/
def Deduplicator.filterDuplicates (self : Deduplicator) (calls : List (Int × Capture)) :
    List Capture × Deduplicator :=
  calls.foldl
    (fun (acc : List Capture × Deduplicator) call =>
      let (result, d) := acc.2.isDuplicate call.1 call.2
      if result.isDuplicate then (acc.1, d) else (acc.1 ++ [call.2], d))
    ([], self)

/-! ## URL helpers of the service worker

`new URL(...)` is the platform's parser; it is a parameter of the embedding.
A parser returns `none` where the constructor throws. -/

/-- The fields of a parsed `URL` that the service worker reads. -/
structure Url where
  protocol : String
  hostname : String
  pathname : String
deriving DecidableEq

/-- The platform parser `new URL(s)`. -/
abbrev UrlParser := String → Option Url

/-- The function `tryParseHttpUrl`; a value that is not a string is `none`. -/
def tryParseHttpUrl (P : UrlParser) (url : Option String) : Option Url :=
  match url with
  | none => none
  | some u =>
    match P u with
    | some parsed =>
      if parsed.protocol = "http:" ∨ parsed.protocol = "https:" then some parsed else none
    | none => none

/-- The function `sanitizeHttpUrl`. -/
def sanitizeHttpUrl (P : UrlParser) (url : Option String) : Option String :=
  match tryParseHttpUrl P url with
  | none => none
  | some parsed => some (parsed.protocol ++ "//" ++ parsed.hostname ++ parsed.pathname)

/-- The string literal appended by `truncateString`, as it stands in the source
file: the three characters U+00E2, U+20AC, U+00A6. -/
def truncationMark : String := String.mk [Char.ofNat 0xE2, Char.ofNat 0x20AC, Char.ofNat 0xA6]

/-- The function `truncateString(value, maxLen)`; the source's default `maxLen` is 300. -/
def truncateString (value : Option String) (maxLen : Nat) : String :=
  match value with
  | none => ""
  | some v =>
    if v.data.length ≤ maxLen then v
    else String.mk (v.data.take (maxLen - 1)) ++ truncationMark

/-- The function `getUrlHostname`. -/
def getUrlHostname (P : UrlParser) (url : Option String) : Option String :=
  match tryParseHttpUrl P url with
  | some parsed => some parsed.hostname
  | none => none

/-- The table `HOSTED_PUBLIC_SUFFIXES`. -/
def HOSTED_PUBLIC_SUFFIXES : List String :=
  ["github.io", "vercel.app", "netlify.app", "pages.dev", "web.app",
   "firebaseapp.com", "herokuapp.com"]

/-- The set `COMMON_SECOND_LEVEL_TLDS`. -/
def COMMON_SECOND_LEVEL_TLDS : List String :=
  ["co", "com", "net", "org", "gov", "edu", "ac"]

/-- White space and line terminators, the characters `String.prototype.trim` strips. -/
def isJsWhiteSpace (c : Char) : Bool :=
  let n := c.toNat
  n = 0x09 || n = 0x0A || n = 0x0B || n = 0x0C || n = 0x0D || n = 0x20 || n = 0xA0 ||
  n = 0x1680 || (0x2000 ≤ n && n ≤ 0x200A) || n = 0x2028 || n = 0x2029 || n = 0x202F ||
  n = 0x205F || n = 0x3000 || n = 0xFEFF

/-- The call `s.trim()`, on the characters of `s`. -/
def jsTrim (s : List Char) : List Char :=
  ((s.dropWhile isJsWhiteSpace).reverse.dropWhile isJsWhiteSpace).reverse

/-- The call `s.toLowerCase()`, on the characters of `s`; hostnames are ASCII
(`URL.hostname` is), where it lowers the letters A to Z. -/
def jsToLowerCase (s : List Char) : List Char := s.map Char.toLower

/-- The call `s.split(sep)` for a one-character separator. -/
def jsSplit (sep : Char) : List Char → List (List Char)
  | [] => [[]]
  | c :: cs =>
    match jsSplit sep cs with
    | [] => [[]]
    | l :: ls => if c = sep then [] :: l :: ls else (c :: l) :: ls

/-- The call `labels.join('.')`. -/
def jsJoinDot (labels : List (List Char)) : List Char :=
  List.intercalate ['.'] labels

/-- The call `xs.slice(-n)`: the last `n` elements. -/
def sliceLast {α : Type} (xs : List α) (n : Nat) : List α := xs.drop (xs.length - n)

/-- The loop of `getSiteBase` over the hosted suffixes: `some r` when an
iteration returns `r`, `none` when the loop falls through. -/
def hostedSuffixLoop (host : List Char) (labels : List (List Char)) :
    List String → Option (List Char)
  | [] => none
  | suffix :: rest =>
    if host = suffix.data then some host
    else if ('.' :: suffix.data).isSuffixOf host then
      let needed := (jsSplit '.' suffix.data).length + 1
      if labels.length ≥ needed then some (jsJoinDot (sliceLast labels needed))
      else some host
    else hostedSuffixLoop host labels rest

/-- The function `getSiteBase`; the argument is a string (a value that is not
a string gives `null`, which callers never pass). -/
def getSiteBase (hostname : String) : Option String :=
  let host := jsToLowerCase (jsTrim hostname.data)
  if host = [] then none
  else
    let labels := (jsSplit '.' host).filter fun l => l ≠ []
    if labels.length ≤ 2 then some (String.mk host)
    else
      match hostedSuffixLoop host labels HOSTED_PUBLIC_SUFFIXES with
      | some r => some (String.mk r)
      | none =>
        let last := labels.getLastD []
        let secondLast := (labels.get? (labels.length - 2)).getD []
        if last.length = 2 ∧ String.mk secondLast ∈ COMMON_SECOND_LEVEL_TLDS ∧ labels.length ≥ 3 then
          some (String.mk (jsJoinDot (sliceLast labels 3)))
        else some (String.mk (jsJoinDot (sliceLast labels 2)))

/-- The function `classifySourceKind`. -/
def classifySourceKind (P : UrlParser) (sourceUrl sourceUrlSanitized frameUrlSanitized
    topLevelUrlSanitized : Option String) : String :=
  match sourceUrl with
  | none => "unknown"
  | some s =>
    if s = "" ∨ s = "unknown" then "unknown"
    else if "blob:".data.isPrefixOf s.data then "blob"
    else if "data:".data.isPrefixOf s.data then "data"
    else if "javascript:".data.isPrefixOf s.data then "javascript"
    else
      match tryParseHttpUrl P (some s) with
      | none => "other"
      | some _ =>
        if truthyStr sourceUrlSanitized = true ∧
            (sourceUrlSanitized = frameUrlSanitized ∨ sourceUrlSanitized = topLevelUrlSanitized) then
          "inline"
        else "script"

/-- The argument object of `buildAttribution`. -/
structure AttributionInput where
  topLevelUrl : Option String := none
  frameUrl : Option String := none
  sourceUrl : Option String := none
  frameId : Option Nat := none
deriving DecidableEq

/-- The function `buildAttribution`. -/
def buildAttribution (P : UrlParser) (input : AttributionInput) : Attribution :=
  let topLevelUrlSanitized := sanitizeHttpUrl P input.topLevelUrl
  let frameUrlSanitized := sanitizeHttpUrl P input.frameUrl
  let sourceUrlSanitized := sanitizeHttpUrl P input.sourceUrl
  let safeSourceUrl : String :=
    if truthyStr sourceUrlSanitized = true then sourceUrlSanitized.getD ""
    else match input.sourceUrl with
      | some _ => truncateString input.sourceUrl 220
      | none => ""
  let topLevelDomain := getUrlHostname P (jsOr topLevelUrlSanitized input.topLevelUrl)
  let frameDomain := getUrlHostname P (jsOr frameUrlSanitized input.frameUrl)
  let sourceDomain := getUrlHostname P (jsOr sourceUrlSanitized input.sourceUrl)
  let topLevelSiteBase : Option String :=
    if truthyStr topLevelDomain = true then getSiteBase (topLevelDomain.getD "") else none
  let sourceSiteBase : Option String :=
    if truthyStr sourceDomain = true then getSiteBase (sourceDomain.getD "") else none
  let sourceKind :=
    classifySourceKind P input.sourceUrl sourceUrlSanitized frameUrlSanitized topLevelUrlSanitized
  let isTopFrame : Bool :=
    match input.frameId with
    | some n => n = 0
    | none => true
  let isThirdParty : Bool :=
    truthyStr topLevelSiteBase && truthyStr sourceSiteBase &&
      decide (topLevelSiteBase ≠ sourceSiteBase) && decide (sourceKind ≠ "inline")
  { topLevelDomain := strOr topLevelDomain ""
    topLevelSiteBase := strOr topLevelSiteBase ""
    topLevelUrlSanitized := strOr topLevelUrlSanitized ""
    frameDomain := strOr frameDomain ""
    frameUrlSanitized := strOr frameUrlSanitized ""
    sourceDomain := strOr sourceDomain ""
    sourceSiteBase := strOr sourceSiteBase ""
    sourceUrlSanitized := safeSourceUrl
    sourceKind := sourceKind
    isThirdParty := isThirdParty
    isTopFrame := isTopFrame
    isInIframe := !isTopFrame }

/-! ## StorageManager

`chrome.storage.local` is the durable collection. Whether a read or a write
of it succeeds, and what `Date.now()` returns, is given by a `Backend`
value, one per operation. The write queue runs the bodies one at a time, so an
operation is a function from the state before to the state after. -/

/-- The constant `MAX_CAPTURES_PER_TAB`. -/
def MAX_CAPTURES_PER_TAB : Nat := 100

/-- The constant `MAX_TOTAL_CAPTURES`. -/
def MAX_TOTAL_CAPTURES : Nat := 500

/-- The constant `MAX_AGE_MS`: seven days. -/
def MAX_AGE_MS : Int := 7 * 24 * 60 * 60 * 1000

/-- The field `CACHE_TTL`. -/
def CACHE_TTL : Int := 500

/-- The state of the `StorageManager` together with the durable collection
stored under `STORAGE_KEY` (a missing key reads as the empty array). -/
structure StorageManager where
  durable : List Capture := []
  cache : Option (List Capture) := none
  cacheTime : Int := 0
deriving DecidableEq

/-- What the platform does during one storage operation: whether
`chrome.storage.local.get` and `set` succeed, and the clock values read by
`getAllCaptures` and by `saveCaptures`. -/
structure Backend where
  readOk : Bool := true
  writeOk : Bool := true
  readClock : Int := 0
  writeClock : Int := 0
deriving DecidableEq

/-- The error thrown by a failed `chrome.storage.local.set`. -/
def writeError : String := "Storage write error"

/-- The method `getAllCaptures({ bypassCache })`. -/
def StorageManager.getAllCaptures (self : StorageManager) (bypassCache : Bool) (b : Backend) :
    List Capture × StorageManager :=
  match self.cache with
  | some cached =>
    if bypassCache = false ∧ b.readClock - self.cacheTime < CACHE_TTL then (cached, self)
    else if b.readOk then
      (self.durable, { self with cache := some self.durable, cacheTime := b.readClock })
    else ([], self)
  | none =>
    if b.readOk then
      (self.durable, { self with cache := some self.durable, cacheTime := b.readClock })
    else ([], self)

/-- The method `saveCaptures`: `Except.error` is the re-thrown write error. -/
def StorageManager.saveCaptures (self : StorageManager) (captures : List Capture) (b : Backend) :
    Except String Unit × StorageManager :=
  if b.writeOk then
    (Except.ok (), { durable := captures, cache := some captures, cacheTime := b.writeClock })
  else
    (Except.error writeError, { self with cache := none, cacheTime := 0 })

/-- The property key of `byTab` for a capture, `capture.tabId || 'unknown'`:
a tab id that is missing or zero gives the key `'unknown'`, written `0` here,
any other tab id gives its decimal string, written as the number itself. -/
def tabKey (capture : Capture) : Nat := capture.tabId.getD 0

/-- The statement `if (!byTab[tabId]) byTab[tabId] = []; byTab[tabId].push(capture)`
on the object `byTab`, kept as a list of its properties in creation order. -/
def byTabPush (byTab : List (Nat × List Capture)) (key : Nat) (capture : Capture) :
    List (Nat × List Capture) :=
  match byTab with
  | [] => [(key, [capture])]
  | (k, cs) :: rest =>
    if k = key then (k, cs ++ [capture]) :: rest else (k, cs) :: byTabPush rest key capture

/-- The first loop of `trimCaptures`: the object `byTab`. -/
def groupByTab (captures : List Capture) : List (Nat × List Capture) :=
  captures.foldl (fun byTab capture => byTabPush byTab (tabKey capture) capture) []

/-- Whether a property key is an array index, a canonical number below `2^32 - 1`. -/
def isArrayIndex (key : Nat) : Bool := 0 < key && key < 2 ^ 32 - 1

/-- The order in which `for (const tabId in byTab)` visits the properties:
array-index keys in ascending numeric order, then the other keys (`'unknown'`
and numbers from `2^32 - 1` on) in creation order. -/
def forInOrder (byTab : List (Nat × List Capture)) : List (Nat × List Capture) :=
  (byTab.filter fun e => isArrayIndex e.1).insertionSort (fun a b => a.1 ≤ b.1) ++
    byTab.filter fun e => !isArrayIndex e.1

/-- The comparator `(a, b) => b.timestamp - a.timestamp` puts `a` no later than `b`. -/
def newerFirst (a b : Capture) : Prop := b.timestamp ≤ a.timestamp

instance : DecidableRel newerFirst := fun a b => inferInstanceAs (Decidable (b.timestamp ≤ a.timestamp))

instance : IsTotal Capture newerFirst := ⟨fun a b => le_total b.timestamp a.timestamp⟩

instance : IsTrans Capture newerFirst := ⟨fun _ _ _ hab hbc => le_trans hbc hab⟩

/-- The call `xs.sort((a, b) => b.timestamp - a.timestamp)`: a stable sort,
newest first. -/
def sortNewestFirst (xs : List Capture) : List Capture := xs.insertionSort newerFirst

/-- The method `trimCaptures`. -/
def trimCaptures (captures : List Capture) : List Capture :=
  let byTab := groupByTab captures
  let result := (forInOrder byTab).foldl
    (fun result e => result ++ (sortNewestFirst e.2).take MAX_CAPTURES_PER_TAB) []
  (sortNewestFirst result).take MAX_TOTAL_CAPTURES

/-- The method `addCapture`: the returned id, or the re-thrown error. -/
def StorageManager.addCapture (self : StorageManager) (capture : Capture) (b : Backend) :
    Except String (Option String) × StorageManager :=
  let (captures, s1) := self.getAllCaptures true b
  if captures.any (fun c => c.id = capture.id) then (Except.ok capture.id, s1)
  else
    let trimmed := trimCaptures (captures ++ [capture])
    match s1.saveCaptures trimmed b with
    | (Except.ok _, s2) => (Except.ok capture.id, s2)
    | (Except.error e, s2) => (Except.error e, s2)

/-- The method `_clearCapturesByTabImmediate`. -/
def StorageManager.clearCapturesByTabImmediate (self : StorageManager) (tabId : Nat)
    (b : Backend) : Except String Unit × StorageManager :=
  let (captures, s1) := self.getAllCaptures true b
  let filtered := captures.filter fun c => c.tabId ≠ some tabId
  s1.saveCaptures filtered b

/-- The method `clearCaptures(tabId = null)`. -/
def StorageManager.clearCaptures (self : StorageManager) (tabId : Option Nat) (b : Backend) :
    Except String Unit × StorageManager :=
  match tabId with
  | some t => self.clearCapturesByTabImmediate t b
  | none => self.saveCaptures [] b

/-- The method `clearCapturesByTab`. -/
def StorageManager.clearCapturesByTab (self : StorageManager) (tabId : Nat) (b : Backend) :
    Except String Unit × StorageManager :=
  self.clearCapturesByTabImmediate tabId b

/-- The method `cleanupOldCaptures(maxAge)`, with `now` the clock value the
cutoff is taken from: the number of captures removed, or the re-thrown error. -/
def StorageManager.cleanupOldCaptures (self : StorageManager) (maxAge : Int) (now : Int)
    (b : Backend) : Except String Nat × StorageManager :=
  let cutoff := now - maxAge
  let (captures, s1) := self.getAllCaptures true b
  let filtered := captures.filter fun c => cutoff ≤ c.timestamp
  if filtered.length ≠ captures.length then
    match s1.saveCaptures filtered b with
    | (Except.ok _, s2) => (Except.ok (captures.length - filtered.length), s2)
    | (Except.error e, s2) => (Except.error e, s2)
  else (Except.ok 0, s1)

/-- The method `getCapturesByTab`. -/
def StorageManager.getCapturesByTab (self : StorageManager) (tabId : Nat) (b : Backend) :
    List Capture × StorageManager :=
  let (allCaptures, s1) := self.getAllCaptures false b
  (allCaptures.filter fun c => c.tabId = some tabId, s1)

/-- The method `getCountByTab`. -/
def StorageManager.getCountByTab (self : StorageManager) (tabId : Nat) (b : Backend) :
    Nat × StorageManager :=
  let (captures, s1) := self.getCapturesByTab tabId b
  (captures.length, s1)

/-- The call `s.includes(t)`, on the characters of the two strings. -/
def jsIncludes (s t : List Char) : Bool := s.tails.any fun u => t.isPrefixOf u

/-- The `filters` argument of `getCaptures`; an absent key is `none`. -/
structure Filters where
  method : Option String := none
  tabId : Option Nat := none
  domain : Option String := none
  since : Option Int := none
  search : Option String := none
  limit : Option Nat := none
  offset : Option Nat := none
deriving DecidableEq

/-- The `domain` test of `getCaptures`: `new URL(c.pageUrl).hostname.includes(domain)`,
false when the constructor throws (as it does on a missing `pageUrl`). -/
def domainMatches (P : UrlParser) (domain : String) (c : Capture) : Bool :=
  match c.pageUrl with
  | none => false
  | some pageUrl =>
    match P pageUrl with
    | some url => jsIncludes url.hostname.data domain.data
    | none => false

/-- One operand `x?.toLowerCase().includes(searchLower)` of the `search` test. -/
def lowerIncludes (x : Option String) (searchLower : List Char) : Bool :=
  match x with
  | some v => jsIncludes (jsToLowerCase v.data) searchLower
  | none => false

/-- The `search` test of `getCaptures`. -/
def searchMatches (search : String) (c : Capture) : Bool :=
  let searchLower := jsToLowerCase search.data
  lowerIncludes c.pageUrl searchLower ||
    lowerIncludes (c.source.bind fun s => s.url) searchLower ||
    lowerIncludes c.method searchLower

/-- The method `getCaptures(filters)`. -/
def StorageManager.getCaptures (P : UrlParser) (self : StorageManager) (filters : Filters)
    (b : Backend) : List Capture × StorageManager :=
  let (captures, s1) := self.getAllCaptures false b
  let captures :=
    if truthyStr filters.method = true then captures.filter fun c => c.method = filters.method
    else captures
  let captures :=
    if filters.tabId.isSome = true then captures.filter fun c => c.tabId = filters.tabId
    else captures
  let captures :=
    if truthyStr filters.domain = true then
      captures.filter fun c => domainMatches P (filters.domain.getD "") c
    else captures
  let captures :=
    if truthyInt filters.since = true then
      captures.filter fun c => filters.since.getD 0 ≤ c.timestamp
    else captures
  let captures :=
    if truthyStr filters.search = true then
      captures.filter fun c => searchMatches (filters.search.getD "") c
    else captures
  let captures := sortNewestFirst captures
  let captures :=
    match filters.limit with
    | some limit =>
      if limit ≠ 0 then (captures.drop (filters.offset.getD 0)).take limit else captures
    | none => captures
  (captures, s1)

/-- The platform call `new Date(t).toISOString()`: `none` where it throws a
`RangeError` (the time value is invalid). -/
abbrev IsoFormatter := Int → Option String

/-- The call `String(x)` for a string-or-undefined value. -/
def jsString (x : Option String) : String := x.getD "undefined"

/-- The cell `x || ''` for a number-or-undefined value, as `String` renders it. -/
def numberCell (x : Option Int) : String :=
  match x with
  | some n => if n = 0 then "" else toString n
  | none => ""

/-- The call `text.replace(/"/g, '""')`, on the characters of the text. -/
def doubleQuotes (text : List Char) : List Char :=
  text.flatMap fun c => if c = '"' then ['"', '"'] else [c]

/-- The cell as `exportAsCSV` writes it: a double quote, the text with its
double quotes doubled, a double quote. -/
def csvCell (cell : String) : String := String.mk ('"' :: doubleQuotes cell.data ++ ['"'])

/-- The array `headers` of `exportAsCSV`. -/
def csvHeaders : List String :=
  ["ID", "Method", "Timestamp", "Page URL", "Source URL", "Source Line", "Canvas Width",
   "Canvas Height"]

/-- The cells of the row of a capture as `String(cell)` renders them, before the
escaping, given the rendering of its timestamp. -/
def csvCells (iso : String) (c : Capture) : List String :=
  [jsString c.id, jsString c.method, iso, jsString c.pageUrl,
   strOr (c.source.bind fun s => s.url) "",
   numberCell (c.source.bind fun s => s.line),
   numberCell (c.canvas.bind fun v => v.width),
   numberCell (c.canvas.bind fun v => v.height)]

/-- The array `rows` of `exportAsCSV`: `none` when `toISOString` throws for a capture. -/
def csvRows (I : IsoFormatter) : List Capture → Option (List (List String))
  | [] => some []
  | c :: rest =>
    match I c.timestamp with
    | none => none
    | some iso =>
      match csvRows I rest with
      | none => none
      | some rows => some (csvCells iso c :: rows)

/-- The error thrown by `toISOString` on an invalid time value. -/
def invalidTimeError : String := "Invalid time value"

/-- The method `exportAsCSV(filters)`: the CSV text, or the error thrown. -/
def StorageManager.exportAsCSV (P : UrlParser) (I : IsoFormatter) (self : StorageManager)
    (filters : Filters) (b : Backend) : Except String String × StorageManager :=
  let (captures, s1) := self.getCaptures P filters b
  match csvRows I captures with
  | none => (Except.error invalidTimeError, s1)
  | some rows =>
    (Except.ok ("\n".intercalate
      (",".intercalate csvHeaders :: rows.map fun row => ",".intercalate (row.map csvCell))), s1)

/-! ## The write queue (`_enqueueWrite`)

The promises that `_enqueueWrite` creates are kept in a store indexed by the
order of their creation; the promise of the call of a task is kept with the
task. The microtask queue is a list of jobs. The body of a queued operation is
cut at its storage calls: the completion of a storage call and the part of the
body that runs up to the next storage call are one step. A promise resolved
with the promise of a task settles as that promise does, in a microtask of its
own. Calls, microtasks and completions of storage calls may come in any order. -/

/-- How a promise has settled. -/
inductive Settlement where
  | fulfilled
  | rejected (error : String)
deriving DecidableEq

/-- The handlers that `_enqueueWrite` and the platform register on promises:
`() => task()` for the task enqueued at a given position, `() => undefined`,
the pass-through that stands for a handler left out, and the resolving
functions of a promise that was resolved with the promise of a task. -/
inductive Handler where
  | callTask (task : Nat)
  | returnUndefined
  | passOn
  | resolveDerived
deriving DecidableEq

/-- A reaction registered by `then`: the two handlers and the promise that
`then` returned. -/
structure Reaction where
  onFulfilled : Handler
  onRejected : Handler
  derived : Nat
deriving DecidableEq

/-- The state of a promise: pending (`none`) with the reactions registered so
far, or settled. -/
structure PromiseRecord where
  settled : Option Settlement := none
  reactions : List Reaction := []
deriving DecidableEq

/-- A microtask: a handler to be called with the settlement of the promise it
was registered on, for the derived promise. -/
structure Job where
  handler : Handler
  settlement : Settlement
  derived : Nat
deriving DecidableEq

/-- The mutating operations of the store: `addCapture(capture)`,
`clearCaptures(tabId)`, `clearCapturesByTab(tabId)` and
`cleanupOldCaptures(maxAge)`, the latter with the value `now` that `Date.now()`
has when its body starts. -/
inductive WriteOp where
  | add (capture : Capture)
  | clear (tabId : Option Nat)
  | clearByTab (tabId : Nat)
  | cleanup (maxAge : Int) (now : Int)
deriving DecidableEq

/-- Where the body of a queued operation stands: not yet called, awaiting
`chrome.storage.local.get`, awaiting `chrome.storage.local.set` of a
collection, or returned. -/
inductive Stage where
  | queued
  | reading
  | writing (captures : List Capture)
  | settled (how : Settlement)
deriving DecidableEq

/-- A task passed to `_enqueueWrite`: the operation whose body the closure
runs, the outcomes that its storage calls meet, its stage, and the reactions
registered on the promise of its call. -/
structure WriteTask where
  op : WriteOp
  backend : Backend
  stage : Stage := Stage.queued
  reactions : List Reaction := []
deriving DecidableEq

/-- The state of the write queue: the store, the promises, the microtask queue,
the tasks in the order of their enqueueing, and the field `_writeQueue`.
Promise 0 is the `Promise.resolve()` of the constructor. -/
structure WriteQueue where
  storage : StorageManager := {}
  promises : Nat → PromiseRecord := fun p => if p = 0 then { settled := some Settlement.fulfilled } else {}
  allocated : Nat := 1
  jobs : List Job := []
  tasks : List WriteTask := []
  writeQueue : Nat := 0

/-- The job that a reaction becomes when its promise settles. -/
def reactionJob (how : Settlement) (r : Reaction) : Job :=
  { handler := match how with
      | Settlement.fulfilled => r.onFulfilled
      | Settlement.rejected _ => r.onRejected
    settlement := how
    derived := r.derived }

/-- Settling a pending promise: its reactions become jobs. -/
def WriteQueue.settle (q : WriteQueue) (p : Nat) (how : Settlement) : WriteQueue :=
  if (q.promises p).settled.isSome then q
  else
    { q with
      promises := Function.update q.promises p { settled := some how, reactions := [] }
      jobs := q.jobs ++ (q.promises p).reactions.map (reactionJob how) }

/-- The call `p.then(onFulfilled, onRejected)`: the derived promise and the
state after the call. On a pending promise the reaction is registered, on a
settled one its job is queued. -/
def WriteQueue.promiseThen (q : WriteQueue) (p : Nat) (onFulfilled onRejected : Handler) :
    Nat × WriteQueue :=
  let derived := q.allocated
  let reaction : Reaction :=
    { onFulfilled := onFulfilled, onRejected := onRejected, derived := derived }
  let promises := Function.update q.promises derived {}
  match (promises p).settled with
  | none =>
    (derived,
      { q with
        allocated := q.allocated + 1
        promises := Function.update promises p
          { settled := none, reactions := (promises p).reactions ++ [reaction] } })
  | some how =>
    (derived,
      { q with
        allocated := q.allocated + 1
        promises := promises
        jobs := q.jobs ++ [reactionJob how reaction] })

/-- The method `_enqueueWrite(task)`, for the task at a given position: the
promise `next` that it returns and the state after the call. -/
def WriteQueue.enqueueWrite (q : WriteQueue) (task : Nat) : Nat × WriteQueue :=
  let (next, q1) := q.promiseThen q.writeQueue (Handler.callTask task) (Handler.callTask task)
  let (queue, q2) := q1.promiseThen next Handler.passOn Handler.returnUndefined
  (next, { q2 with writeQueue := queue })

/-- A call of a mutating operation: its body becomes a task, which is enqueued. -/
def WriteQueue.call (q : WriteQueue) (op : WriteOp) (backend : Backend) : WriteQueue :=
  let q1 : WriteQueue := { q with tasks := q.tasks ++ [{ op := op, backend := backend }] }
  (q1.enqueueWrite q.tasks.length).2

/-- The body of an operation up to its first storage call. -/
def WriteOp.start : WriteOp → Stage
  | WriteOp.add _ => Stage.reading
  | WriteOp.clear none => Stage.writing []
  | WriteOp.clear (some _) => Stage.reading
  | WriteOp.clearByTab _ => Stage.reading
  | WriteOp.cleanup _ _ => Stage.reading

/-- The body of an operation from the result of `getAllCaptures` up to its
write, or to its return when it does not write. -/
def WriteOp.afterRead (op : WriteOp) (captures : List Capture) : Stage :=
  match op with
  | WriteOp.add capture =>
    if captures.any (fun c => c.id = capture.id) then Stage.settled Settlement.fulfilled
    else Stage.writing (trimCaptures (captures ++ [capture]))
  | WriteOp.clear (some tabId) => Stage.writing (captures.filter fun c => c.tabId ≠ some tabId)
  | WriteOp.clear none => Stage.writing []
  | WriteOp.clearByTab tabId => Stage.writing (captures.filter fun c => c.tabId ≠ some tabId)
  | WriteOp.cleanup maxAge now =>
    if (captures.filter fun c => now - maxAge ≤ c.timestamp).length ≠ captures.length then
      Stage.writing (captures.filter fun c => now - maxAge ≤ c.timestamp)
    else Stage.settled Settlement.fulfilled

/-- The return or the throw of the body of a task: the promise of its call
settles and its reactions become jobs. -/
def WriteQueue.finish (q : WriteQueue) (i : Nat) (t : WriteTask) (how : Settlement) :
    WriteQueue :=
  { q with
    tasks := q.tasks.set i { t with stage := Stage.settled how, reactions := [] }
    jobs := q.jobs ++ t.reactions.map (reactionJob how) }

/-- The body of a task moves to a stage. -/
def WriteQueue.advance (q : WriteQueue) (i : Nat) (t : WriteTask) (stage : Stage) : WriteQueue :=
  match stage with
  | Stage.settled how => q.finish i t how
  | s => { q with tasks := q.tasks.set i { t with stage := s } }

/-- The storage call that a task awaits completes, with the outcome that the
task meets, and the body runs on to its next storage call or to its end. -/
def WriteQueue.storageCallDone (q : WriteQueue) (i : Nat) : WriteQueue :=
  match q.tasks[i]? with
  | none => q
  | some t =>
    match t.stage with
    | Stage.reading =>
      let (captures, st) := q.storage.getAllCaptures true t.backend
      let q1 : WriteQueue := { q with storage := st }
      q1.advance i t (t.op.afterRead captures)
    | Stage.writing captures =>
      match q.storage.saveCaptures captures t.backend with
      | (Except.ok _, st) =>
        let q1 : WriteQueue := { q with storage := st }
        q1.finish i t Settlement.fulfilled
      | (Except.error e, st) =>
        let q1 : WriteQueue := { q with storage := st }
        q1.finish i t (Settlement.rejected e)
    | _ => q

/-- Running a job. The handler `() => task()` calls the task, whose body runs to
its first storage call, and the derived promise is resolved with the promise of
the call: it will settle as that promise does. -/
def WriteQueue.runJob (q : WriteQueue) (job : Job) : WriteQueue :=
  match job.handler with
  | Handler.callTask i =>
    match q.tasks[i]? with
    | none => q
    | some t =>
      { q with
        tasks := q.tasks.set i
          { t with
            stage := t.op.start
            reactions :=
              [{ onFulfilled := Handler.resolveDerived, onRejected := Handler.resolveDerived,
                 derived := job.derived }] } }
  | Handler.returnUndefined => q.settle job.derived Settlement.fulfilled
  | Handler.passOn => q.settle job.derived job.settlement
  | Handler.resolveDerived => q.settle job.derived job.settlement

/-- What can happen to the write queue: a mutating operation is called, the
first job of the microtask queue runs, or the storage call awaited by a task
completes. -/
inductive QueueEvent where
  | call (op : WriteOp) (backend : Backend)
  | microtask
  | storageCallDone (task : Nat)
deriving DecidableEq

/-- One event. -/
def WriteQueue.step (q : WriteQueue) : QueueEvent → WriteQueue
  | QueueEvent.call op backend => q.call op backend
  | QueueEvent.microtask =>
    match q.jobs with
    | [] => q
    | job :: rest =>
      let q1 : WriteQueue := { q with jobs := rest }
      q1.runJob job
  | QueueEvent.storageCallDone i => q.storageCallDone i

/-- A sequence of events, from a given state. -/
def WriteQueue.run (q : WriteQueue) (events : List QueueEvent) : WriteQueue :=
  events.foldl WriteQueue.step q

/-- Whether a body awaits a storage call. -/
def Stage.awaitsStorage : Stage → Bool
  | Stage.reading => true
  | Stage.writing _ => true
  | _ => false

/-- The task that awaits a storage call, if there is one. -/
def WriteQueue.awaiting (q : WriteQueue) : Option Nat :=
  let i := q.tasks.findIdx fun t => t.stage.awaitsStorage
  if i < q.tasks.length then some i else none

/-- The queue driven on: the microtasks run first, then the awaited storage call
completes; `fuel` bounds the number of steps. -/
def WriteQueue.drive (q : WriteQueue) : Nat → WriteQueue
  | 0 => q
  | fuel + 1 =>
    match q.jobs with
    | _ :: _ => (q.step QueueEvent.microtask).drive fuel
    | [] =>
      match q.awaiting with
      | some i => (q.step (QueueEvent.storageCallDone i)).drive fuel
      | none => q

/-- A mutating operation run on its own, as the write queue runs it when
nothing else is in flight. -/
def StorageManager.applyOp (s : StorageManager) (op : WriteOp) (b : Backend) :
    Except String Unit × StorageManager :=
  match op with
  | WriteOp.add capture =>
    match s.addCapture capture b with
    | (Except.ok _, s1) => (Except.ok (), s1)
    | (Except.error e, s1) => (Except.error e, s1)
  | WriteOp.clear tabId => s.clearCaptures tabId b
  | WriteOp.clearByTab tabId => s.clearCapturesByTab tabId b
  | WriteOp.cleanup maxAge now =>
    match s.cleanupOldCaptures maxAge now b with
    | (Except.ok _, s1) => (Except.ok (), s1)
    | (Except.error e, s1) => (Except.error e, s1)

/-- The operations applied one after another. -/
def StorageManager.applyAll (s : StorageManager) (ops : List (WriteOp × Backend)) :
    StorageManager :=
  ops.foldl (fun s e => (s.applyOp e.1 e.2).2) s

/-- The operations of the tasks of a queue with the outcomes they meet, in
enqueue order. -/
def WriteQueue.ops (q : WriteQueue) : List (WriteOp × Backend) :=
  q.tasks.map fun t => (t.op, t.backend)

/-- The operations called by a sequence of events, in the order of the calls. -/
def calledOps : List QueueEvent → List (WriteOp × Backend)
  | [] => []
  | QueueEvent.call op backend :: rest => (op, backend) :: calledOps rest
  | _ :: rest => calledOps rest

/-- The write queue of a freshly constructed `StorageManager`, on a given store. -/
def WriteQueue.init (s0 : StorageManager) : WriteQueue := { storage := s0 }

/-! ## Intake coordinator (module state of the service worker and
`handleFingerprintDetected`) -/

/-- The constant `MAX_BUFFER_SIZE`. -/
def MAX_BUFFER_SIZE : Nat := 100

/-- What the service worker sends out: a badge update for a tab, or a message
posted to the DevTools port registered for a tab. -/
inductive Notification where
  | badge (tabId : Nat) (text : String) (color : String)
  | newCapture (port : Nat) (capture : Capture)
  | bufferUpdate (port : Nat) (bufferedCount : Nat)
  | pauseState (port : Nat) (paused : Bool) (bufferedCount : Nat)
  | bufferFlushed (port : Nat) (count : Nat)
deriving DecidableEq

/-- The module-level state of the service worker. `outbox` lists what has been
sent out so far; posting to a port and setting a badge are taken to succeed
(their failures are caught and logged by the source). -/
structure Worker where
  whitelist : List String := []
  tabsBeingCleared : List Nat := []
  isPaused : Bool := false
  captureBuffer : List Capture := []
  deduplicator : Deduplicator := Deduplicator.new { windowMs := some 1000, sameMethodMinGapMs := some 50 }
  storage : StorageManager := {}
  lastKnownTabUrl : List (Nat × String) := []
  lastKnownTabWhitelisted : List (Nat × Bool) := []
  devToolsPorts : List Nat := []
  outbox : List Notification := []
deriving DecidableEq

/-- The `sender.tab` object. -/
structure TabInfo where
  id : Option Nat := none
  url : Option String := none
  title : Option String := none
deriving DecidableEq

/-- The `sender` of a message. -/
structure Sender where
  tab : Option TabInfo := none
  url : Option String := none
  frameId : Option Nat := none
deriving DecidableEq

/-- The result object of `handleFingerprintDetected`; an absent key is `none`. -/
structure Response where
  success : Option Bool := none
  id : Option String := none
  ignored : Option Bool := none
  filtered : Option Bool := none
  buffered : Option Bool := none
  reason : Option String := none
  error : Option String := none
deriving DecidableEq

/-- The clock values and storage outcomes met by one run of
`handleFingerprintDetected`. -/
structure IntakeEnv where
  receivedAt : Int := 0
  dedupNow : Int := 0
  store : Backend := {}
  badge : Backend := {}
deriving DecidableEq

/-- The function `isWhitelisted`; `new URL(null)` throws, so a missing url is
not whitelisted. -/
def isWhitelisted (P : UrlParser) (whitelist : List String) (url : Option String) : Bool :=
  match url with
  | none => false
  | some u =>
    match P u with
    | some urlObj => decide (urlObj.hostname ∈ whitelist)
    | none => false

/-- The function `rememberTabContext`, for a numeric tab id. -/
def rememberTabContext (P : UrlParser) (w : Worker) (tabId : Nat) (url : String) : Worker :=
  match sanitizeHttpUrl P (some url) with
  | none => w
  | some sanitized =>
    if sanitized = "" then w
    else
      { w with
        lastKnownTabUrl := mapSet w.lastKnownTabUrl tabId sanitized
        lastKnownTabWhitelisted :=
          mapSet w.lastKnownTabWhitelisted tabId (isWhitelisted P w.whitelist (some sanitized)) }

/-- The function `notifyAllPanels`: one message per registered port. -/
def notifyAllPanels (w : Worker) (message : Nat → Notification) : Worker :=
  { w with outbox := w.outbox ++ w.devToolsPorts.map message }

/-- The function `notifyDevTools`. -/
def notifyDevTools (w : Worker) (capture : Capture) : Worker :=
  match capture.tabId with
  | some t =>
    if t ∈ w.devToolsPorts then
      { w with outbox := w.outbox ++ [Notification.newCapture t capture] }
    else w
  | none => w

/-- The function `updateBadge`. -/
def updateBadge (w : Worker) (tabId : Nat) (b : Backend) : Worker :=
  if tabId = 0 then w
  else
    let (count, st) := w.storage.getCountByTab tabId b
    let text := if count > 0 then (if count > 99 then "99+" else toString count) else ""
    let color := if count > 0 then "#ef4444" else "#666666"
    { w with storage := st, outbox := w.outbox ++ [Notification.badge tabId text color] }

/-- The sender URL resolved by `handleFingerprintDetected`: the frame URL when
it is http(s), else the tab URL, else the frame URL as it is. -/
def resolveSenderUrl (P : UrlParser) (sender : Sender) : Option String :=
  let url := sender.url
  let tabUrl := sender.tab.bind fun t => t.url
  if (tryParseHttpUrl P url).isSome then url
  else
    match tabUrl with
    | some t => some t
    | none => url

/-- The sanitised copy `safeData` of the payload. -/
def sanitizePayload (P : UrlParser) (data : Capture) : Capture :=
  let pageUrl :=
    match data.pageUrl with
    | some p => some (strOr (sanitizeHttpUrl P (some p)) p)
    | none => none
  let source :=
    match data.source with
    | some src =>
      match src.url with
      | some u =>
        some { src with
          url := some (strOr (sanitizeHttpUrl P (some u)) (strOr (some (truncateString (some u) 220)) u)) }
      | none => some src
    | none => none
  { data with pageUrl := pageUrl, source := source }

/-- The record `enrichedData` assembled by `handleFingerprintDetected`. -/
def enrich (P : UrlParser) (env : IntakeEnv) (data : Capture) (sender : Sender) (tabId : Nat) :
    Capture :=
  let topLevelUrl := sender.tab.bind fun t => t.url
  let frameUrl := sender.url
  let senderUrl := resolveSenderUrl P sender
  let safeData := sanitizePayload P data
  let attribution := buildAttribution P
    { topLevelUrl := topLevelUrl
      frameUrl := jsOr (jsOr frameUrl safeData.pageUrl) none
      sourceUrl := jsOr (safeData.source.bind fun s => s.url) none
      frameId := some (sender.frameId.getD 0) }
  { safeData with
    tabId := some tabId
    tabUrl := some (strOr (sanitizeHttpUrl P topLevelUrl) (strOr senderUrl ""))
    tabTitle := some (strOr (sender.tab.bind fun t => t.title) "")
    frameId := some (sender.frameId.getD 0)
    receivedAt := some env.receivedAt
    attribution := some attribution }

/-- The buffering step of the paused branch, for a buffer of the given
capacity (`MAX_BUFFER_SIZE` in the source): `shift()` when the buffer is at
capacity, then `push(capture)`. -/
def bufferPush (capacity : Nat) (buffer : List Capture) (capture : Capture) : List Capture :=
  (if buffer.length ≥ capacity then buffer.drop 1 else buffer) ++ [capture]

/-- The function `handleFingerprintDetected`: the result object and the state
of the service worker after the call. -/
def handleFingerprintDetected (P : UrlParser) (w : Worker) (env : IntakeEnv)
    (payload : Option Capture) (sender : Sender) : Response × Worker :=
  match payload with
  | none => ({ success := some false, error := some "No data provided" }, w)
  | some data =>
    match sender.tab.bind fun t => t.id with
    | none => ({ success := some false, error := some "Invalid tab context - no valid tabId" }, w)
    | some tabId =>
      if tabId = 0 then
        ({ success := some false, error := some "Invalid tab context - no valid tabId" }, w)
      else if tabId ∈ w.tabsBeingCleared then
        ({ success := some true, id := data.id, ignored := some true, reason := some "tab_clearing" }, w)
      else
        let topLevelUrl := sender.tab.bind fun t => t.url
        let senderUrl := resolveSenderUrl P sender
        if isWhitelisted P w.whitelist senderUrl = false then
          ({ success := some true, id := data.id, ignored := some true,
             reason := some "not whitelisted" }, w)
        else
          let w1 := rememberTabContext P w tabId (strOr (jsOr topLevelUrl senderUrl) "")
          let enrichedData := enrich P env data sender tabId
          let (dupeCheck, dedup) := w1.deduplicator.isDuplicate env.dedupNow enrichedData
          let w2 := { w1 with deduplicator := dedup }
          if dupeCheck.isDuplicate then
            ({ success := some true, id := data.id, filtered := some true,
               reason := dupeCheck.reason }, w2)
          else if w2.isPaused then
            let w3 :=
              { w2 with captureBuffer := bufferPush MAX_BUFFER_SIZE w2.captureBuffer enrichedData }
            let w4 := notifyAllPanels w3 fun port =>
              Notification.bufferUpdate port w3.captureBuffer.length
            ({ success := some true, id := data.id, buffered := some true }, w4)
          else
            match w2.storage.addCapture enrichedData env.store with
            | (Except.error e, st) =>
              ({ success := some false, error := some e }, { w2 with storage := st })
            | (Except.ok _, st) =>
              let w3 := updateBadge { w2 with storage := st } tabId env.badge
              let w4 := notifyDevTools w3 enrichedData
              ({ success := some true, id := data.id }, w4)

/-- The loop of `flushCaptureBuffer` over the buffered captures; `envs i` gives
the storage outcomes met by the capture at position `i`. A failed `addCapture`
is caught and logged, and the loop goes on. -/
def flushLoop (w : Worker) (captures : List Capture) (envs : Nat → IntakeEnv) (i : Nat) :
    Worker :=
  match captures with
  | [] => w
  | capture :: rest =>
    let w1 :=
      match w.storage.addCapture capture (envs i).store with
      | (Except.ok _, st) =>
        let w2 :=
          match capture.tabId with
          | some t => updateBadge { w with storage := st } t (envs i).badge
          | none => { w with storage := st }
        notifyDevTools w2 capture
      | (Except.error _, st) => { w with storage := st }
    flushLoop w1 rest envs (i + 1)

/-- The function `flushCaptureBuffer`: the `flushedCount` of the returned
object and the state after the call. -/
def flushCaptureBuffer (w : Worker) (envs : Nat → IntakeEnv) : Nat × Worker :=
  if w.captureBuffer.length = 0 then (0, w)
  else
    let bufferedCaptures := w.captureBuffer
    let w1 := flushLoop { w with captureBuffer := [] } bufferedCaptures envs 0
    let w2 := notifyAllPanels w1 fun port =>
      Notification.bufferFlushed port bufferedCaptures.length
    (bufferedCaptures.length, w2)

/-- The function `setPauseState(paused)`; `persistOk` tells whether the write of
the flag to `chrome.storage.local` succeeds, and a failed write is thrown before
the buffer is flushed. -/
def setPauseState (w : Worker) (paused : Bool) (persistOk : Bool) (envs : Nat → IntakeEnv) :
    Except String Unit × Worker :=
  let w1 := { w with isPaused := paused }
  if persistOk = false then (Except.error writeError, w1)
  else
    let w2 :=
      if paused = false ∧ w1.captureBuffer.length > 0 then (flushCaptureBuffer w1 envs).2
      else w1
    (Except.ok (), notifyAllPanels w2 fun port =>
      Notification.pauseState port w2.isPaused w2.captureBuffer.length)

/-- One intake event: the outcomes met, the payload and the sender. -/
structure IntakeEvent where
  env : IntakeEnv := {}
  payload : Option Capture := none
  sender : Sender := {}
deriving DecidableEq

/-- A sequence of intake events handled one after another. -/
def intakeAll (P : UrlParser) (w : Worker) (events : List IntakeEvent) : Worker :=
  events.foldl (fun w e => (handleFingerprintDetected P w e.env e.payload e.sender).2) w

/-- The enriched records of the events of a sequence that were answered
`buffered: true`, in arrival order. -/
def bufferedRecords (P : UrlParser) (w : Worker) : List IntakeEvent → List Capture
  | [] => []
  | e :: rest =>
    let r := handleFingerprintDetected P w e.env e.payload e.sender
    (if r.1.buffered = some true then
        [enrich P e.env (e.payload.getD {}) e.sender ((e.sender.tab.bind fun t => t.id).getD 0)]
      else []) ++ bufferedRecords P r.2 rest

/-- The captures of a buffer added to the store one after another, as
`flushCaptureBuffer` does, the outcome of each `addCapture` left aside. -/
def addAll (s : StorageManager) (captures : List Capture) (backends : Nat → Backend) (i : Nat) :
    StorageManager :=
  match captures with
  | [] => s
  | capture :: rest => addAll (s.addCapture capture (backends i)).2 rest backends (i + 1)

/-! ## Notions used to state the trimming properties -/

/-- The order in which `trimCaptures` visits the tab groups of a collection. -/
def tabOrder (captures : List Capture) : List Nat :=
  (forInOrder (groupByTab captures)).map Prod.fst

/-- The captures of one tab group, in the order of the collection. -/
def tabGroup (captures : List Capture) (key : Nat) : List Capture :=
  captures.filter fun c => tabKey c = key

/-- The object `byTab` built from a collection: its keys are distinct, they are
the tab keys of the collection, and each key holds the captures of its group
in the order of the collection. -/
def Grouped (l : List Capture) (m : List (Nat × List Capture)) : Prop :=
  (m.map Prod.fst).Nodup ∧ (∀ e ∈ m, e.2 = tabGroup l e.1) ∧
    ∀ k, k ∈ m.map Prod.fst ↔ k ∈ l.map tabKey

/-- The captures of a tab group that the per-tab phase keeps. -/
def keptOfTab (captures : List Capture) (key : Nat) : List Capture :=
  (sortNewestFirst (tabGroup captures key)).take MAX_CAPTURES_PER_TAB

/-- The captures that the per-tab phase of `trimCaptures` keeps, all groups together. -/
def keptPerTab (captures : List Capture) : List Capture :=
  (tabOrder captures).flatMap (keptOfTab captures)

/-- The captures of a tab group that the per-tab phase drops. -/
def droppedOfTab (captures : List Capture) (key : Nat) : List Capture :=
  (sortNewestFirst (tabGroup captures key)).drop MAX_CAPTURES_PER_TAB

/-- The bound of the store: at most `MAX_TOTAL_CAPTURES` captures in total and
at most `MAX_CAPTURES_PER_TAB` captures for any one `tabId` value. -/
def Bounded (captures : List Capture) : Prop :=
  captures.length ≤ MAX_TOTAL_CAPTURES ∧
    ∀ tab : Option Nat, captures.countP (fun c => c.tabId = tab) ≤ MAX_CAPTURES_PER_TAB

/-- The host that `getSiteBase` works on: the hostname trimmed and lower-cased. -/
def normalizedHost (hostname : String) : List Char := jsToLowerCase (jsTrim hostname.data)

/-- The labels of a host: the non-empty parts between dots. -/
def labelsOf (host : List Char) : List (List Char) :=
  (jsSplit '.' host).filter fun l => l ≠ []

/-- The specification of the query, in its words: a capture satisfies every
filter that is in force. A string filter is in force when it is a non-empty
string, `since` when it is a non-zero number, `tabId` when it is present. -/
def matchesFilters (P : UrlParser) (filters : Filters) (c : Capture) : Bool :=
  (!truthyStr filters.method || decide (c.method = filters.method)) &&
  (!filters.tabId.isSome || decide (c.tabId = filters.tabId)) &&
  (!truthyStr filters.domain || domainMatches P (filters.domain.getD "") c) &&
  (!truthyInt filters.since || decide (filters.since.getD 0 ≤ c.timestamp)) &&
  (!truthyStr filters.search || searchMatches (filters.search.getD "") c)

/-- The specification of the query, in its words: filter, sort newest first,
then the page `[offset, offset + limit)` when a non-zero limit is given. -/
def querySpec (P : UrlParser) (filters : Filters) (collection : List Capture) : List Capture :=
  let sorted := sortNewestFirst (collection.filter (matchesFilters P filters))
  match filters.limit with
  | some limit =>
    if limit ≠ 0 then (sorted.drop (filters.offset.getD 0)).take limit else sorted
  | none => sorted

/-- What `addCapture` does to the durable collection. -/
def addDurable (durable : List Capture) (capture : Capture) (b : Backend) : List Capture :=
  if b.readOk = true ∧ ∃ x ∈ durable, x.id = capture.id then durable
  else if b.writeOk = true then
    trimCaptures ((if b.readOk = true then durable else []) ++ [capture])
  else durable

/-- The durable collection after the captures of a buffer were added one after another. -/
def addAllDurable (durable : List Capture) (captures : List Capture) (backends : Nat → Backend)
    (i : Nat) : List Capture :=
  match captures with
  | [] => durable
  | capture :: rest =>
    addAllDurable (addDurable durable capture (backends i)) rest backends (i + 1)

/-- The answers `isDuplicate` of the method `isDuplicate` applied to the
captures from left to right, each on the state left by the calls before it. -/
def Deduplicator.verdicts (self : Deduplicator) : List (Int × Capture) → List Bool
  | [] => []
  | call :: rest =>
    (self.isDuplicate call.1 call.2).1.isDuplicate ::
      Deduplicator.verdicts (self.isDuplicate call.1 call.2).2 rest

/-- The captures of the input whose verdict is not-duplicate, in input order. -/
def Deduplicator.accepted (self : Deduplicator) (calls : List (Int × Capture)) : List Capture :=
  ((calls.zip (self.verdicts calls)).filter fun p => !p.2).map fun p => p.1.2

/-- What the platform parser guarantees about schemes: a string that it parses
to an `http:` or `https:` URL is not empty, is not the word `unknown`, and does
not start with `blob:`, `data:` or `javascript:` (the parser would read that
prefix as the scheme). -/
def ReadsScheme (P : UrlParser) : Prop :=
  ∀ (s : String) (u : Url), P s = some u → (u.protocol = "http:" ∨ u.protocol = "https:") →
    s ≠ "" ∧ s ≠ "unknown" ∧ "blob:".data.isPrefixOf s.data = false ∧
      "data:".data.isPrefixOf s.data = false ∧ "javascript:".data.isPrefixOf s.data = false

/-- The order of `for (const tabId in byTab)` on two distinct keys of which at
most one is not an array index: an array index comes before a greater array
index and before a key that is not an array index. -/
def tabBefore (a b : Nat) : Prop := isArrayIndex a = true ∧ (isArrayIndex b = true → a < b)

/-- The order of two captures in the concatenation of the tab groups. -/
def groupBefore (a b : Capture) : Prop :=
  tabKey a = tabKey b ∨ tabBefore (tabKey a) (tabKey b)

/-- The order that a stable sort by timestamp gives to a concatenation of tab
groups: newest first, and captures of one timestamp in the order of their groups. -/
def stableBefore (a b : Capture) : Prop := newerFirst a b ∧ (newerFirst b a → groupBefore a b)

/-- The value of a decimal digit character. -/
def digitValue (c : Char) : Nat := c.toNat - 48

/-- The number written by a list of decimal digits. -/
def decimalValue (l : List Char) : Nat := l.foldl (fun acc c => 10 * acc + digitValue c) 0

/-- The third part of the signature: `capture.source?.url || ''`. -/
def sigUrl (c : Capture) : String := strOr (c.source.bind fun s => s.url) ""

/-- The fourth part of the signature: `capture.source?.line || 0`. -/
def sigLine (c : Capture) : Int := intOr (c.source.bind fun s => s.line) 0

/-- The parameter code pushed for `getParameter`, when there is one. -/
def sigCode (c : Capture) : Option Int :=
  if c.method = some "getParameter" ∧ truthyInt (c.data.bind fun d => d.parameterCode) = true then
    c.data.bind fun d => d.parameterCode
  else none

/-- The text pushed for `measureText`, when there is one: its first 50 characters. -/
def sigText (c : Capture) : Option String :=
  if c.method = some "measureText" ∧ truthyStr (c.arguments.bind fun a => a.text) = true then
    some (substring0 ((c.arguments.bind fun a => a.text).getD "") 50)
  else none

/-- The `data.property` pushed, when there is one. -/
def sigProperty (c : Capture) : Option String :=
  if truthyStr (c.data.bind fun d => d.property) = true then c.data.bind fun d => d.property
  else none

/-- The parts pushed after the first four, as strings. -/
def discriminators (c : Capture) : List String :=
  (sigCode c).toList.map toString ++ (sigText c).toList ++ (sigProperty c).toList

/-- The characters that the pushed parts add to the signature. -/
def sigTail (ds : List String) : List Char := ds.flatMap fun d => '|' :: d.data

/-- Reading a doubled text back: each pair of double quotes is one double quote. -/
def undoubleQuotes : List Char → List Char
  | [] => []
  | [c] => [c]
  | c :: d :: rest =>
    if c = '"' ∧ d = '"' then '"' :: undoubleQuotes rest else c :: undoubleQuotes (d :: rest)

/-- Reading a cell back: the text between the outer double quotes, un-doubled. -/
def csvCellText (cell : String) : String :=
  String.mk (undoubleQuotes (cell.data.drop 1).dropLast)

/-- What a mutating operation run on its own does to the durable collection,
told by the stages of its body. -/
def WriteOp.durableAfter (op : WriteOp) (durable : List Capture) (b : Backend) : List Capture :=
  let next : Stage :=
    match op.start with
    | Stage.reading => op.afterRead (if b.readOk then durable else [])
    | s => s
  match next with
  | Stage.writing captures => if b.writeOk then captures else durable
  | _ => durable

/-- The durable collection after the operations were applied one after another. -/
def durableAfterAll (durable : List Capture) (ops : List (WriteOp × Backend)) : List Capture :=
  ops.foldl (fun d e => e.1.durableAfter d e.2) durable

/-- Where control is in the chain of promises of the write queue: nowhere (every
task has settled and `_writeQueue` is settled), in the job that calls task `i`,
in the body of task `i`, in the job that settles the promise `next` of task `i`,
or in the job that settles the promise `_writeQueue` set when task `i` was
enqueued. -/
inductive Token where
  | idle
  | start (i : Nat)
  | active (i : Nat)
  | adopting (i : Nat) (how : Settlement)
  | releasing (i : Nat) (how : Settlement)

/-- The reaction registered on the promise `next` of task `j` by `next.catch`. -/
def nextReaction (j : Nat) : Reaction :=
  { onFulfilled := Handler.passOn, onRejected := Handler.returnUndefined, derived := 2 * j + 2 }

/-- The reactions registered on the promise `_writeQueue` set when task `j` was
enqueued, when `n` tasks have been enqueued. -/
def queueReactions (n j : Nat) : List Reaction :=
  if j + 1 < n then
    [{ onFulfilled := Handler.callTask (j + 1), onRejected := Handler.callTask (j + 1),
       derived := 2 * j + 3 }]
  else []

/-- The number of settled tasks. -/
def Token.settledCount (n : Nat) : Token → Nat
  | Token.idle => n
  | Token.start i => i
  | Token.active i => i
  | Token.adopting i _ => i + 1
  | Token.releasing i _ => i + 1

/-- The position of the first task that has not been called. -/
def Token.firstQueued (n : Nat) : Token → Nat
  | Token.idle => n
  | Token.start i => i
  | Token.active i => i + 1
  | Token.adopting i _ => i + 1
  | Token.releasing i _ => i + 1

/-- The position of the first task whose promise `next` is pending. -/
def Token.firstNext (n : Nat) : Token → Nat
  | Token.idle => n
  | Token.start i => i
  | Token.active i => i
  | Token.adopting i _ => i
  | Token.releasing i _ => i + 1

/-- The position of the first task whose promise `_writeQueue` is pending. -/
def Token.firstQueue (n : Nat) : Token → Nat
  | Token.idle => n
  | Token.start i => i
  | Token.active i => i
  | Token.adopting i _ => i
  | Token.releasing i _ => i

/-- The microtask queue. -/
def Token.jobs : Token → List Job
  | Token.idle => []
  | Token.start i =>
    [{ handler := Handler.callTask i, settlement := Settlement.fulfilled, derived := 2 * i + 1 }]
  | Token.active _ => []
  | Token.adopting i how =>
    [{ handler := Handler.resolveDerived, settlement := how, derived := 2 * i + 1 }]
  | Token.releasing i how => [reactionJob how (nextReaction i)]

/-- The task that the token is at is one of the `n` tasks. -/
def Token.valid (n : Nat) : Token → Prop
  | Token.idle => True
  | Token.start i => i < n
  | Token.active i => i < n
  | Token.adopting i _ => i < n
  | Token.releasing i _ => i < n

/-- The state of the body of the task that holds the token. -/
def ActiveTask (durable : List Capture) (i : Nat) (t : WriteTask) : Prop :=
  t.reactions =
    [{ onFulfilled := Handler.resolveDerived, onRejected := Handler.resolveDerived,
       derived := 2 * i + 1 }] ∧
  ((t.stage = Stage.reading ∧ t.op.start = Stage.reading) ∨
    ∃ captures, t.stage = Stage.writing captures ∧
      t.op.durableAfter durable t.backend = if t.backend.writeOk then captures else durable)

/-- The invariant of the write queue, for a durable collection `d0` at the start. -/
structure QueueInv (d0 : List Capture) (q : WriteQueue) (tok : Token) : Prop where
  valid : tok.valid q.tasks.length
  allocated : q.allocated = 2 * q.tasks.length + 1
  writeQueue : q.writeQueue = 2 * q.tasks.length
  jobs : q.jobs = tok.jobs
  settledTasks : ∀ j t, q.tasks[j]? = some t → j < tok.settledCount q.tasks.length →
    ∃ how, t.stage = Stage.settled how
  queuedTasks : ∀ j t, q.tasks[j]? = some t → tok.firstQueued q.tasks.length ≤ j →
    t.stage = Stage.queued
  activeTask : ∀ i, tok = Token.active i →
    ∃ t, q.tasks[i]? = some t ∧ ActiveTask q.storage.durable i t
  nextPromises : ∀ j, tok.firstNext q.tasks.length ≤ j → j < q.tasks.length →
    q.promises (2 * j + 1) = { settled := none, reactions := [nextReaction j] }
  queuePromises : ∀ j, tok.firstQueue q.tasks.length ≤ j → j < q.tasks.length →
    q.promises (2 * j + 2) = { settled := none, reactions := queueReactions q.tasks.length j }
  idleQueue : tok = Token.idle →
    (q.promises (2 * q.tasks.length)).settled = some Settlement.fulfilled
  durable : q.storage.durable =
    durableAfterAll d0 (q.ops.take (tok.settledCount q.tasks.length))

/-- Whether a body awaits its write. -/
def Stage.isWriting : Stage → Bool
  | Stage.writing _ => true
  | _ => false

/-- The number of steps that the queue still needs, at most, to settle every task. -/
def stepsLeft (q : WriteQueue) : Token → Nat
  | Token.idle => 0
  | Token.start i => 5 * (q.tasks.length - i)
  | Token.active i =>
    5 * (q.tasks.length - i) -
      (if ((q.tasks[i]?).map fun t => t.stage.isWriting) = some true then 2 else 1)
  | Token.adopting i _ => 5 * (q.tasks.length - i) - 3
  | Token.releasing i _ => 5 * (q.tasks.length - i) - 4

/-! ## Example inputs -/

/-- The `getParameter` capture of the specification's dedup-by-rate example, with a given id. -/
def exampleGetParameter (id : String) : Capture :=
  { id := some id, category := some "canvas", method := some "getParameter",
    source := some { url := some "a.js", line := some 1 },
    data := some { parameterCode := some 37445 } }

/-- A Deduplicator configured with the gap at 50 ms. -/
def exampleDedup : Deduplicator := Deduplicator.new { sameMethodMinGapMs := some 50 }

/-- A collection of 150 captures of tab 1 with timestamps 0 to 149. -/
def exampleOneTab : List Capture :=
  (List.range 150).map fun (i : Nat) =>
    { id := some (toString i), tabId := some 1, timestamp := (i : Int) }

/-- A collection of 501 captures: 499 of tab 1 and 2 of tab 2. -/
def exampleTwoTabs : List Capture :=
  ((List.range 499).map fun (i : Nat) =>
      { id := some (toString i), tabId := some 1, timestamp := (i : Int) }) ++
    (List.range 2).map fun (i : Nat) =>
      { id := some (toString (499 + i)), tabId := some 2, timestamp := ((499 + i : Nat) : Int) }

/-- A store whose durable collection holds 501 captures of 501 tabs. -/
def exampleOverfull : StorageManager :=
  { durable := (List.range 501).map fun (i : Nat) =>
      { id := some (toString i), tabId := some (i + 1), timestamp := (i : Int) } }

/-- The platform parser on the URLs of the examples; any other string is
taken not to parse. -/
def exampleParser : UrlParser := fun s =>
  if s = "https://a.com/page" then some ⟨"https:", "a.com", "/page"⟩
  else if s = "https://cdn.b.com/script.js" then some ⟨"https:", "cdn.b.com", "/script.js"⟩
  else if s = "https://a.com/inline-ish.js" then some ⟨"https:", "a.com", "/inline-ish.js"⟩
  else if s = "https://a.com/inline-ish.js?v=1" then some ⟨"https:", "a.com", "/inline-ish.js"⟩
  else none

/-- A service worker that monitors `a.com`, with one stored capture, one
buffered capture and tab 7 being cleared. -/
def exampleWorker : Worker :=
  { whitelist := ["a.com"]
    tabsBeingCleared := [7]
    isPaused := true
    captureBuffer := [{ id := some "buffered", tabId := some 3 }]
    storage := { durable := [{ id := some "stored", tabId := some 3 }] } }

/-- A source URL of 221 characters that is not an http(s) URL. -/
def exampleLongSource : String := String.mk (List.replicate 221 'x')

/-- A Deduplicator that has seen 1001 ids, the strings of 0 to 1000 letters x. -/
def exampleManyIds : Deduplicator :=
  { windowMs := 1000, sameMethodMinGapMs := 50,
    recentSignatures := [("canvas|toDataURL||0", 100), ("canvas|getImageData||0", 2000)],
    recentIds := (List.range 1001).map fun (i : Nat) => some (String.mk (List.replicate i 'x')) }

/-- Two captures from `a.com` in tab 5, 100 ms apart. -/
def exampleEvents : List IntakeEvent :=
  [{ env := { dedupNow := 1000 },
     payload := some { id := some "p", method := some "toDataURL" },
     sender := { tab := some { id := some 5, url := some "https://a.com/page" },
                 url := some "https://a.com/page" } },
   { env := { dedupNow := 1100 },
     payload := some { id := some "q", method := some "getImageData" },
     sender := { tab := some { id := some 5, url := some "https://a.com/page" },
                 url := some "https://a.com/page" } }]

/-- An intake event from `a.com` in tab 5 whose payload carries the page URL of
a `srcdoc` frame, with a query string and a fragment. -/
def exampleSrcdocEvent : IntakeEvent :=
  { env := { dedupNow := 1000 },
    payload := some { id := some "z", method := some "toDataURL",
                      pageUrl := some "about:srcdoc?token=1#frag" },
    sender := { tab := some { id := some 5, url := some "https://a.com/page" },
                url := some "https://a.com/page" } }

/-- A paused service worker with one stored capture, two buffered captures and a
DevTools panel connected for tab 3. -/
def exampleBuffered : Worker :=
  { isPaused := true
    captureBuffer :=
      [{ id := some "b1", tabId := some 3, timestamp := 20 },
       { id := some "b2", tabId := some 4, timestamp := 30 }]
    storage := { durable := [{ id := some "s0", tabId := some 3, timestamp := 10 }] }
    devToolsPorts := [3] }

/-- A store whose durable collection holds the ids a and b. -/
def exampleStored : StorageManager :=
  { durable := [{ id := some "a", tabId := some 1 }, { id := some "b", tabId := some 1 }] }

/-- Three captures of two tabs whose keys in `byTab` are not array indices: tab
id 0 (the key `unknown`) and tab id 4294967295. -/
def exampleLargeTabIds : List Capture :=
  [{ id := some "a", tabId := some 0, timestamp := 1 },
   { id := some "b", tabId := some 4294967295, timestamp := 2 },
   { id := some "c", tabId := some 4294967295, timestamp := 1 }]

/-- The platform formatter on the time values of the examples. Any other time
value is taken to be invalid, as is 8640000000000001, which lies beyond the
8.64e15 ms that a `Date` can hold and for which `toISOString` throws. -/
def exampleIso : IsoFormatter := fun t =>
  if t = 0 then some "1970-01-01T00:00:00.000Z"
  else if t = 1700000000000 then some "2023-11-14T22:13:20.000Z"
  else none

/-- Three `addCapture` calls; the write of the second fails. The first task is
called, the third call comes while it reads, and its read completes. -/
def exampleQueueEvents : List QueueEvent :=
  [QueueEvent.call (WriteOp.add { id := some "a", tabId := some 1, timestamp := 1 }) {},
   QueueEvent.call (WriteOp.add { id := some "b", tabId := some 1, timestamp := 2 })
     { writeOk := false },
   QueueEvent.microtask,
   QueueEvent.call (WriteOp.add { id := some "c", tabId := some 1, timestamp := 3 }) {},
   QueueEvent.storageCallDone 1,
   QueueEvent.storageCallDone 0]

/-! ## Properties of the Deduplicator -/

theorem cleanup_recentIds_of_small (d : Deduplicator) (now : Int)
    (h : d.recentIds.length ≤ 1000) : (d.cleanup now).recentIds = d.recentIds := by
  unfold Deduplicator.cleanup
  simp only
  rw [if_neg (by omega)]

theorem cleanups_recentIds_of_small (ticks : List Int) (d : Deduplicator)
    (h : d.recentIds.length ≤ 1000) : (d.cleanups ticks).recentIds = d.recentIds := by
  induction ticks generalizing d with
  | nil => rfl
  | cons t ts ih =>
    have h1 := cleanup_recentIds_of_small d t h
    show ((d.cleanup t).cleanups ts).recentIds = d.recentIds
    rw [ih (d.cleanup t) (by rw [h1]; exact h), h1]

theorem isDuplicate_of_mem (d : Deduplicator) (now : Int) (c : Capture)
    (h : c.id ∈ d.recentIds) :
    d.isDuplicate now c = ({ isDuplicate := true, reason := some "duplicate_id" }, d) := by
  unfold Deduplicator.isDuplicate
  rw [if_pos h]

theorem isDuplicate_fresh (d : Deduplicator) (now : Int) (c : Capture)
    (hids : d.recentIds = []) (hsigs : d.recentSignatures = []) :
    d.isDuplicate now c =
      ({ isDuplicate := false },
        { d with recentIds := [c.id], recentSignatures := [(generateSignature c, now)] }) := by
  unfold Deduplicator.isDuplicate
  simp [hids, hsigs, mapGet, mapSet, setAdd, truthyInt]

/-- C1. Dedup by id: on a freshly constructed or a cleared Deduplicator the
first `isDuplicate(c)` answers not-duplicate, and a later `isDuplicate` of any
capture with the same id answers duplicate with reason `duplicate_id`,
whatever the two clock values and however many periodic cleanups ran between
the two calls. It holds for every id value, so for every defined id. -/
theorem dedup_by_id (options : DedupOptions) (old : Deduplicator) (c c' : Capture)
    (t1 t2 : Int) (ticks : List Int) (hid : c'.id = c.id) :
    ∀ d0 : Deduplicator, d0 = Deduplicator.new options ∨ d0 = old.clear →
      (d0.isDuplicate t1 c).1 = { isDuplicate := false } ∧
      ((((d0.isDuplicate t1 c).2).cleanups ticks).isDuplicate t2 c').1 =
        { isDuplicate := true, reason := some "duplicate_id" } := by
  intro d0 hd0
  have hfresh : d0.recentIds = [] ∧ d0.recentSignatures = [] := by
    rcases hd0 with h | h <;> subst h <;> exact ⟨rfl, rfl⟩
  rw [isDuplicate_fresh d0 t1 c hfresh.1 hfresh.2]
  refine ⟨rfl, ?_⟩
  rw [isDuplicate_of_mem]
  rw [cleanups_recentIds_of_small]
  · simp [hid]
  · simp

/-- Witness of C1: the same id checked twice, five seconds and one cleanup apart. -/
theorem dedup_by_id_witness :
    (((Deduplicator.new {}).isDuplicate 1000 { id := some "a", method := some "toDataURL" }).1 =
        { isDuplicate := false } ∧
      (((((Deduplicator.new {}).isDuplicate 1000 { id := some "a", method := some "toDataURL" }).2).cleanups
          [5000]).isDuplicate 6000 { id := some "a", method := some "getImageData" }).1 =
        { isDuplicate := true, reason := some "duplicate_id" }) :=
  dedup_by_id {} (Deduplicator.new {}) { id := some "a", method := some "toDataURL" }
    { id := some "a", method := some "getImageData" } 1000 6000 [5000] rfl
    (Deduplicator.new {}) (Or.inl rfl)

/-- C2. Dedup by rate: two captures with different ids and the same signature,
checked on a fresh Deduplicator at clock values `t1` and `t2`, `t1` not zero
(so in particular for `0 < t1 <= t2`): the first is not a duplicate, and the
second is a duplicate with reason `too_fast` exactly when
`t2 - t1 < sameMethodMinGapMs`, and is accepted otherwise. -/
theorem dedup_by_rate (options : DedupOptions) (c1 c2 : Capture) (t1 t2 : Int)
    (hid : c1.id ≠ c2.id) (hsig : generateSignature c1 = generateSignature c2)
    (ht1 : t1 ≠ 0) :
    ((Deduplicator.new options).isDuplicate t1 c1).1 = { isDuplicate := false } ∧
    ((((Deduplicator.new options).isDuplicate t1 c1).2.isDuplicate t2 c2).1 =
        { isDuplicate := true, reason := some "too_fast" } ↔
      t2 - t1 < (Deduplicator.new options).sameMethodMinGapMs) ∧
    ((((Deduplicator.new options).isDuplicate t1 c1).2.isDuplicate t2 c2).1 =
        { isDuplicate := false } ↔
      ¬ t2 - t1 < (Deduplicator.new options).sameMethodMinGapMs) := by
  rw [isDuplicate_fresh _ t1 c1 rfl rfl]
  refine ⟨rfl, ?_⟩
  have hne : ¬ c2.id = c1.id := fun h => hid h.symm
  by_cases hgap : t2 - t1 < (Deduplicator.new options).sameMethodMinGapMs
  · simp [Deduplicator.isDuplicate, hne, hsig, mapGet, truthyInt, ht1, hgap]
  · simp [Deduplicator.isDuplicate, hne, hsig, mapGet, truthyInt, ht1, hgap]

/-- Witness of C2: the `getParameter` captures of the specification with the
gap at 50, checked 10 ms apart (rejected) and 60 ms apart (accepted). -/
theorem dedup_by_rate_witness :
    ((exampleDedup.isDuplicate 1000 (exampleGetParameter "a")).2.isDuplicate 1010
        (exampleGetParameter "b")).1 = { isDuplicate := true, reason := some "too_fast" } ∧
    ((exampleDedup.isDuplicate 1000 (exampleGetParameter "a")).2.isDuplicate 1060
        (exampleGetParameter "b")).1 = { isDuplicate := false } :=
  ⟨(dedup_by_rate { sameMethodMinGapMs := some 50 } (exampleGetParameter "a")
      (exampleGetParameter "b") 1000 1010 (by decide) rfl (by decide)).2.1.mpr (by decide),
   (dedup_by_rate { sameMethodMinGapMs := some 50 } (exampleGetParameter "a")
      (exampleGetParameter "b") 1000 1060 (by decide) rfl (by decide)).2.2.mpr (by decide)⟩

/-- C3. Recording happens only on the not-duplicate path: when `isDuplicate`
answers duplicate (with either reason) the whole state, so the set of seen ids
and the signature-to-timestamp map, is what it was before the call; every
later call therefore answers as if the rejected attempt had not been made. -/
theorem duplicate_leaves_state (d : Deduplicator) (now : Int) (c : Capture)
    (hdup : (d.isDuplicate now c).1.isDuplicate = true) :
    (d.isDuplicate now c).2 = d ∧
    (d.isDuplicate now c).2.recentIds = d.recentIds ∧
    (d.isDuplicate now c).2.recentSignatures = d.recentSignatures ∧
    ∀ (now' : Int) (c' : Capture),
      (d.isDuplicate now c).2.isDuplicate now' c' = d.isDuplicate now' c' := by
  have hstate : (d.isDuplicate now c).2 = d := by
    unfold Deduplicator.isDuplicate at hdup ⊢
    simp only [] at hdup ⊢
    split_ifs at hdup ⊢ <;> rfl
  refine ⟨hstate, ?_, ?_, ?_⟩
  · rw [hstate]
  · rw [hstate]
  · intro now' c'
    rw [hstate]

/-- Witness of C3: a second attempt 10 ms after an accepted call is rejected
and changes nothing. -/
theorem duplicate_leaves_state_witness :
    ((Deduplicator.mk 1000 50 [("canvas|toDataURL||0", 1000)] [some "a"]).isDuplicate 1010
        { id := some "b", method := some "toDataURL" }).2 =
      Deduplicator.mk 1000 50 [("canvas|toDataURL||0", 1000)] [some "a"] :=
  (duplicate_leaves_state (Deduplicator.mk 1000 50 [("canvas|toDataURL||0", 1000)] [some "a"])
    1010 { id := some "b", method := some "toDataURL" } (by decide)).1

theorem isDuplicate_recentIds_subset (d : Deduplicator) (now : Int) (c : Capture)
    (x : Option String) (hx : x ∈ (d.isDuplicate now c).2.recentIds) :
    x ∈ d.recentIds ∨ x = c.id := by
  unfold Deduplicator.isDuplicate at hx
  simp only [setAdd] at hx
  split_ifs at hx
  all_goals first
    | exact Or.inl hx
    | simpa using hx

theorem run_recentIds_defined (calls : List (Int × Capture)) (d : Deduplicator)
    (hd : none ∉ d.recentIds) (hcalls : ∀ call ∈ calls, call.2.id ≠ none) :
    none ∉ (d.run calls).recentIds := by
  induction calls generalizing d with
  | nil => exact hd
  | cons call rest ih =>
    show none ∉ (((d.isDuplicate call.1 call.2).2).run rest).recentIds
    apply ih
    · intro hmem
      rcases isDuplicate_recentIds_subset d call.1 call.2 none hmem with h | h
      · exact hd h
      · exact hcalls call (List.mem_cons_self _ _) h.symm
    · intro call' hcall'
      exact hcalls call' (List.mem_cons_of_mem _ hcall')

theorem isDuplicate_accept_records_id (d : Deduplicator) (now : Int) (c : Capture)
    (hacc : (d.isDuplicate now c).1.isDuplicate = false) :
    c.id ∈ (d.isDuplicate now c).2.recentIds := by
  unfold Deduplicator.isDuplicate at hacc ⊢
  simp only [setAdd] at hacc ⊢
  split_ifs at hacc ⊢
  all_goals simp_all

/-- Counterexample to C4: on a fresh Deduplicator an accepted capture without
id is followed, four seconds later, by a capture without id and with another
signature; the second is rejected with reason `duplicate_id`. -/
theorem missing_id_counterexample :
    (((Deduplicator.new {}).isDuplicate 1000 { method := some "toDataURL" }).2.isDuplicate 5000
        { method := some "getImageData" }).1 =
      { isDuplicate := true, reason := some "duplicate_id" } := by
  decide

/-- C4, amended. A capture without id is looked up in the id set like any
other value: `isDuplicate` answers `duplicate_id` for it exactly when
`undefined` is among the seen ids. On a state reached from a fresh
Deduplicator by `isDuplicate` calls whose captures all carried an id it never
answers `duplicate_id`: it is accepted or rejected as `too_fast`. Once it has
been accepted, every later capture without id is rejected as `duplicate_id`. -/
theorem missing_id_by_id (options : DedupOptions) (calls : List (Int × Capture))
    (hcalls : ∀ call ∈ calls, call.2.id ≠ none) (now : Int) (c : Capture) (hc : c.id = none) :
    (∀ (d : Deduplicator) (t : Int),
      (d.isDuplicate t c).1 = { isDuplicate := true, reason := some "duplicate_id" } ↔
        none ∈ d.recentIds) ∧
    ((((Deduplicator.new options).run calls).isDuplicate now c).1 = { isDuplicate := false } ∨
      (((Deduplicator.new options).run calls).isDuplicate now c).1 =
        { isDuplicate := true, reason := some "too_fast" }) ∧
    ((((Deduplicator.new options).run calls).isDuplicate now c).1.isDuplicate = false →
      ∀ (now' : Int) (c' : Capture), c'.id = none →
        (((((Deduplicator.new options).run calls).isDuplicate now c).2).isDuplicate now' c').1 =
          { isDuplicate := true, reason := some "duplicate_id" }) := by
  have hiff : ∀ (d : Deduplicator) (t : Int),
      (d.isDuplicate t c).1 = { isDuplicate := true, reason := some "duplicate_id" } ↔
        none ∈ d.recentIds := by
    intro d t
    constructor
    · intro h
      unfold Deduplicator.isDuplicate at h
      simp only [] at h
      split_ifs at h with h1 h2
      · rw [← hc]; exact h1
      · simp at h
      · simp at h
    · intro h
      rw [isDuplicate_of_mem d t c (by rw [hc]; exact h)]
  refine ⟨hiff, ?_, ?_⟩
  · have hnone : none ∉ ((Deduplicator.new options).run calls).recentIds :=
      run_recentIds_defined calls _ (by simp [Deduplicator.new]) hcalls
    unfold Deduplicator.isDuplicate
    simp only []
    rw [if_neg (by rw [hc]; exact hnone)]
    split_ifs
    · exact Or.inr rfl
    · exact Or.inl rfl
  · intro hacc now' c' hc'
    have hmem := isDuplicate_accept_records_id _ now c hacc
    rw [isDuplicate_of_mem _ now' c' (by rw [hc', ← hc]; exact hmem)]

/-- Witness of C4 (amended): after two calls with ids, a capture without id. -/
theorem missing_id_by_id_witness :
    ((((Deduplicator.new {}).run
          [(1000, { id := some "a", method := some "toDataURL" }),
           (1010, { id := some "b", method := some "toDataURL" })]).isDuplicate 1020
        { method := some "toDataURL" }).1 = { isDuplicate := false } ∨
      (((Deduplicator.new {}).run
          [(1000, { id := some "a", method := some "toDataURL" }),
           (1010, { id := some "b", method := some "toDataURL" })]).isDuplicate 1020
        { method := some "toDataURL" }).1 = { isDuplicate := true, reason := some "too_fast" }) :=
  (missing_id_by_id {}
    [(1000, { id := some "a", method := some "toDataURL" }),
     (1010, { id := some "b", method := some "toDataURL" })]
    (by decide) 1020 { method := some "toDataURL" } rfl).2.1

/-! ## Properties of `trimCaptures` -/

theorem foldl_concat_eq_flatMap {α β : Type} (g : α → List β) (l : List α) (acc : List β) :
    l.foldl (fun r e => r ++ g e) acc = acc ++ l.flatMap g := by
  induction l generalizing acc with
  | nil => simp
  | cons a l ih => simp [ih, List.append_assoc]

theorem byTabPush_keys (m : List (Nat × List Capture)) (k : Nat) (c : Capture) :
    (byTabPush m k c).map Prod.fst =
      if k ∈ m.map Prod.fst then m.map Prod.fst else m.map Prod.fst ++ [k] := by
  induction m with
  | nil => simp [byTabPush]
  | cons e m ih =>
    obtain ⟨k', cs⟩ := e
    by_cases h : k' = k
    · simp [byTabPush, h]
    · have h' : ¬ k = k' := fun h'' => h h''.symm
      by_cases hk : k ∈ m.map Prod.fst
      · rw [if_pos hk] at ih
        simp only [byTabPush, if_neg h, List.map_cons, ih]
        rw [if_pos (List.mem_cons_of_mem _ hk)]
      · rw [if_neg hk] at ih
        simp only [byTabPush, if_neg h, List.map_cons, ih]
        rw [if_neg (by simp only [List.mem_cons, not_or]; exact ⟨h', hk⟩)]
        rfl

theorem byTabPush_mem (m : List (Nat × List Capture)) (k : Nat) (c : Capture)
    (hnd : (m.map Prod.fst).Nodup) (e : Nat × List Capture) (he : e ∈ byTabPush m k c) :
    (e.1 ≠ k ∧ e ∈ m) ∨ (e.1 = k ∧ ∃ cs, (k, cs) ∈ m ∧ e.2 = cs ++ [c]) ∨
      (e = (k, [c]) ∧ k ∉ m.map Prod.fst) := by
  induction m with
  | nil =>
    simp only [byTabPush, List.mem_singleton] at he
    exact Or.inr (Or.inr ⟨he, by simp⟩)
  | cons e' m ih =>
    obtain ⟨k', cs'⟩ := e'
    have hnd' : (m.map Prod.fst).Nodup := (List.nodup_cons.mp hnd).2
    have hk' : k' ∉ m.map Prod.fst := (List.nodup_cons.mp hnd).1
    by_cases h : k' = k
    · subst h
      simp only [byTabPush, if_pos, List.mem_cons] at he
      rcases he with he | he
      · subst he
        exact Or.inr (Or.inl ⟨rfl, cs', List.mem_cons_self _ _, rfl⟩)
      · have hne : e.1 ≠ k' := by
          intro heq
          exact hk' (heq ▸ List.mem_map_of_mem Prod.fst he)
        exact Or.inl ⟨hne, List.mem_cons_of_mem _ he⟩
    · simp only [byTabPush, if_neg h, List.mem_cons] at he
      rcases he with he | he
      · subst he
        exact Or.inl ⟨h, List.mem_cons_self _ _⟩
      · rcases ih hnd' he with ⟨h1, h2⟩ | ⟨h1, cs, h2, h3⟩ | ⟨h1, h2⟩
        · exact Or.inl ⟨h1, List.mem_cons_of_mem _ h2⟩
        · exact Or.inr (Or.inl ⟨h1, cs, List.mem_cons_of_mem _ h2, h3⟩)
        · refine Or.inr (Or.inr ⟨h1, ?_⟩)
          simp only [List.map_cons, List.mem_cons, not_or]
          exact ⟨fun h'' => h h''.symm, h2⟩

theorem grouped_push (l : List Capture) (m : List (Nat × List Capture)) (c : Capture)
    (h : Grouped l m) : Grouped (l ++ [c]) (byTabPush m (tabKey c) c) := by
  obtain ⟨hnd, hcont, hkeys⟩ := h
  refine ⟨?_, ?_, ?_⟩
  · rw [byTabPush_keys]
    split_ifs with hk
    · exact hnd
    · exact List.Nodup.append hnd (List.nodup_singleton _) (by simpa using hk)
  · intro e he
    rcases byTabPush_mem m (tabKey c) c hnd e he with ⟨h1, h2⟩ | ⟨h1, cs, h2, h3⟩ | ⟨h1, h2⟩
    · rw [hcont e h2]
      have : ¬ tabKey c = e.1 := fun h' => h1 h'.symm
      simp [tabGroup, List.filter_append, this]
    · have hcs : cs = tabGroup l (tabKey c) := hcont _ h2
      rw [h3, hcs, h1]
      simp [tabGroup, List.filter_append]
    · subst h1
      have hnone : ∀ x ∈ l, ¬ tabKey x = tabKey c := by
        intro x hx heq
        apply h2
        rw [hkeys, ← heq]
        exact List.mem_map_of_mem tabKey hx
      simp only [tabGroup, List.filter_append]
      rw [List.filter_eq_nil_iff.mpr (by simpa using hnone)]
      simp
  · intro k
    rw [byTabPush_keys]
    split_ifs with hk
    · rw [hkeys] at hk ⊢
      simp only [List.map_append, List.mem_append, List.map_cons, List.map_nil,
        List.mem_singleton]
      constructor
      · exact Or.inl
      · rintro (h' | h')
        · exact h'
        · rw [h']; exact hk
    · simp only [List.map_append, List.mem_append, List.map_cons, List.map_nil,
        List.mem_singleton, hkeys]

theorem grouped_groupByTab (l : List Capture) : Grouped l (groupByTab l) := by
  induction l using List.reverseRecOn with
  | nil => exact ⟨List.nodup_nil, by simp [groupByTab], by simp [groupByTab]⟩
  | append_singleton l c ih =>
    have : groupByTab (l ++ [c]) = byTabPush (groupByTab l) (tabKey c) c := by
      simp [groupByTab, List.foldl_append]
    rw [this]
    exact grouped_push l _ c ih

theorem forInOrder_perm (m : List (Nat × List Capture)) : List.Perm (forInOrder m) m := by
  unfold forInOrder
  have h1 := List.perm_insertionSort (fun a b : Nat × List Capture => a.1 ≤ b.1)
    (m.filter fun e => isArrayIndex e.1)
  have h2 := List.filter_append_perm (fun e : Nat × List Capture => isArrayIndex e.1) m
  exact (h1.append_right _).trans h2

theorem tabOrder_nodup (l : List Capture) : (tabOrder l).Nodup := by
  unfold tabOrder
  exact (((forInOrder_perm (groupByTab l)).map Prod.fst).nodup_iff).mpr (grouped_groupByTab l).1

theorem mem_tabOrder (l : List Capture) (k : Nat) : k ∈ tabOrder l ↔ k ∈ l.map tabKey := by
  unfold tabOrder
  rw [((forInOrder_perm (groupByTab l)).map Prod.fst).mem_iff]
  exact (grouped_groupByTab l).2.2 k

theorem trimCaptures_eq (l : List Capture) :
    trimCaptures l = (sortNewestFirst (keptPerTab l)).take MAX_TOTAL_CAPTURES := by
  unfold trimCaptures keptPerTab tabOrder
  simp only [foldl_concat_eq_flatMap, List.nil_append, List.flatMap_map]
  congr 2
  apply List.flatMap_congr
  intro e he
  have hmem : e ∈ groupByTab l := (forInOrder_perm (groupByTab l)).mem_iff.mp he
  unfold keptOfTab
  rw [(grouped_groupByTab l).2.1 e hmem]

theorem sortNewestFirst_perm (l : List Capture) : List.Perm (sortNewestFirst l) l :=
  List.perm_insertionSort newerFirst l

theorem sortNewestFirst_sorted (l : List Capture) : List.Sorted newerFirst (sortNewestFirst l) :=
  List.sorted_insertionSort newerFirst l

theorem sorted_take_drop (s : List Capture) (n : Nat) (hs : List.Sorted newerFirst s)
    (y : Capture) (hy : y ∈ s.take n) (x : Capture) (hx : x ∈ s.drop n) :
    x.timestamp ≤ y.timestamp := by
  have h : List.Pairwise newerFirst (s.take n ++ s.drop n) := by
    rw [List.take_append_drop]; exact hs
  exact (List.pairwise_append.mp h).2.2 y hy x hx

theorem mem_tabGroup (l : List Capture) (k : Nat) (c : Capture) :
    c ∈ tabGroup l k ↔ c ∈ l ∧ tabKey c = k := by
  simp [tabGroup]

theorem mem_keptOfTab (l : List Capture) (k : Nat) (c : Capture) (h : c ∈ keptOfTab l k) :
    c ∈ l ∧ tabKey c = k :=
  (mem_tabGroup l k c).mp ((sortNewestFirst_perm _).mem_iff.mp (List.mem_of_mem_take h))

theorem mem_droppedOfTab (l : List Capture) (k : Nat) (c : Capture)
    (h : c ∈ droppedOfTab l k) : c ∈ l ∧ tabKey c = k :=
  (mem_tabGroup l k c).mp ((sortNewestFirst_perm _).mem_iff.mp (List.mem_of_mem_drop h))

theorem length_keptOfTab (l : List Capture) (k : Nat) :
    (keptOfTab l k).length = min MAX_CAPTURES_PER_TAB (l.countP fun c => tabKey c = k) := by
  unfold keptOfTab
  rw [List.length_take, (sortNewestFirst_perm _).length_eq, tabGroup, List.countP_eq_length_filter]

theorem perm_flatMap_groups (ks : List Nat) (l : List Capture) (hnd : ks.Nodup)
    (hcover : ∀ c ∈ l, tabKey c ∈ ks) : List.Perm l (ks.flatMap (tabGroup l)) := by
  induction ks generalizing l with
  | nil =>
    cases l with
    | nil => exact List.Perm.nil
    | cons c l => exact absurd (hcover c (List.mem_cons_self _ _)) (List.not_mem_nil _)
  | cons k ks ih =>
    have hk : k ∉ ks := (List.nodup_cons.mp hnd).1
    have hnd' : ks.Nodup := (List.nodup_cons.mp hnd).2
    have hsplit := (List.filter_append_perm (fun c => decide (tabKey c = k)) l).symm
    have hrest : ∀ c ∈ l.filter (fun c => !decide (tabKey c = k)), tabKey c ∈ ks := by
      intro c hc
      rw [List.mem_filter] at hc
      rcases List.mem_cons.mp (hcover c hc.1) with h | h
      · simp [h] at hc
      · exact h
    have hsame : ks.flatMap (tabGroup (l.filter fun c => !decide (tabKey c = k))) =
        ks.flatMap (tabGroup l) := by
      apply List.flatMap_congr
      intro k' hk'
      have hne : k' ≠ k := fun h => hk (h ▸ hk')
      unfold tabGroup
      rw [List.filter_filter]
      apply List.filter_congr
      intro c _
      by_cases hc : tabKey c = k' <;> simp [hc, hne]
    rw [List.flatMap_cons]
    refine hsplit.trans (List.Perm.append (List.Perm.refl _) ?_)
    rw [← hsame]
    exact ih _ hnd' hrest

/-- The collection is, up to order, what `trimCaptures` keeps, what the global
phase drops and what the per-tab phase drops. -/
theorem trimCaptures_decomposition (l : List Capture) :
    List.Perm l (trimCaptures l ++
      ((sortNewestFirst (keptPerTab l)).drop MAX_TOTAL_CAPTURES ++
        (tabOrder l).flatMap (droppedOfTab l))) := by
  have hA : List.Perm l ((tabOrder l).flatMap (tabGroup l)) :=
    perm_flatMap_groups (tabOrder l) l (tabOrder_nodup l)
      (fun c hc => (mem_tabOrder l _).mpr (List.mem_map_of_mem tabKey hc))
  have hB : List.Perm ((tabOrder l).flatMap (tabGroup l))
      ((tabOrder l).flatMap fun k => keptOfTab l k ++ droppedOfTab l k) := by
    apply List.Perm.flatMap_left
    intro k _
    unfold keptOfTab droppedOfTab
    rw [List.take_append_drop]
    exact (sortNewestFirst_perm _).symm
  have hC := (List.flatMap_append_perm (tabOrder l) (keptOfTab l) (droppedOfTab l)).symm
  have hD : List.Perm (keptPerTab l) (trimCaptures l ++
      (sortNewestFirst (keptPerTab l)).drop MAX_TOTAL_CAPTURES) := by
    rw [trimCaptures_eq, List.take_append_drop]
    exact (sortNewestFirst_perm _).symm
  have hE := (hA.trans hB).trans hC
  refine hE.trans ?_
  rw [← List.append_assoc]
  exact List.Perm.append_right _ hD

theorem countP_key_keptPerTab_aux (l : List Capture) (k : Nat) (ks : List Nat)
    (hnd : ks.Nodup) :
    (ks.flatMap (keptOfTab l)).countP (fun c => tabKey c = k) ≤ MAX_CAPTURES_PER_TAB := by
  induction ks with
  | nil => simp
  | cons k' ks ih =>
    have hk' : k' ∉ ks := (List.nodup_cons.mp hnd).1
    have hnd' : ks.Nodup := (List.nodup_cons.mp hnd).2
    rw [List.flatMap_cons, List.countP_append]
    by_cases h : k' = k
    · subst h
      have hzero : (ks.flatMap (keptOfTab l)).countP (fun c => tabKey c = k') = 0 := by
        rw [List.countP_eq_zero]
        intro c hc
        obtain ⟨k'', hk'', hc'⟩ := List.mem_flatMap.mp hc
        have := (mem_keptOfTab l k'' c hc').2
        simp only [decide_eq_true_eq]
        intro heq
        exact hk' (by rw [← heq, this]; exact hk'')
      rw [hzero, Nat.add_zero]
      refine le_trans (List.countP_le_length _) ?_
      rw [length_keptOfTab]
      exact Nat.min_le_left _ _
    · have hzero : (keptOfTab l k').countP (fun c => tabKey c = k) = 0 := by
        rw [List.countP_eq_zero]
        intro c hc
        have := (mem_keptOfTab l k' c hc).2
        simp only [decide_eq_true_eq]
        intro heq
        exact h (by rw [← this, heq])
      rw [hzero, Nat.zero_add]
      exact ih hnd'

theorem trimCaptures_sublist_sorted (l : List Capture) :
    List.Sublist (trimCaptures l) (sortNewestFirst (keptPerTab l)) := by
  rw [trimCaptures_eq]
  exact List.take_sublist _ _

theorem countP_key_trimCaptures (l : List Capture) (k : Nat) :
    (trimCaptures l).countP (fun c => tabKey c = k) ≤ MAX_CAPTURES_PER_TAB := by
  refine le_trans ((trimCaptures_sublist_sorted l).countP_le _) ?_
  rw [(sortNewestFirst_perm _).countP_eq]
  exact countP_key_keptPerTab_aux l k (tabOrder l) (tabOrder_nodup l)

theorem countP_tab_le_key (l : List Capture) (tab : Option Nat) :
    l.countP (fun c => c.tabId = tab) ≤ l.countP (fun c => tabKey c = tab.getD 0) := by
  apply List.countP_mono_left
  intro c _ hc
  simp only [decide_eq_true_eq] at hc ⊢
  rw [tabKey, hc]

theorem trimCaptures_bounded (l : List Capture) : Bounded (trimCaptures l) := by
  constructor
  · rw [trimCaptures_eq]
    exact List.length_take_le _ _
  · intro tab
    exact le_trans (countP_tab_le_key _ tab) (countP_key_trimCaptures l _)

theorem nodup_all_eq_singleton (ks : List Nat) (k : Nat) (hnd : ks.Nodup)
    (hall : ∀ k' ∈ ks, k' = k) (hne : ks ≠ []) : ks = [k] := by
  match ks, hnd, hall, hne with
  | [a], _, hall, _ => rw [hall a (List.mem_singleton_self a)]
  | a :: b :: rest, hnd, hall, _ =>
    have ha := hall a (List.mem_cons_self _ _)
    have hb := hall b (List.mem_cons_of_mem _ (List.mem_cons_self _ _))
    have hab : a ∉ b :: rest := (List.nodup_cons.mp hnd).1
    exact absurd (by rw [ha, hb]; exact List.mem_cons_self _ _) hab

theorem trimCaptures_one_group (l : List Capture) (k : Nat) (hall : ∀ c ∈ l, tabKey c = k) :
    trimCaptures l = (sortNewestFirst l).take MAX_CAPTURES_PER_TAB := by
  rw [trimCaptures_eq]
  cases l with
  | nil => decide
  | cons c0 rest =>
    have horder : tabOrder (c0 :: rest) = [k] := by
      apply nodup_all_eq_singleton _ _ (tabOrder_nodup _)
      · intro k' hk'
        obtain ⟨c, hc, hck⟩ := List.mem_map.mp ((mem_tabOrder _ _).mp hk')
        rw [← hck]; exact hall c hc
      · intro hnil
        have : tabKey c0 ∈ tabOrder (c0 :: rest) :=
          (mem_tabOrder _ _).mpr (List.mem_map_of_mem tabKey (List.mem_cons_self _ _))
        rw [hnil] at this
        exact List.not_mem_nil _ this
    have hgroup : tabGroup (c0 :: rest) k = c0 :: rest := by
      unfold tabGroup
      rw [List.filter_eq_self]
      intro c hc
      simpa using hall c hc
    have hkept : keptPerTab (c0 :: rest) =
        (sortNewestFirst (c0 :: rest)).take MAX_CAPTURES_PER_TAB := by
      unfold keptPerTab keptOfTab
      rw [horder]
      simp [hgroup]
    rw [hkept]
    have hsorted : List.Sorted newerFirst
        ((sortNewestFirst (c0 :: rest)).take MAX_CAPTURES_PER_TAB) :=
      List.Pairwise.sublist (List.take_sublist _ _) (sortNewestFirst_sorted _)
    unfold sortNewestFirst at hsorted ⊢
    rw [List.Sorted.insertionSort_eq hsorted, List.take_take]
    rfl

theorem getAllCaptures_bypass (s : StorageManager) (b : Backend) :
    s.getAllCaptures true b =
      if b.readOk then
        (s.durable, { s with cache := some s.durable, cacheTime := b.readClock })
      else ([], s) := by
  unfold StorageManager.getAllCaptures
  cases s.cache <;> simp

theorem addCapture_of_present (s : StorageManager) (c : Capture) (b : Backend)
    (hread : b.readOk = true) (x : Capture) (hx : x ∈ s.durable) (hid : x.id = c.id) :
    s.addCapture c b =
      (Except.ok c.id, { s with cache := some s.durable, cacheTime := b.readClock }) := by
  unfold StorageManager.addCapture
  rw [getAllCaptures_bypass, if_pos hread]
  have hany : s.durable.any (fun c' => decide (c'.id = c.id)) = true :=
    List.any_eq_true.mpr ⟨x, hx, by simpa using hid⟩
  simp only [hany, if_true]

theorem addCapture_of_absent (s : StorageManager) (c : Capture) (b : Backend)
    (habs : ¬ (b.readOk = true ∧ ∃ x ∈ s.durable, x.id = c.id)) :
    (s.addCapture c b).2.durable =
      if b.writeOk then
        trimCaptures ((if b.readOk then s.durable else []) ++ [c])
      else s.durable := by
  unfold StorageManager.addCapture
  rw [getAllCaptures_bypass]
  by_cases hread : b.readOk = true
  · have hany : ¬ s.durable.any (fun c' => decide (c'.id = c.id)) = true := by
      intro h
      obtain ⟨x, hx, hxid⟩ := List.any_eq_true.mp h
      exact habs ⟨hread, x, hx, by simpa using hxid⟩
    simp only [hread, if_true, hany]
    by_cases hw : b.writeOk = true <;> simp [StorageManager.saveCaptures, hw]
  · simp only [hread]
    by_cases hw : b.writeOk = true <;> simp [StorageManager.saveCaptures, hw]

theorem dropped_le_kept (l : List Capture) (x : Capture)
    (hx : x ∈ (sortNewestFirst (keptPerTab l)).drop MAX_TOTAL_CAPTURES ++
      (tabOrder l).flatMap (droppedOfTab l))
    (y : Capture) (hy : y ∈ trimCaptures l) (hkey : tabKey x = tabKey y) :
    x.timestamp ≤ y.timestamp := by
  rw [trimCaptures_eq] at hy
  rcases List.mem_append.mp hx with hx | hx
  · exact sorted_take_drop _ _ (sortNewestFirst_sorted _) y hy x hx
  · obtain ⟨k, _, hxk⟩ := List.mem_flatMap.mp hx
    have hkx := (mem_droppedOfTab l k x hxk).2
    have hy1 : y ∈ keptPerTab l :=
      (sortNewestFirst_perm _).mem_iff.mp (List.mem_of_mem_take hy)
    obtain ⟨k', _, hyk⟩ := List.mem_flatMap.mp hy1
    have hky := (mem_keptOfTab l k' y hyk).2
    have hkk : k' = k := by rw [← hky, ← hkx, hkey]
    rw [hkk] at hyk
    exact sorted_take_drop _ _ (sortNewestFirst_sorted _) y hyk x hxk

theorem length_keptPerTab (l : List Capture) :
    (keptPerTab l).length =
      (((l.map tabKey).dedup).map fun k =>
        min MAX_CAPTURES_PER_TAB (l.countP fun c => tabKey c = k)).sum := by
  unfold keptPerTab
  rw [List.length_flatMap]
  have hperm : List.Perm (tabOrder l) ((l.map tabKey).dedup) := by
    rw [List.perm_ext_iff_of_nodup (tabOrder_nodup l) (List.nodup_dedup _)]
    intro k
    rw [mem_tabOrder, List.mem_dedup]
  have hfun : (List.length ∘ keptOfTab l) =
      fun k => min MAX_CAPTURES_PER_TAB (l.countP fun c => tabKey c = k) :=
    funext (length_keptOfTab l)
  rw [hfun]
  exact (hperm.map _).sum_eq

theorem bounded_nil : Bounded [] :=
  ⟨Nat.zero_le _, fun _ => Nat.zero_le _⟩

theorem bounded_filter (l : List Capture) (p : Capture → Bool) (h : Bounded l) :
    Bounded (l.filter p) :=
  ⟨le_trans (List.length_filter_le p l) h.1,
   fun tab => le_trans ((List.filter_sublist l).countP_le _) (h.2 tab)⟩

theorem saveCaptures_durable (s : StorageManager) (captures : List Capture) (b : Backend) :
    (s.saveCaptures captures b).2.durable = if b.writeOk then captures else s.durable := by
  unfold StorageManager.saveCaptures
  split_ifs <;> rfl

theorem getAllCaptures_durable (s : StorageManager) (bypass : Bool) (b : Backend) :
    (s.getAllCaptures bypass b).2.durable = s.durable := by
  unfold StorageManager.getAllCaptures
  cases s.cache <;> simp only [] <;> split_ifs <;> rfl

theorem getAllCaptures_bypass_bounded (s : StorageManager) (b : Backend)
    (h : Bounded s.durable) : Bounded (s.getAllCaptures true b).1 := by
  rw [getAllCaptures_bypass]
  split_ifs
  · exact h
  · exact bounded_nil

theorem clearCapturesByTabImmediate_bounded (s : StorageManager) (tabId : Nat) (b : Backend)
    (h : Bounded s.durable) : Bounded (s.clearCapturesByTabImmediate tabId b).2.durable := by
  unfold StorageManager.clearCapturesByTabImmediate
  simp only []
  rw [saveCaptures_durable]
  split_ifs
  · exact bounded_filter _ _ (getAllCaptures_bypass_bounded s b h)
  · rw [getAllCaptures_durable]; exact h

theorem exampleOverfull_length : exampleOverfull.durable.length = 501 := by
  simp only [exampleOverfull, List.length_map, List.length_range]

/-! ## Properties of the StorageManager -/

/-- Counterexample to C5: the durable collection holds the ids a and b and the
capture has the id a, but the read that `addCapture` makes fails, so
`getAllCaptures` gives the empty list and the id is not found. `addCapture`
returns the id, and the durable collection is replaced by the capture alone. -/
theorem addCapture_idempotent_counterexample :
    (∃ x ∈ exampleStored.durable, x.id = some "a") ∧
    (exampleStored.addCapture { id := some "a", tabId := some 2, timestamp := 5 }
        { readOk := false }).1 = Except.ok (some "a") ∧
    (exampleStored.addCapture { id := some "a", tabId := some 2, timestamp := 5 }
        { readOk := false }).2.durable = [{ id := some "a", tabId := some 2, timestamp := 5 }] ∧
    (exampleStored.addCapture { id := some "a", tabId := some 2, timestamp := 5 }
        { readOk := false }).2.durable ≠ exampleStored.durable := by
  refine ⟨⟨{ id := some "a", tabId := some 1 }, by decide, rfl⟩, rfl, by decide, by decide⟩

/-- C5, amended. Idempotent add: when the read that `addCapture` makes of the
durable collection (with `bypassCache`) succeeds and the collection already
holds a capture with the id of `c`, `addCapture(c)` returns `c.id` and leaves
the durable collection as it was: same elements, same order, same length. -/
theorem addCapture_idempotent (s : StorageManager) (c : Capture) (b : Backend)
    (hread : b.readOk = true) (x : Capture) (hx : x ∈ s.durable) (hid : x.id = c.id) :
    (s.addCapture c b).1 = Except.ok c.id ∧ (s.addCapture c b).2.durable = s.durable ∧
      (s.addCapture c b).2.durable.length = s.durable.length := by
  rw [addCapture_of_present s c b hread x hx hid]
  exact ⟨rfl, rfl, rfl⟩

/-- Witness of C5 (amended): a store holding ids a and b, and a second capture with id a. -/
theorem addCapture_idempotent_witness :
    ((StorageManager.mk [{ id := some "a", tabId := some 1 }, { id := some "b", tabId := some 1 }]
        none 0).addCapture { id := some "a", tabId := some 2, timestamp := 5 } {}).2.durable =
      [{ id := some "a", tabId := some 1 }, { id := some "b", tabId := some 1 }] :=
  (addCapture_idempotent
    (StorageManager.mk [{ id := some "a", tabId := some 1 }, { id := some "b", tabId := some 1 }]
      none 0)
    { id := some "a", tabId := some 2, timestamp := 5 } {} rfl
    { id := some "a", tabId := some 1 } (by decide) rfl).2.1

/-- C6. Per-tab trim: for every collection and every `tabId` value, the result
of `trimCaptures` holds at most `MAX_CAPTURES_PER_TAB` captures of that tab;
the collection is, up to order, the result together with the dropped
captures, and no dropped capture of the tab is newer than a kept capture of
the tab (also read on membership: a capture of the collection that is not in
the result); and a collection of one tab is reduced to the first
`MAX_CAPTURES_PER_TAB` captures of its newest-first order, 100 captures when
it held 150. -/
theorem per_tab_trim (captures : List Capture) (tab : Option Nat) :
    (trimCaptures captures).countP (fun c => c.tabId = tab) ≤ MAX_CAPTURES_PER_TAB ∧
    (∃ dropped : List Capture, List.Perm captures (trimCaptures captures ++ dropped) ∧
      ∀ x ∈ dropped, ∀ y ∈ trimCaptures captures,
        x.tabId = tab → y.tabId = tab → x.timestamp ≤ y.timestamp) ∧
    (∀ x ∈ captures, x ∉ trimCaptures captures → ∀ y ∈ trimCaptures captures,
      x.tabId = tab → y.tabId = tab → x.timestamp ≤ y.timestamp) ∧
    ((∀ c ∈ captures, c.tabId = tab) →
      trimCaptures captures = (sortNewestFirst captures).take 100 ∧
      (captures.length = 150 → (trimCaptures captures).length = 100)) := by
  have hdec := trimCaptures_decomposition captures
  refine ⟨(trimCaptures_bounded captures).2 tab, ⟨_, hdec, ?_⟩, ?_, ?_⟩
  · intro x hx y hy hxt hyt
    exact dropped_le_kept captures x hx y hy (by rw [tabKey, tabKey, hxt, hyt])
  · intro x hx hnot y hy hxt hyt
    rcases List.mem_append.mp (hdec.mem_iff.mp hx) with h | h
    · exact absurd h hnot
    · exact dropped_le_kept captures x h y hy (by rw [tabKey, tabKey, hxt, hyt])
  · intro hall
    have heq := trimCaptures_one_group captures (tab.getD 0)
      (fun c hc => by rw [tabKey, hall c hc])
    refine ⟨heq, ?_⟩
    intro hlen
    rw [heq, List.length_take, (sortNewestFirst_perm _).length_eq, hlen]
    rfl

/-- Witness of C6: the 150 captures of tab 1 with timestamps 0 to 149 are
reduced to the 100 newest. -/
theorem per_tab_trim_witness :
    trimCaptures exampleOneTab = (sortNewestFirst exampleOneTab).take 100 ∧
      (trimCaptures exampleOneTab).length = 100 :=
  ⟨((per_tab_trim exampleOneTab (some 1)).2.2.2 (by simp [exampleOneTab])).1,
   ((per_tab_trim exampleOneTab (some 1)).2.2.2 (by simp [exampleOneTab])).2
     (by simp [exampleOneTab])⟩

/-- Counterexample to C7: 501 captures spread over two tabs, 499 of tab 1 and
2 of tab 2, exceed `MAX_TOTAL_CAPTURES`, and `trimCaptures` leaves at most 102
of them, not 500. -/
theorem global_trim_counterexample :
    MAX_TOTAL_CAPTURES < exampleTwoTabs.length ∧ (trimCaptures exampleTwoTabs).length ≤ 102 := by
  constructor
  · simp [exampleTwoTabs, MAX_TOTAL_CAPTURES]
  · have hsplit := List.length_eq_countP_add_countP (fun c => decide (tabKey c = 1))
      (trimCaptures exampleTwoTabs)
    have h1 := countP_key_trimCaptures exampleTwoTabs 1
    have hsub : (trimCaptures exampleTwoTabs).countP
          (fun a => decide ¬decide (tabKey a = 1) = true) ≤
        exampleTwoTabs.countP (fun a => decide ¬decide (tabKey a = 1) = true) := by
      rw [(trimCaptures_decomposition exampleTwoTabs).countP_eq, List.countP_append]
      exact Nat.le_add_right _ _
    have h2 : exampleTwoTabs.countP (fun a => decide ¬decide (tabKey a = 1) = true) = 2 := by
      simp [exampleTwoTabs, List.countP_append, List.countP_map, tabKey, Function.comp_def]
    have h100 : MAX_CAPTURES_PER_TAB = 100 := rfl
    omega

/-- C7, amended. Global trim: for every collection, `trimCaptures` leaves
`min(MAX_TOTAL_CAPTURES, S)` captures, where `S` is the sum over the tab groups
of `min(MAX_CAPTURES_PER_TAB, size of the group)`, ordered newest-first by
timestamp; it leaves exactly `MAX_TOTAL_CAPTURES` when `S` is at least
`MAX_TOTAL_CAPTURES`, however the captures are spread over the tabs. -/
theorem global_trim (captures : List Capture) :
    (trimCaptures captures).length =
      min MAX_TOTAL_CAPTURES
        ((((captures.map tabKey).dedup).map fun k =>
          min MAX_CAPTURES_PER_TAB (captures.countP fun c => tabKey c = k)).sum) ∧
    List.Pairwise (fun a b : Capture => b.timestamp ≤ a.timestamp) (trimCaptures captures) ∧
    (MAX_TOTAL_CAPTURES ≤
        ((((captures.map tabKey).dedup).map fun k =>
          min MAX_CAPTURES_PER_TAB (captures.countP fun c => tabKey c = k)).sum) →
      (trimCaptures captures).length = 500) := by
  have hlen : (trimCaptures captures).length =
      min MAX_TOTAL_CAPTURES
        ((((captures.map tabKey).dedup).map fun k =>
          min MAX_CAPTURES_PER_TAB (captures.countP fun c => tabKey c = k)).sum) := by
    rw [trimCaptures_eq, List.length_take, (sortNewestFirst_perm _).length_eq, length_keptPerTab]
  refine ⟨hlen, ?_, ?_⟩
  · have hs : List.Pairwise newerFirst (trimCaptures captures) :=
      List.Pairwise.sublist (trimCaptures_sublist_sorted captures) (sortNewestFirst_sorted _)
    exact hs
  · intro hge
    rw [hlen, Nat.min_eq_left hge]
    rfl

/-- Counterexample to C8: the durable collection holds 501 captures, one of
them with id 0; `addCapture` of a capture with id 0 succeeds and the
collection still holds 501 captures afterwards. -/
theorem bounded_store_counterexample :
    (exampleOverfull.addCapture { id := some "0", tabId := some 1 } {}).1 = Except.ok (some "0") ∧
      ¬ Bounded (exampleOverfull.addCapture { id := some "0", tabId := some 1 } {}).2.durable := by
  have hmem : ({ id := some "0", tabId := some 1, timestamp := 0 } : Capture) ∈
      exampleOverfull.durable := by
    simp only [exampleOverfull, List.mem_map, List.mem_range]
    exact ⟨0, by omega, by decide⟩
  rw [addCapture_of_present exampleOverfull { id := some "0", tabId := some 1 } {} rfl
    { id := some "0", tabId := some 1, timestamp := 0 } hmem rfl]
  refine ⟨rfl, ?_⟩
  intro h
  have hlen := h.1
  dsimp only at hlen
  rw [exampleOverfull_length] at hlen
  exact absurd hlen (by decide)

/-- C8, amended. Bounded store: the bound (at most `MAX_TOTAL_CAPTURES`
captures in total and at most `MAX_CAPTURES_PER_TAB` for any one `tabId`)
holds after every successful `addCapture` that inserts, that is, whose read
did not find the id of the capture in the durable collection, on any prior
collection; every `addCapture` preserves it; and `clearCaptures`,
`clearCapturesByTab` and `cleanupOldCaptures` preserve it, whether their read
and write succeed or fail. -/
theorem bounded_store (s : StorageManager) (c : Capture) (b : Backend) :
    ((∃ r, (s.addCapture c b).1 = Except.ok r) →
      ¬ (b.readOk = true ∧ ∃ x ∈ s.durable, x.id = c.id) →
      Bounded (s.addCapture c b).2.durable) ∧
    (Bounded s.durable → Bounded (s.addCapture c b).2.durable) ∧
    (∀ tabId : Option Nat, Bounded s.durable → Bounded (s.clearCaptures tabId b).2.durable) ∧
    (∀ tabId : Nat, Bounded s.durable → Bounded (s.clearCapturesByTab tabId b).2.durable) ∧
    (∀ maxAge now : Int, Bounded s.durable →
      Bounded (s.cleanupOldCaptures maxAge now b).2.durable) := by
  refine ⟨?_, ?_, ?_, ?_, ?_⟩
  · rintro ⟨r, hok⟩ habs
    have hw : b.writeOk = true := by
      by_contra hw
      unfold StorageManager.addCapture at hok
      rw [getAllCaptures_bypass] at hok
      by_cases hread : b.readOk = true
      · have hany : ¬ s.durable.any (fun c' => decide (c'.id = c.id)) = true := by
          intro h
          obtain ⟨x, hx, hxid⟩ := List.any_eq_true.mp h
          exact habs ⟨hread, x, hx, by simpa using hxid⟩
        simp [hread, hany, StorageManager.saveCaptures, hw] at hok
      · simp [hread, StorageManager.saveCaptures, hw] at hok
    rw [addCapture_of_absent s c b habs, if_pos hw]
    exact trimCaptures_bounded _
  · intro hb
    by_cases hpres : b.readOk = true ∧ ∃ x ∈ s.durable, x.id = c.id
    · obtain ⟨hread, x, hx, hid⟩ := hpres
      rw [addCapture_of_present s c b hread x hx hid]
      exact hb
    · rw [addCapture_of_absent s c b hpres]
      by_cases hw : b.writeOk = true
      · rw [if_pos hw]; exact trimCaptures_bounded _
      · rw [if_neg hw]; exact hb
  · intro tabId hb
    cases tabId with
    | none =>
      show Bounded (s.saveCaptures [] b).2.durable
      rw [saveCaptures_durable]
      split_ifs
      · exact bounded_nil
      · exact hb
    | some t => exact clearCapturesByTabImmediate_bounded s t b hb
  · intro tabId hb
    exact clearCapturesByTabImmediate_bounded s tabId b hb
  · intro maxAge now hb
    unfold StorageManager.cleanupOldCaptures
    simp only []
    split_ifs
    · have hsave := saveCaptures_durable (s.getAllCaptures true b).2
        ((s.getAllCaptures true b).1.filter fun c => decide (now - maxAge ≤ c.timestamp)) b
      generalize hres : (s.getAllCaptures true b).2.saveCaptures
        ((s.getAllCaptures true b).1.filter fun c => decide (now - maxAge ≤ c.timestamp)) b = res
        at hsave
      have hbres : Bounded res.2.durable := by
        rw [hsave]
        split_ifs
        · exact bounded_filter _ _ (getAllCaptures_bypass_bounded s b hb)
        · rw [getAllCaptures_durable]; exact hb
      obtain ⟨r1, r2⟩ := res
      cases r1 <;> exact hbres
    · rw [getAllCaptures_durable]; exact hb

/-! ## Properties of the intake handler and of the attribution builder -/

theorem isThirdParty_core (tb sb : Option String) (kind : String) :
    (truthyStr tb && truthyStr sb && decide (tb ≠ sb) && decide (kind ≠ "inline")) = true ↔
      strOr tb "" ≠ "" ∧ strOr sb "" ≠ "" ∧ strOr tb "" ≠ strOr sb "" ∧ kind ≠ "inline" := by
  cases tb with
  | none => simp [truthyStr, strOr]
  | some t =>
    cases sb with
    | none => simp [truthyStr, strOr]
    | some u =>
      by_cases ht : t = "" <;> by_cases hu : u = "" <;> simp [truthyStr, strOr, ht, hu]

theorem buildAttribution_isThirdParty_iff (P : UrlParser) (input : AttributionInput) :
    (buildAttribution P input).isThirdParty = true ↔
      (buildAttribution P input).topLevelSiteBase ≠ "" ∧
      (buildAttribution P input).sourceSiteBase ≠ "" ∧
      (buildAttribution P input).topLevelSiteBase ≠ (buildAttribution P input).sourceSiteBase ∧
      (buildAttribution P input).sourceKind ≠ "inline" := by
  unfold buildAttribution
  exact isThirdParty_core _ _ _

theorem sanitize_of_parse (P : UrlParser) (s : String) (u : Url) (hP : P s = some u)
    (hproto : u.protocol = "http:" ∨ u.protocol = "https:") :
    sanitizeHttpUrl P (some s) = some (u.protocol ++ "//" ++ u.hostname ++ u.pathname) ∧
    tryParseHttpUrl P (some s) = some u ∧ getUrlHostname P (some s) = some u.hostname := by
  have h : tryParseHttpUrl P (some s) = some u := by
    simp only [tryParseHttpUrl, hP, if_pos hproto]
  simp only [sanitizeHttpUrl, getUrlHostname, h, and_self]

theorem tryParseHttpUrl_protocol (P : UrlParser) (url : Option String) (u : Url)
    (h : tryParseHttpUrl P url = some u) : u.protocol = "http:" ∨ u.protocol = "https:" := by
  unfold tryParseHttpUrl at h
  cases url with
  | none => simp at h
  | some s =>
    simp only [] at h
    cases hP : P s with
    | none => simp [hP] at h
    | some v =>
      simp only [hP] at h
      split_ifs at h with hproto
      · cases h; exact hproto

theorem sanitized_ne_empty (u : Url) (h : u.protocol = "http:" ∨ u.protocol = "https:") :
    u.protocol ++ "//" ++ u.hostname ++ u.pathname ≠ "" := by
  intro heq
  have hdata := congrArg String.data heq
  simp only [String.data_append, List.append_eq_nil] at hdata
  have hp : u.protocol = "" := String.ext hdata.1.1.1
  rcases h with h | h <;> rw [h] at hp <;> exact absurd hp (by decide)

theorem classify_inline (P : UrlParser) (s : String) (san frame top : Option String)
    (hne : s ≠ "") (hunk : s ≠ "unknown")
    (hblob : "blob:".data.isPrefixOf s.data = false)
    (hdata : "data:".data.isPrefixOf s.data = false)
    (hjs : "javascript:".data.isPrefixOf s.data = false)
    (hparse : tryParseHttpUrl P (some s) ≠ none) (htruthy : truthyStr san = true) :
    classifySourceKind P (some s) san frame top =
      if san = frame ∨ san = top then "inline" else "script" := by
  unfold classifySourceKind
  simp only [hne, hunk, or_self, if_false, hblob, hdata, hjs, Bool.false_eq_true, htruthy, true_and]
  cases h : tryParseHttpUrl P (some s) with
  | none => exact absurd h hparse
  | some u => rfl

/-- C9. Gate rejections have no side effects: for an intake event with a
payload and a valid tab id, if the tab is in `tabsBeingCleared`, or if
`isWhitelisted` rejects the resolved sender URL (it does not parse, or its
hostname is not in the whitelist), `handleFingerprintDetected` returns a
result with `ignored: true` and leaves the whole state of the service worker
as it was: the capture store (durable collection and cache), the pause buffer
and the Deduplicator are unchanged, so no read of the store can show the
capture. -/
theorem gate_rejection_no_side_effects (P : UrlParser) (w : Worker) (env : IntakeEnv)
    (data : Capture) (sender : Sender) (tabId : Nat)
    (htab : (sender.tab.bind fun t => t.id) = some tabId) (hvalid : tabId ≠ 0)
    (hgate : tabId ∈ w.tabsBeingCleared ∨
      isWhitelisted P w.whitelist (resolveSenderUrl P sender) = false) :
    (handleFingerprintDetected P w env (some data) sender).1.ignored = some true ∧
    (handleFingerprintDetected P w env (some data) sender).2 = w ∧
    (handleFingerprintDetected P w env (some data) sender).2.storage = w.storage ∧
    (handleFingerprintDetected P w env (some data) sender).2.captureBuffer = w.captureBuffer ∧
    (handleFingerprintDetected P w env (some data) sender).2.deduplicator = w.deduplicator := by
  have hcore : (handleFingerprintDetected P w env (some data) sender).1.ignored = some true ∧
      (handleFingerprintDetected P w env (some data) sender).2 = w := by
    unfold handleFingerprintDetected
    simp only [htab, if_neg hvalid]
    by_cases hclr : tabId ∈ w.tabsBeingCleared
    · rw [if_pos hclr]
      exact ⟨rfl, rfl⟩
    · rw [if_neg hclr]
      rcases hgate with h | h
      · exact absurd h hclr
      · rw [if_pos h]
        exact ⟨rfl, rfl⟩
  refine ⟨hcore.1, hcore.2, ?_, ?_, ?_⟩ <;> rw [hcore.2]

/-- Witness of C9: on a worker that monitors `a.com`, a capture sent from tab 7,
which is being cleared, and a capture sent from a frame of `cdn.b.com` in tab 5
both leave the state as it was. -/
theorem gate_rejection_no_side_effects_witness :
    (handleFingerprintDetected exampleParser exampleWorker {} (some { id := some "x" })
        { tab := some { id := some 7, url := some "https://a.com/page" },
          url := some "https://a.com/page" }).2 = exampleWorker ∧
    (handleFingerprintDetected exampleParser exampleWorker {} (some { id := some "y" })
        { tab := some { id := some 5, url := some "https://cdn.b.com/script.js" },
          url := some "https://cdn.b.com/script.js" }).2 = exampleWorker :=
  ⟨(gate_rejection_no_side_effects exampleParser exampleWorker {} { id := some "x" }
      { tab := some { id := some 7, url := some "https://a.com/page" },
        url := some "https://a.com/page" } 7 rfl (by decide) (Or.inl (by decide))).2.1,
   (gate_rejection_no_side_effects exampleParser exampleWorker {} { id := some "y" }
      { tab := some { id := some 5, url := some "https://cdn.b.com/script.js" },
        url := some "https://cdn.b.com/script.js" } 5 rfl (by decide) (Or.inr (by decide))).2.1⟩

/-- C10. Third-party classification: for every input of `buildAttribution`,
`isThirdParty` is true exactly when the returned `topLevelSiteBase` and
`sourceSiteBase` are both non-empty, differ, and `sourceKind` is not `inline`.
With a parser that reads the two URLs as the platform does, top-level
`https://a.com/page` and source `https://cdn.b.com/script.js` give
`isThirdParty = true` and `sourceKind = 'script'` (in any frame whose sanitized
URL is not the source itself); and an http(s) source whose sanitized URL equals
the sanitized frame URL gives `sourceKind = 'inline'` and
`isThirdParty = false`. -/
theorem third_party_classification (P : UrlParser) (input : AttributionInput) :
    ((buildAttribution P input).isThirdParty = true ↔
      (buildAttribution P input).topLevelSiteBase ≠ "" ∧
      (buildAttribution P input).sourceSiteBase ≠ "" ∧
      (buildAttribution P input).topLevelSiteBase ≠ (buildAttribution P input).sourceSiteBase ∧
      (buildAttribution P input).sourceKind ≠ "inline") ∧
    (P "https://a.com/page" = some ⟨"https:", "a.com", "/page"⟩ →
      P "https://cdn.b.com/script.js" = some ⟨"https:", "cdn.b.com", "/script.js"⟩ →
      ∀ (frameUrl : Option String) (frameId : Option Nat),
        sanitizeHttpUrl P frameUrl ≠ some "https://cdn.b.com/script.js" →
        (buildAttribution P
          { topLevelUrl := some "https://a.com/page", frameUrl := frameUrl,
            sourceUrl := some "https://cdn.b.com/script.js", frameId := frameId }).isThirdParty = true ∧
        (buildAttribution P
          { topLevelUrl := some "https://a.com/page", frameUrl := frameUrl,
            sourceUrl := some "https://cdn.b.com/script.js", frameId := frameId }).sourceKind = "script") ∧
    (∀ s : String, input.sourceUrl = some s → s ≠ "" → s ≠ "unknown" →
      "blob:".data.isPrefixOf s.data = false → "data:".data.isPrefixOf s.data = false →
      "javascript:".data.isPrefixOf s.data = false →
      tryParseHttpUrl P (some s) ≠ none →
      sanitizeHttpUrl P input.sourceUrl = sanitizeHttpUrl P input.frameUrl →
      (buildAttribution P input).sourceKind = "inline" ∧
      (buildAttribution P input).isThirdParty = false) := by
  refine ⟨buildAttribution_isThirdParty_iff P input, ?_, ?_⟩
  · intro hA hB frameUrl frameId hframe
    have hsA := sanitize_of_parse P _ _ hA (Or.inr rfl)
    have hsB := sanitize_of_parse P _ _ hB (Or.inr rfl)
    have eA : ("https:" ++ "//" ++ "a.com" ++ "/page" : String) = "https://a.com/page" := by decide
    have eB : ("https:" ++ "//" ++ "cdn.b.com" ++ "/script.js" : String) =
        "https://cdn.b.com/script.js" := by decide
    simp only [eA] at hsA
    simp only [eB] at hsB
    have hkind : classifySourceKind P (some "https://cdn.b.com/script.js")
        (some "https://cdn.b.com/script.js") (sanitizeHttpUrl P frameUrl)
        (some "https://a.com/page") = "script" := by
      rw [classify_inline P _ _ _ _ (by decide) (by decide) (by decide) (by decide) (by decide)
        (by rw [hsB.2.1]; exact Option.some_ne_none _) (by decide)]
      rw [if_neg]
      rintro (h | h)
      · exact hframe h.symm
      · exact absurd h (by decide)
    have hbaseA : getSiteBase "a.com" = some "a.com" := by decide
    have hbaseB : getSiteBase "cdn.b.com" = some "b.com" := by decide
    have htA : truthyStr (some "https://a.com/page") = true := by decide
    have htB : truthyStr (some "https://cdn.b.com/script.js") = true := by decide
    have hdA : truthyStr (some "a.com") = true := by decide
    have hdB : truthyStr (some "cdn.b.com") = true := by decide
    constructor
    · simp only [buildAttribution, hsA.1, hsB.1, jsOr, htA, htB, if_true, hsA.2.2, hsB.2.2,
        hdA, hdB, Option.getD_some, hbaseA, hbaseB, hkind]
      decide
    · simp only [buildAttribution, hsA.1, hsB.1, hkind]
  · intro s hs hne hunk hblob hdata hjs hparse hsame
    have hkind : (buildAttribution P input).sourceKind = "inline" := by
      have htruthy : truthyStr (sanitizeHttpUrl P (some s)) = true := by
        unfold sanitizeHttpUrl
        cases h : tryParseHttpUrl P (some s) with
        | none => exact absurd h hparse
        | some u =>
          have hne' := sanitized_ne_empty u (tryParseHttpUrl_protocol P (some s) u h)
          simp only [truthyStr]
          exact decide_eq_true hne'
      unfold buildAttribution
      simp only [hs]
      rw [classify_inline P s _ _ _ hne hunk hblob hdata hjs hparse htruthy]
      rw [if_pos (Or.inl (by rw [← hs]; exact hsame))]
    refine ⟨hkind, ?_⟩
    have hiff := buildAttribution_isThirdParty_iff P input
    cases hb : (buildAttribution P input).isThirdParty with
    | false => rfl
    | true => exact absurd hkind (hiff.mp hb).2.2.2

/-- Witness of C10: the two examples of the specification, with the example parser. -/
theorem third_party_classification_witness :
    ((buildAttribution exampleParser
        { topLevelUrl := some "https://a.com/page", frameUrl := some "https://a.com/page",
          sourceUrl := some "https://cdn.b.com/script.js", frameId := some 0 }).isThirdParty = true ∧
      (buildAttribution exampleParser
        { topLevelUrl := some "https://a.com/page", frameUrl := some "https://a.com/page",
          sourceUrl := some "https://cdn.b.com/script.js", frameId := some 0 }).sourceKind = "script") ∧
    ((buildAttribution exampleParser
        { topLevelUrl := some "https://a.com/page",
          frameUrl := some "https://a.com/inline-ish.js?v=1",
          sourceUrl := some "https://a.com/inline-ish.js", frameId := some 0 }).sourceKind = "inline" ∧
      (buildAttribution exampleParser
        { topLevelUrl := some "https://a.com/page",
          frameUrl := some "https://a.com/inline-ish.js?v=1",
          sourceUrl := some "https://a.com/inline-ish.js", frameId := some 0 }).isThirdParty = false) :=
  ⟨(third_party_classification exampleParser {}).2.1 rfl rfl (some "https://a.com/page")
      (some 0) (by decide),
   (third_party_classification exampleParser
      { topLevelUrl := some "https://a.com/page",
        frameUrl := some "https://a.com/inline-ish.js?v=1",
        sourceUrl := some "https://a.com/inline-ish.js", frameId := some 0 }).2.2
      "https://a.com/inline-ish.js" rfl (by decide) (by decide) (by decide) (by decide)
      (by decide) (by decide) (by decide)⟩

/-- Witness of C8 (amended): adding to an empty store gives a bounded store. -/
theorem bounded_store_witness :
    Bounded (({} : StorageManager).addCapture { id := some "a", tabId := some 1 } {}).2.durable :=
  (bounded_store {} { id := some "a", tabId := some 1 } {}).1 ⟨some "a", rfl⟩ (by decide)

/-- Witness of C7 (amended): three captures of two tabs are all kept, newest first. -/
theorem global_trim_witness :
    (trimCaptures
      [{ id := some "a", tabId := some 1, timestamp := 10 },
       { id := some "b", tabId := some 2, timestamp := 30 },
       { id := some "c", tabId := some 1, timestamp := 20 }]).length =
      min MAX_TOTAL_CAPTURES 3 :=
  (global_trim
    [{ id := some "a", tabId := some 1, timestamp := 10 },
     { id := some "b", tabId := some 2, timestamp := 30 },
     { id := some "c", tabId := some 1, timestamp := 20 }]).1.trans (by decide)

/-! ## Source kind, attribution record and truncation -/

theorem prefix_exclusive (p q s : List Char) (hp : p.isPrefixOf s = true)
    (hne : p.head? ≠ q.head? ∧ p ≠ [] ∧ q ≠ []) : q.isPrefixOf s = false := by
  cases hq : q.isPrefixOf s with
  | false => rfl
  | true =>
    exfalso
    rw [List.isPrefixOf_iff_prefix] at hp hq
    obtain ⟨t1, ht1⟩ := hp
    obtain ⟨t2, ht2⟩ := hq
    obtain ⟨h1, h2, h3⟩ := hne
    cases p with
    | nil => exact h2 rfl
    | cons a p =>
      cases q with
      | nil => exact h3 rfl
      | cons b q =>
        rw [← ht2] at ht1
        simp only [List.cons_append, List.cons.injEq] at ht1
        apply h1
        simp [ht1.1]

/-- C11. Source-kind classification: `classifySourceKind`, called with the
sanitized form of the source URL as `buildAttribution` does, returns `unknown`
when the URL is not a string, is empty or is the placeholder `unknown`;
otherwise `blob`, `data` or `javascript` when it starts with that scheme
prefix; otherwise `other` when it is not a parseable http(s) URL; otherwise
`inline` when its sanitized form equals the sanitized frame URL or the
sanitized top-level URL; and `script` for every remaining http(s) URL. -/
theorem source_kind_classification (P : UrlParser) (sourceUrl frame top : Option String) :
    ((sourceUrl = none ∨ sourceUrl = some "" ∨ sourceUrl = some "unknown") →
      classifySourceKind P sourceUrl (sanitizeHttpUrl P sourceUrl) frame top = "unknown") ∧
    (∀ s : String, sourceUrl = some s → s ≠ "" → s ≠ "unknown" →
      ("blob:".data.isPrefixOf s.data = true →
        classifySourceKind P sourceUrl (sanitizeHttpUrl P sourceUrl) frame top = "blob") ∧
      ("data:".data.isPrefixOf s.data = true →
        classifySourceKind P sourceUrl (sanitizeHttpUrl P sourceUrl) frame top = "data") ∧
      ("javascript:".data.isPrefixOf s.data = true →
        classifySourceKind P sourceUrl (sanitizeHttpUrl P sourceUrl) frame top = "javascript") ∧
      ("blob:".data.isPrefixOf s.data = false → "data:".data.isPrefixOf s.data = false →
        "javascript:".data.isPrefixOf s.data = false →
        (tryParseHttpUrl P sourceUrl = none →
          classifySourceKind P sourceUrl (sanitizeHttpUrl P sourceUrl) frame top = "other") ∧
        (tryParseHttpUrl P sourceUrl ≠ none →
          (sanitizeHttpUrl P sourceUrl = frame ∨ sanitizeHttpUrl P sourceUrl = top) →
          classifySourceKind P sourceUrl (sanitizeHttpUrl P sourceUrl) frame top = "inline") ∧
        (tryParseHttpUrl P sourceUrl ≠ none →
          ¬ (sanitizeHttpUrl P sourceUrl = frame ∨ sanitizeHttpUrl P sourceUrl = top) →
          classifySourceKind P sourceUrl (sanitizeHttpUrl P sourceUrl) frame top = "script"))) := by
  constructor
  · rintro (h | h | h) <;> subst h <;> simp [classifySourceKind]
  · intro s hs hne hunk
    subst hs
    refine ⟨?_, ?_, ?_, ?_⟩
    · intro h
      simp [classifySourceKind, hne, hunk, h]
    · intro h
      have hblob : "blob:".data.isPrefixOf s.data = false := by
        exact prefix_exclusive _ "blob:".data s.data h (by decide)
      simp [classifySourceKind, hne, hunk, h, hblob]
    · intro h
      have hblob : "blob:".data.isPrefixOf s.data = false := by
        exact prefix_exclusive _ "blob:".data s.data h (by decide)
      have hdata : "data:".data.isPrefixOf s.data = false := by
        exact prefix_exclusive _ "data:".data s.data h (by decide)
      simp [classifySourceKind, hne, hunk, h, hblob, hdata]
    · intro hblob hdata hjs
      refine ⟨?_, ?_, ?_⟩
      · intro hp
        simp [classifySourceKind, hne, hunk, hblob, hdata, hjs, hp]
      · intro hp hsame
        have htruthy : truthyStr (sanitizeHttpUrl P (some s)) = true := by
          unfold sanitizeHttpUrl
          cases h : tryParseHttpUrl P (some s) with
          | none => exact absurd h hp
          | some u =>
            have hne' := sanitized_ne_empty u (tryParseHttpUrl_protocol P (some s) u h)
            simp only [truthyStr]
            exact decide_eq_true hne'
        rw [classify_inline P s _ _ _ hne hunk hblob hdata hjs hp htruthy, if_pos hsame]
      · intro hp hdiff
        have htruthy : truthyStr (sanitizeHttpUrl P (some s)) = true := by
          unfold sanitizeHttpUrl
          cases h : tryParseHttpUrl P (some s) with
          | none => exact absurd h hp
          | some u =>
            have hne' := sanitized_ne_empty u (tryParseHttpUrl_protocol P (some s) u h)
            simp only [truthyStr]
            exact decide_eq_true hne'
        rw [classify_inline P s _ _ _ hne hunk hblob hdata hjs hp htruthy, if_neg hdiff]

theorem classifySourceKind_mem (P : UrlParser) (a b c d : Option String) :
    classifySourceKind P a b c d ∈
      ["unknown", "blob", "data", "javascript", "inline", "script", "other"] := by
  unfold classifySourceKind
  repeat' split
  all_goals simp

theorem sanitize_none_of_parse_none (P : UrlParser) (url : Option String)
    (h : tryParseHttpUrl P url = none) :
    sanitizeHttpUrl P url = none ∧ getUrlHostname P url = none := by
  simp [sanitizeHttpUrl, getUrlHostname, h]

theorem sanitize_some_of_parse_some (P : UrlParser) (url : Option String) (u : Url)
    (h : tryParseHttpUrl P url = some u) :
    sanitizeHttpUrl P url = some (u.protocol ++ "//" ++ u.hostname ++ u.pathname) ∧
      getUrlHostname P url = some u.hostname := by
  simp [sanitizeHttpUrl, getUrlHostname, h]

/-- C13. `buildAttribution` is total and leaks no null. It is a total function
(the one operation that throws, `new URL`, is caught by `tryParseHttpUrl`) into
a record whose domain, site-base and sanitized-URL fields are strings and whose
flags are booleans. `sourceKind` is one of the seven kinds; `isTopFrame` is
true exactly when `frameId` is absent or 0; `isInIframe` is its negation; a URL
that does not resolve gives the empty string in its domain, site-base and
sanitized-URL fields (for the source, the truncated snippet, the empty string
when the source URL is missing); a top-level URL that resolves gives its
sanitized form. -/
theorem buildAttribution_total (P : UrlParser) (input : AttributionInput) :
    (buildAttribution P input).sourceKind ∈
      ["unknown", "blob", "data", "javascript", "inline", "script", "other"] ∧
    ((buildAttribution P input).isTopFrame = true ↔
      input.frameId = none ∨ input.frameId = some 0) ∧
    (buildAttribution P input).isInIframe = !(buildAttribution P input).isTopFrame ∧
    (tryParseHttpUrl P input.topLevelUrl = none →
      (buildAttribution P input).topLevelDomain = "" ∧
      (buildAttribution P input).topLevelSiteBase = "" ∧
      (buildAttribution P input).topLevelUrlSanitized = "") ∧
    (tryParseHttpUrl P input.frameUrl = none →
      (buildAttribution P input).frameDomain = "" ∧
      (buildAttribution P input).frameUrlSanitized = "") ∧
    (tryParseHttpUrl P input.sourceUrl = none →
      (buildAttribution P input).sourceDomain = "" ∧
      (buildAttribution P input).sourceSiteBase = "" ∧
      (buildAttribution P input).sourceUrlSanitized = truncateString input.sourceUrl 220) ∧
    (input.sourceUrl = none → (buildAttribution P input).sourceUrlSanitized = "") ∧
    (∀ u : Url, tryParseHttpUrl P input.topLevelUrl = some u →
      (buildAttribution P input).topLevelUrlSanitized =
        u.protocol ++ "//" ++ u.hostname ++ u.pathname) := by
  refine ⟨classifySourceKind_mem P _ _ _ _, ?_, rfl, ?_, ?_, ?_, ?_, ?_⟩
  · unfold buildAttribution
    simp only []
    cases input.frameId with
    | none => simp
    | some n => simp
  · intro h
    have hs := sanitize_none_of_parse_none P _ h
    simp [buildAttribution, hs.1, hs.2, jsOr, truthyStr, strOr]
  · intro h
    have hs := sanitize_none_of_parse_none P _ h
    simp [buildAttribution, hs.1, hs.2, jsOr, truthyStr, strOr]
  · intro h
    have hs := sanitize_none_of_parse_none P _ h
    simp only [buildAttribution, hs.1, hs.2, jsOr, truthyStr, strOr, Bool.false_eq_true, if_false]
    refine ⟨trivial, trivial, ?_⟩
    cases input.sourceUrl <;> rfl
  · intro h
    have hp : tryParseHttpUrl P input.sourceUrl = none := by rw [h]; rfl
    have hs := (sanitize_none_of_parse_none P _ hp).1
    rw [h] at hs
    unfold buildAttribution
    simp only [h, hs, truthyStr, Bool.false_eq_true, if_false]
  · intro u h
    have hs := sanitize_some_of_parse_some P _ u h
    have hne := sanitized_ne_empty u (tryParseHttpUrl_protocol P _ u h)
    simp [buildAttribution, hs.1, strOr, hne]

theorem truncateString_length_of_long (v : String) (maxLen : Nat) (h : maxLen < v.length) :
    (truncateString (some v) maxLen).length = (maxLen - 1) + 3 := by
  unfold truncateString
  have h' : ¬ v.data.length ≤ maxLen := by
    have : v.length = v.data.length := rfl
    omega
  simp only [if_neg h']
  rw [String.length_append]
  have h1 : (String.mk (v.data.take (maxLen - 1))).length = maxLen - 1 := by
    show (v.data.take (maxLen - 1)).length = maxLen - 1
    rw [List.length_take]
    omega
  rw [h1]
  rfl

theorem exampleLongSource_length : exampleLongSource.length = 221 := by
  simp only [exampleLongSource, String.length, List.length_replicate]

/-- C14, the code at the failing input: a source URL of 221 characters that is
not an http(s) URL gives a `sourceUrlSanitized` of 222 characters, and the
intake path stores the same `truncateString(value, 220)` as `source.url`. -/
theorem truncation_overshoots :
    (buildAttribution exampleParser { sourceUrl := some exampleLongSource }).sourceUrlSanitized.length
      = 222 ∧
    ((sanitizePayload exampleParser
        { source := some { url := some exampleLongSource } }).source.bind fun s => s.url) =
      some (truncateString (some exampleLongSource) 220) := by
  have hne : ∀ t : String, t.length ≠ 221 → ¬ exampleLongSource = t := by
    intro t ht h
    rw [← h, exampleLongSource_length] at ht
    exact ht rfl
  have hparse : exampleParser exampleLongSource = none := by
    unfold exampleParser
    rw [if_neg (hne _ (by decide)), if_neg (hne _ (by decide)), if_neg (hne _ (by decide)),
      if_neg (hne _ (by decide))]
  have htry : tryParseHttpUrl exampleParser (some exampleLongSource) = none := by
    simp [tryParseHttpUrl, hparse]
  have hlen := truncateString_length_of_long exampleLongSource 220
    (by rw [exampleLongSource_length]; decide)
  constructor
  · have hs := sanitize_none_of_parse_none exampleParser _ htry
    simp only [buildAttribution, hs.1, truthyStr, Bool.false_eq_true, if_false]
    exact hlen
  · have hs := sanitize_none_of_parse_none exampleParser _ htry
    have hne : truncateString (some exampleLongSource) 220 ≠ "" := by
      intro h
      rw [h] at hlen
      exact absurd hlen (by decide)
    simp [sanitizePayload, hs.1, strOr, hne]


/-! ## Write failure and cleanup -/

/-- C18. Write failure is propagated and contained: for every store state and
every capture whose id is not in the durable collection, when the persistent
write fails `addCapture` fails with the write error, the durable collection is
what it was before the call, the cache is invalidated (`cache = null`,
`cacheTime = 0`), and the next `getAllCaptures` whose read succeeds returns the
durable collection, with or without `bypassCache`. -/
theorem write_failure_contained (s : StorageManager) (c : Capture) (b : Backend)
    (hnew : ∀ x ∈ s.durable, x.id ≠ c.id) (hw : b.writeOk = false) :
    (s.addCapture c b).1 = Except.error writeError ∧
    (s.addCapture c b).2.durable = s.durable ∧
    (s.addCapture c b).2.cache = none ∧
    (s.addCapture c b).2.cacheTime = 0 ∧
    ∀ (bypassCache : Bool) (b' : Backend), b'.readOk = true →
      ((s.addCapture c b).2.getAllCaptures bypassCache b').1 = s.durable := by
  have hany : ¬ s.durable.any (fun c' => decide (c'.id = c.id)) = true := by
    intro h
    obtain ⟨x, hx, hxid⟩ := List.any_eq_true.mp h
    exact hnew x hx (by simpa using hxid)
  have hres : s.addCapture c b =
      (Except.error writeError, { durable := s.durable, cache := none, cacheTime := 0 }) := by
    unfold StorageManager.addCapture
    rw [getAllCaptures_bypass]
    by_cases hread : b.readOk = true
    · simp [hread, hany, StorageManager.saveCaptures, hw]
    · simp [hread, StorageManager.saveCaptures, hw]
  rw [hres]
  refine ⟨rfl, rfl, rfl, rfl, ?_⟩
  intro bypassCache b' hb'
  simp [StorageManager.getAllCaptures, hb']

/-- Witness of C18: a failed write on a store that holds one capture. -/
theorem write_failure_contained_witness :
    ((StorageManager.mk [{ id := some "a", tabId := some 1 }] (some []) 7).addCapture
        { id := some "b", tabId := some 1 } { writeOk := false }).2 =
      { durable := [{ id := some "a", tabId := some 1 }], cache := none, cacheTime := 0 } :=
  have h := write_failure_contained
    (StorageManager.mk [{ id := some "a", tabId := some 1 }] (some []) 7)
    { id := some "b", tabId := some 1 } { writeOk := false } (by decide) rfl
  by
    cases hres : (StorageManager.mk [{ id := some "a", tabId := some 1 }] (some []) 7).addCapture
        { id := some "b", tabId := some 1 } { writeOk := false } with
    | mk r st =>
      rw [hres] at h
      obtain ⟨_, h2, h3, h4, _⟩ := h
      cases st
      simp only [] at h2 h3 h4
      rw [h2, h3, h4]

theorem foldl_setAdd_of_nodup (l acc : List (Option String)) (h : (acc ++ l).Nodup) :
    l.foldl setAdd acc = acc ++ l := by
  induction l generalizing acc with
  | nil => simp
  | cons x l ih =>
    have hx : x ∉ acc := by
      intro hmem
      rw [List.nodup_append] at h
      exact h.2.2 hmem (List.mem_cons_self _ _)
    have hstep : setAdd acc x = acc ++ [x] := by
      unfold setAdd
      rw [if_neg hx]
    rw [List.foldl_cons, hstep, ih _ (by simpa [List.append_assoc] using h)]
    simp

theorem exampleManyIds_nodup : exampleManyIds.recentIds.Nodup := by
  simp only [exampleManyIds]
  apply List.Nodup.map _ (List.nodup_range 1001)
  intro i j hij
  have h1 : String.mk (List.replicate i 'x') = String.mk (List.replicate j 'x') :=
    Option.some.inj hij
  have h2 := congrArg String.length h1
  simpa [String.length] using h2

theorem exampleManyIds_length : exampleManyIds.recentIds.length = 1001 := by
  simp only [exampleManyIds, List.length_map, List.length_range]

/-- C20. Deduplicator cleanup: for every Deduplicator state (its id set holds
no id twice, as a `Set` does) and every clock value `now`, after `cleanup()` the
signature map holds exactly the previous entries whose timestamp is at least
`now - windowMs`, in their order; the id set is unchanged when it held at most
1000 ids, and otherwise holds exactly the 500 most recently inserted ids, in
insertion order. -/
theorem cleanup_spec (d : Deduplicator) (now : Int) (hnd : d.recentIds.Nodup) :
    (d.cleanup now).recentSignatures =
      d.recentSignatures.filter (fun e => decide (now - d.windowMs ≤ e.2)) ∧
    (∀ e : String × Int, e ∈ (d.cleanup now).recentSignatures ↔
      e ∈ d.recentSignatures ∧ now - d.windowMs ≤ e.2) ∧
    (d.recentIds.length ≤ 1000 → (d.cleanup now).recentIds = d.recentIds) ∧
    (1000 < d.recentIds.length →
      (d.cleanup now).recentIds = d.recentIds.drop (d.recentIds.length - 500) ∧
      (d.cleanup now).recentIds.length = 500) ∧
    (d.cleanup now).recentIds.Nodup := by
  have hsig : (d.cleanup now).recentSignatures =
      d.recentSignatures.filter (fun e => decide (now - d.windowMs ≤ e.2)) := by
    unfold Deduplicator.cleanup
    simp only []
    apply List.filter_congr
    intro e _
    simp [not_lt]
  have hdrop : (d.recentIds.drop (d.recentIds.length - 500)).foldl setAdd [] =
      d.recentIds.drop (d.recentIds.length - 500) := by
    rw [foldl_setAdd_of_nodup _ [] (by
      rw [List.nil_append]; exact List.Nodup.sublist (List.drop_sublist _ _) hnd)]
    rw [List.nil_append]
  have hbig : 1000 < d.recentIds.length →
      (d.cleanup now).recentIds = d.recentIds.drop (d.recentIds.length - 500) := by
    intro h
    unfold Deduplicator.cleanup
    simp only []
    rw [if_pos h, hdrop]
  have hsmall : d.recentIds.length ≤ 1000 → (d.cleanup now).recentIds = d.recentIds := by
    intro h
    unfold Deduplicator.cleanup
    simp only []
    rw [if_neg (by omega)]
  refine ⟨hsig, ?_, hsmall, ?_, ?_⟩
  · intro e
    rw [hsig, List.mem_filter]
    simp
  · intro h
    refine ⟨hbig h, ?_⟩
    rw [hbig h, List.length_drop]
    omega
  · by_cases h : 1000 < d.recentIds.length
    · rw [hbig h]; exact List.Nodup.sublist (List.drop_sublist _ _) hnd
    · rw [hsmall (by omega)]; exact hnd

/-- Witness of C20: a state with 1001 ids and two signatures, cleaned at 2500. -/
theorem cleanup_spec_witness :
    (exampleManyIds.cleanup 2500).recentSignatures = [("canvas|getImageData||0", 2000)] ∧
      (exampleManyIds.cleanup 2500).recentIds.length = 500 :=
  ⟨(cleanup_spec exampleManyIds 2500 exampleManyIds_nodup).1.trans (by decide),
   ((cleanup_spec exampleManyIds 2500 exampleManyIds_nodup).2.2.2.1
      (by rw [exampleManyIds_length]; decide)).2⟩

/-! ## Properties of `getSiteBase` -/

theorem jsSplit_ne_nil (sep : Char) (s : List Char) : jsSplit sep s ≠ [] := by
  cases s with
  | nil => simp [jsSplit]
  | cons c cs =>
    unfold jsSplit
    cases jsSplit sep cs with
    | nil => simp
    | cons l ls => simp only []; split_ifs <;> simp

theorem jsSplit_append_sep (sep : Char) (a b : List Char) :
    jsSplit sep (a ++ sep :: b) = jsSplit sep a ++ jsSplit sep b := by
  induction a with
  | nil =>
    simp only [List.nil_append]
    rw [jsSplit]
    cases h : jsSplit sep b with
    | nil => exact absurd h (jsSplit_ne_nil sep b)
    | cons l ls => simp [jsSplit, h]
  | cons c a ih =>
    rw [List.cons_append, jsSplit, ih]
    cases h : jsSplit sep a with
    | nil => exact absurd h (jsSplit_ne_nil sep a)
    | cons l ls =>
      rw [jsSplit, h]
      simp only [List.cons_append]
      split_ifs <;> simp

theorem labelsOf_append_sep (a b : List Char) :
    labelsOf (a ++ '.' :: b) = labelsOf a ++ labelsOf b := by
  unfold labelsOf
  rw [jsSplit_append_sep, List.filter_append]

theorem hosted_suffix_facts : ∀ suffix ∈ HOSTED_PUBLIC_SUFFIXES,
    (jsSplit '.' suffix.data).length = 2 ∧ (labelsOf suffix.data).length = 2 ∧
      jsJoinDot (labelsOf suffix.data) = suffix.data := by
  decide

theorem hostedSuffixLoop_eq (host : List Char) (labels : List (List Char))
    (hlabels : labels = labelsOf host) (hlen : 2 < labels.length)
    (suffixes : List String) (hsub : ∀ s ∈ suffixes, s ∈ HOSTED_PUBLIC_SUFFIXES) :
    hostedSuffixLoop host labels suffixes =
      if suffixes.any (fun s => ('.' :: s.data).isSuffixOf host) then
        some (jsJoinDot (sliceLast labels 3))
      else none := by
  induction suffixes with
  | nil => rfl
  | cons s rest ih =>
    have hs := hosted_suffix_facts s (hsub s (List.mem_cons_self _ _))
    have hne : ¬ host = s.data := by
      intro h
      rw [hlabels, h, hs.2.1] at hlen
      exact absurd hlen (by decide)
    rw [hostedSuffixLoop, if_neg hne]
    by_cases hends : ('.' :: s.data).isSuffixOf host = true
    · rw [if_pos hends]
      simp only [hs.1]
      rw [if_pos (by omega)]
      simp [hends]
    · rw [if_neg hends, ih (fun s' hs' => hsub s' (List.mem_cons_of_mem _ hs'))]
      simp [hends]

theorem join_last_three (host pre : List Char) (suffix : String)
    (hsuf : suffix ∈ HOSTED_PUBLIC_SUFFIXES) (hhost : host = pre ++ '.' :: suffix.data)
    (hlen : 2 < (labelsOf host).length) :
    ∃ front extra, labelsOf host = front ++ [extra] ++ labelsOf suffix.data ∧ extra ≠ [] ∧
      jsJoinDot (sliceLast (labelsOf host) 3) = extra ++ '.' :: suffix.data := by
  have hs := hosted_suffix_facts suffix hsuf
  have hsplit : labelsOf host = labelsOf pre ++ labelsOf suffix.data := by
    rw [hhost, labelsOf_append_sep]
  have hpre : labelsOf pre ≠ [] := by
    intro h
    rw [hsplit, h, List.nil_append, hs.2.1] at hlen
    exact absurd hlen (by decide)
  obtain ⟨front, extra, hfe⟩ : ∃ front extra, labelsOf pre = front ++ [extra] :=
    ⟨(labelsOf pre).dropLast, (labelsOf pre).getLast hpre,
      (List.dropLast_append_getLast hpre).symm⟩
  have hextra : extra ≠ [] := by
    have hmem : extra ∈ labelsOf pre := by rw [hfe]; simp
    unfold labelsOf at hmem
    rw [List.mem_filter] at hmem
    simpa using hmem.2
  refine ⟨front, extra, by rw [hsplit, hfe], hextra, ?_⟩
  obtain ⟨l1, l2, hl⟩ : ∃ l1 l2, labelsOf suffix.data = [l1, l2] := by
    match h : labelsOf suffix.data, hs.2.1 with
    | [l1, l2], _ => exact ⟨l1, l2, rfl⟩
  have hjoin := hs.2.2
  rw [hl] at hjoin
  rw [hsplit, hfe, hl]
  have hslice : sliceLast (front ++ [extra] ++ [l1, l2]) 3 = [extra, l1, l2] := by
    unfold sliceLast
    simp only [List.length_append, List.length_cons, List.length_nil, List.append_assoc]
    rw [show front.length + (0 + 1 + (0 + 1 + 1)) - 3 = front.length by omega]
    simp
  rw [hslice, ← hjoin]
  simp [jsJoinDot, List.intercalate]

theorem getSiteBase_unfold (hostname : String) :
    getSiteBase hostname =
      if normalizedHost hostname = [] then none
      else if (labelsOf (normalizedHost hostname)).length ≤ 2 then
        some (String.mk (normalizedHost hostname))
      else if HOSTED_PUBLIC_SUFFIXES.any
          (fun s => ('.' :: s.data).isSuffixOf (normalizedHost hostname)) then
        some (String.mk (jsJoinDot (sliceLast (labelsOf (normalizedHost hostname)) 3)))
      else if ((labelsOf (normalizedHost hostname)).getLastD []).length = 2 ∧
          String.mk (((labelsOf (normalizedHost hostname)).get?
            ((labelsOf (normalizedHost hostname)).length - 2)).getD []) ∈
              COMMON_SECOND_LEVEL_TLDS then
        some (String.mk (jsJoinDot (sliceLast (labelsOf (normalizedHost hostname)) 3)))
      else some (String.mk (jsJoinDot (sliceLast (labelsOf (normalizedHost hostname)) 2))) := by
  unfold getSiteBase normalizedHost labelsOf
  simp only []
  by_cases h0 : jsToLowerCase (jsTrim hostname.data) = []
  · rw [if_pos h0, if_pos h0]
  · rw [if_neg h0, if_neg h0]
    by_cases h2 : ((jsSplit '.' (jsToLowerCase (jsTrim hostname.data))).filter
        fun l => decide (l ≠ [])).length ≤ 2
    · rw [if_pos h2, if_pos h2]
    · rw [if_neg h2, if_neg h2]
      have hloop := hostedSuffixLoop_eq (jsToLowerCase (jsTrim hostname.data))
        ((jsSplit '.' (jsToLowerCase (jsTrim hostname.data))).filter fun l => decide (l ≠ []))
        rfl (by omega) HOSTED_PUBLIC_SUFFIXES (fun s hs => hs)
      rw [hloop]
      by_cases hany : HOSTED_PUBLIC_SUFFIXES.any
          (fun s => ('.' :: s.data).isSuffixOf (jsToLowerCase (jsTrim hostname.data))) = true
      · rw [if_pos hany, if_pos hany]
      · rw [if_neg hany, if_neg hany]
        simp only []
        have h3 : ((jsSplit '.' (jsToLowerCase (jsTrim hostname.data))).filter
            fun l => decide (l ≠ [])).length ≥ 3 := by omega
        simp only [h3, and_true]

/-- Counterexample to C12: the empty hostname, and a hostname of blanks, have
no label, so at most two, and `getSiteBase` returns `null` for them, not the
hostname. -/
theorem site_base_counterexample :
    (labelsOf (normalizedHost "")).length ≤ 2 ∧ getSiteBase "" = none ∧
      getSiteBase "  " = none := by
  decide

/-- C12, amended. Site-base heuristic. A hostname that is empty after trimming
gives `null`; a non-empty hostname of at most two labels is returned as is,
trimmed and lower-cased. For a hostname with more than two labels:
(a) when the host ends with `.` followed by one of the hosted suffixes,
`getSiteBase` returns the label before the suffix, a dot and the suffix;
else (b) the last three labels when the last label has two characters and the
second-to-last is one of `co, com, net, org, gov, edu, ac`; else (c) the last
two labels. In particular `foo.github.io` gives `foo.github.io`,
`www.example.co.uk` gives `example.co.uk`, `sub.example.com` gives
`example.com`. -/
theorem site_base_heuristic (hostname : String) :
    (normalizedHost hostname = [] → getSiteBase hostname = none) ∧
    (normalizedHost hostname ≠ [] → (labelsOf (normalizedHost hostname)).length ≤ 2 →
      getSiteBase hostname = some (String.mk (normalizedHost hostname))) ∧
    (2 < (labelsOf (normalizedHost hostname)).length →
      (∀ suffix ∈ HOSTED_PUBLIC_SUFFIXES,
        '.' :: suffix.data <:+ normalizedHost hostname →
        ∃ front extra,
          labelsOf (normalizedHost hostname) = front ++ [extra] ++ labelsOf suffix.data ∧
          extra ≠ [] ∧
          getSiteBase hostname = some (String.mk (extra ++ '.' :: suffix.data))) ∧
      ((∀ suffix ∈ HOSTED_PUBLIC_SUFFIXES, ¬ '.' :: suffix.data <:+ normalizedHost hostname) →
        ((((labelsOf (normalizedHost hostname)).getLastD []).length = 2 ∧
            String.mk (((labelsOf (normalizedHost hostname)).get?
              ((labelsOf (normalizedHost hostname)).length - 2)).getD []) ∈
                COMMON_SECOND_LEVEL_TLDS) →
          getSiteBase hostname =
            some (String.mk (jsJoinDot (sliceLast (labelsOf (normalizedHost hostname)) 3)))) ∧
        (¬ (((labelsOf (normalizedHost hostname)).getLastD []).length = 2 ∧
            String.mk (((labelsOf (normalizedHost hostname)).get?
              ((labelsOf (normalizedHost hostname)).length - 2)).getD []) ∈
                COMMON_SECOND_LEVEL_TLDS) →
          getSiteBase hostname =
            some (String.mk (jsJoinDot (sliceLast (labelsOf (normalizedHost hostname)) 2)))))) ∧
    getSiteBase "foo.github.io" = some "foo.github.io" ∧
    getSiteBase "www.example.co.uk" = some "example.co.uk" ∧
    getSiteBase "sub.example.com" = some "example.com" := by
  refine ⟨?_, ?_, ?_, by decide, by decide, by decide⟩
  · intro h
    rw [getSiteBase_unfold, if_pos h]
  · intro h0 h2
    rw [getSiteBase_unfold, if_neg h0, if_pos h2]
  · intro hlen
    have h0 : normalizedHost hostname ≠ [] := by
      intro h
      rw [h] at hlen
      exact absurd hlen (by decide)
    have h2 : ¬ (labelsOf (normalizedHost hostname)).length ≤ 2 := by omega
    constructor
    · intro suffix hsuf hends
      obtain ⟨pre, hpre⟩ := hends
      obtain ⟨front, extra, hl, hne, hjoin⟩ :=
        join_last_three (normalizedHost hostname) pre suffix hsuf hpre.symm hlen
      refine ⟨front, extra, hl, hne, ?_⟩
      have hany : HOSTED_PUBLIC_SUFFIXES.any
          (fun s => ('.' :: s.data).isSuffixOf (normalizedHost hostname)) = true := by
        rw [List.any_eq_true]
        exact ⟨suffix, hsuf, List.isSuffixOf_iff_suffix.mpr ⟨pre, hpre⟩⟩
      rw [getSiteBase_unfold, if_neg h0, if_neg h2, if_pos hany, hjoin]
    · intro hnone
      have hany : ¬ HOSTED_PUBLIC_SUFFIXES.any
          (fun s => ('.' :: s.data).isSuffixOf (normalizedHost hostname)) = true := by
        rw [List.any_eq_true]
        rintro ⟨s, hs, hends⟩
        exact hnone s hs (List.isSuffixOf_iff_suffix.mp hends)
      constructor
      · intro hb
        rw [getSiteBase_unfold, if_neg h0, if_neg h2, if_neg hany, if_pos hb]
      · intro hb
        rw [getSiteBase_unfold, if_neg h0, if_neg h2, if_neg hany, if_neg hb]

/-! ## Properties of `getCaptures` -/

theorem filter_if (c : Bool) (p : Capture → Bool) (l : List Capture) :
    (if c = true then l.filter p else l) = l.filter fun x => !c || p x := by
  cases c <;> simp

theorem filter_five (p1 p2 p3 p4 p5 : Capture → Bool) (l : List Capture) :
    (((((l.filter p1).filter p2).filter p3).filter p4).filter p5) =
      l.filter fun c => p1 c && p2 c && p3 c && p4 c && p5 c := by
  simp only [List.filter_filter]
  apply List.filter_congr
  intro c _
  simp only [Bool.and_assoc, Bool.and_comm, Bool.and_left_comm]

theorem getCaptures_fst (P : UrlParser) (s : StorageManager) (filters : Filters) (b : Backend) :
    (s.getCaptures P filters b).1 = querySpec P filters (s.getAllCaptures false b).1 := by
  unfold StorageManager.getCaptures querySpec
  simp only []
  generalize (s.getAllCaptures false b).1 = l
  rw [filter_if (truthyStr filters.method), filter_if filters.tabId.isSome,
    filter_if (truthyStr filters.domain),
    filter_if (truthyInt filters.since), filter_if (truthyStr filters.search), filter_five]
  rfl

theorem getCaptures_snd (P : UrlParser) (s : StorageManager) (filters : Filters) (b : Backend) :
    (s.getCaptures P filters b).2 = (s.getAllCaptures false b).2 := by
  unfold StorageManager.getCaptures
  rfl

theorem getAllCaptures_of_consistent (s : StorageManager) (bypassCache : Bool) (b : Backend)
    (hread : b.readOk = true) (hcache : s.cache = none ∨ s.cache = some s.durable) :
    (s.getAllCaptures bypassCache b).1 = s.durable := by
  unfold StorageManager.getAllCaptures
  rcases hcache with h | h <;> rw [h] <;> simp only [] <;> split_ifs <;> rfl

/-- Counterexample to C19: with `limit: 0` given, `getCaptures` returns the whole
sorted list (here one capture), not the elements at positions `[0, 0)`; and a
filter given with a falsy value is not applied: `method: ''` returns a capture
whose method is `toDataURL`, `since: 0` a capture whose timestamp is `-1`. -/
theorem query_counterexample :
    ((StorageManager.mk [{ id := some "a", timestamp := 5 }] none 0).getCaptures exampleParser
        { limit := some 0 } {}).1 = [{ id := some "a", timestamp := 5 }] ∧
    ((sortNewestFirst [({ id := some "a", timestamp := 5 } : Capture)]).drop 0).take 0 = [] ∧
    ((StorageManager.mk [{ id := some "a", method := some "toDataURL", timestamp := 5 }] none
        0).getCaptures exampleParser { method := some "" } {}).1 =
      [{ id := some "a", method := some "toDataURL", timestamp := 5 }] ∧
    ((StorageManager.mk [{ id := some "a", timestamp := -1 }] none 0).getCaptures exampleParser
        { since := some 0 } {}).1 = [{ id := some "a", timestamp := -1 }] := by
  decide

/-- C19, amended. Query equals filter-then-sort-then-paginate: `getCaptures`
returns exactly the captures of the collection it reads that satisfy every
filter in force (`method` and `domain` and `search` when a non-empty string,
`since` when a non-zero number, `tabId` when present), ordered by
non-increasing timestamp, and, when a non-zero `limit` is given, only the
elements at positions `[offset, offset + limit)` of that sorted list (`offset`
defaulting to 0); with `limit` absent or 0 it returns the whole sorted list.
The collection read is the durable one when the read succeeds and the cache is
empty or holds the durable collection. -/
theorem query_filter_sort_paginate (P : UrlParser) (s : StorageManager) (filters : Filters)
    (b : Backend) :
    (s.getCaptures P filters b).1 = querySpec P filters (s.getAllCaptures false b).1 ∧
    (b.readOk = true → (s.cache = none ∨ s.cache = some s.durable) →
      (s.getCaptures P filters b).1 = querySpec P filters s.durable) ∧
    (∀ c : Capture, c ∈ sortNewestFirst ((s.getAllCaptures false b).1.filter
        (matchesFilters P filters)) ↔
      c ∈ (s.getAllCaptures false b).1 ∧ matchesFilters P filters c = true) ∧
    List.Pairwise (fun x y : Capture => y.timestamp ≤ x.timestamp) (s.getCaptures P filters b).1 ∧
    (∀ limit : Nat, filters.limit = some limit → limit ≠ 0 →
      (s.getCaptures P filters b).1 =
        ((sortNewestFirst ((s.getAllCaptures false b).1.filter (matchesFilters P filters))).drop
          (filters.offset.getD 0)).take limit) ∧
    ((filters.limit = none ∨ filters.limit = some 0) →
      (s.getCaptures P filters b).1 =
        sortNewestFirst ((s.getAllCaptures false b).1.filter (matchesFilters P filters))) := by
  have h1 := getCaptures_fst P s filters b
  refine ⟨h1, ?_, ?_, ?_, ?_, ?_⟩
  · intro hread hcache
    rw [h1, getAllCaptures_of_consistent s false b hread hcache]
  · intro c
    rw [(sortNewestFirst_perm _).mem_iff, List.mem_filter]
  · rw [h1]
    unfold querySpec
    have hs : List.Pairwise newerFirst
        (sortNewestFirst ((s.getAllCaptures false b).1.filter (matchesFilters P filters))) :=
      sortNewestFirst_sorted _
    simp only []
    cases filters.limit with
    | none => exact hs
    | some limit =>
      simp only []
      split_ifs
      · exact List.Pairwise.sublist
          ((List.take_sublist _ _).trans (List.drop_sublist _ _)) hs
      · exact hs
  · intro limit hl hne
    rw [h1]
    unfold querySpec
    simp only [hl, if_pos hne]
  · intro hl
    rw [h1]
    unfold querySpec
    rcases hl with hl | hl <;> simp [hl]


/-! ## Properties of the pause buffer -/

theorem sliceLast_sliceLast_append {α : Type} (x cs : List α) (cap : Nat) :
    sliceLast (sliceLast x cap ++ cs) cap = sliceLast (x ++ cs) cap := by
  unfold sliceLast
  by_cases h : x.length ≤ cap
  · rw [Nat.sub_eq_zero_of_le h, List.drop_zero]
  · have hk : x.length - cap ≤ x.length := Nat.sub_le _ _
    rw [List.length_append, List.length_drop, List.length_append]
    have e1 : x.length - (x.length - cap) + cs.length - cap = cs.length := by omega
    have e2 : x.length + cs.length - cap = (x.length - cap) + cs.length := by omega
    rw [e1, e2, ← List.drop_drop, List.drop_append_of_le_length hk]

theorem bufferPush_eq (capacity : Nat) (hcap : 0 < capacity) (buffer : List Capture)
    (c : Capture) (hlen : buffer.length ≤ capacity) :
    bufferPush capacity buffer c = sliceLast (buffer ++ [c]) capacity := by
  unfold bufferPush sliceLast
  by_cases h : buffer.length ≥ capacity
  · rw [if_pos h, List.length_append, List.length_singleton]
    have e : buffer.length + 1 - capacity = 1 := by omega
    rw [e, List.drop_append_of_le_length (by omega)]
  · rw [if_neg h, List.length_append, List.length_singleton]
    have e : buffer.length + 1 - capacity = 0 := by omega
    rw [e, List.drop_zero]

theorem length_sliceLast_le {α : Type} (x : List α) (cap : Nat) :
    (sliceLast x cap).length ≤ cap := by
  unfold sliceLast
  rw [List.length_drop]
  omega

theorem foldl_bufferPush (capacity : Nat) (hcap : 0 < capacity) (cs : List Capture)
    (buffer : List Capture) (hlen : buffer.length ≤ capacity) :
    cs.foldl (bufferPush capacity) buffer = sliceLast (buffer ++ cs) capacity := by
  induction cs generalizing buffer with
  | nil =>
    unfold sliceLast
    rw [List.foldl_nil, List.append_nil, Nat.sub_eq_zero_of_le hlen, List.drop_zero]
  | cons c cs ih =>
    have hpush := bufferPush_eq capacity hcap buffer c hlen
    rw [List.foldl_cons, ih _ (by rw [hpush]; exact length_sliceLast_le _ _), hpush,
      sliceLast_sliceLast_append, List.append_assoc]
    rfl

theorem rememberTabContext_frame (P : UrlParser) (w : Worker) (tabId : Nat) (url : String) :
    (rememberTabContext P w tabId url).captureBuffer = w.captureBuffer ∧
    (rememberTabContext P w tabId url).isPaused = w.isPaused ∧
    (rememberTabContext P w tabId url).storage = w.storage ∧
    (rememberTabContext P w tabId url).deduplicator = w.deduplicator ∧
    (rememberTabContext P w tabId url).devToolsPorts = w.devToolsPorts ∧
    (rememberTabContext P w tabId url).whitelist = w.whitelist := by
  unfold rememberTabContext
  cases sanitizeHttpUrl P (some url) with
  | none => exact ⟨rfl, rfl, rfl, rfl, rfl, rfl⟩
  | some v =>
    simp only []
    split_ifs <;> exact ⟨rfl, rfl, rfl, rfl, rfl, rfl⟩

theorem updateBadge_frame (w : Worker) (tabId : Nat) (b : Backend) :
    (updateBadge w tabId b).captureBuffer = w.captureBuffer ∧
    (updateBadge w tabId b).isPaused = w.isPaused ∧
    (updateBadge w tabId b).devToolsPorts = w.devToolsPorts ∧
    (updateBadge w tabId b).storage.durable = w.storage.durable := by
  unfold updateBadge
  split_ifs
  · exact ⟨rfl, rfl, rfl, rfl⟩
  · refine ⟨rfl, rfl, rfl, ?_⟩
    show (w.storage.getCountByTab tabId b).2.durable = w.storage.durable
    unfold StorageManager.getCountByTab StorageManager.getCapturesByTab
    exact getAllCaptures_durable _ _ _

theorem notifyDevTools_frame (w : Worker) (c : Capture) :
    (notifyDevTools w c).captureBuffer = w.captureBuffer ∧
    (notifyDevTools w c).isPaused = w.isPaused ∧
    (notifyDevTools w c).devToolsPorts = w.devToolsPorts ∧
    (notifyDevTools w c).storage = w.storage := by
  unfold notifyDevTools
  cases c.tabId with
  | none => exact ⟨rfl, rfl, rfl, rfl⟩
  | some t => simp only []; split_ifs <;> exact ⟨rfl, rfl, rfl, rfl⟩

/-- What one intake event does to the pause buffer. -/
theorem handle_captureBuffer (P : UrlParser) (w : Worker) (e : IntakeEvent) :
    (handleFingerprintDetected P w e.env e.payload e.sender).2.captureBuffer =
      (if (handleFingerprintDetected P w e.env e.payload e.sender).1.buffered = some true then
        bufferPush MAX_BUFFER_SIZE w.captureBuffer
          (enrich P e.env (e.payload.getD {}) e.sender ((e.sender.tab.bind fun t => t.id).getD 0))
      else w.captureBuffer) ∧
    (handleFingerprintDetected P w e.env e.payload e.sender).2.isPaused = w.isPaused ∧
    ((handleFingerprintDetected P w e.env e.payload e.sender).1.buffered = some true →
      w.isPaused = true) := by
  cases hp : e.payload with
  | none => simp [handleFingerprintDetected]
  | some data =>
    cases ht : (e.sender.tab.bind fun t => t.id) with
    | none => simp [handleFingerprintDetected, ht]
    | some tabId =>
      by_cases h0 : tabId = 0
      · simp [handleFingerprintDetected, ht, h0]
      · by_cases hc : tabId ∈ w.tabsBeingCleared
        · simp [handleFingerprintDetected, ht, h0, hc]
        · by_cases hw : isWhitelisted P w.whitelist (resolveSenderUrl P e.sender) = false
          · simp [handleFingerprintDetected, ht, h0, hc, hw]
          · have hr := rememberTabContext_frame P w tabId
              (strOr (jsOr (e.sender.tab.bind fun t => t.url) (resolveSenderUrl P e.sender)) "")
            by_cases hd : ((rememberTabContext P w tabId
                (strOr (jsOr (e.sender.tab.bind fun t => t.url) (resolveSenderUrl P e.sender))
                  "")).deduplicator.isDuplicate e.env.dedupNow
                (enrich P e.env data e.sender tabId)).1.isDuplicate = true
            · simp [handleFingerprintDetected, ht, h0, hc, hw, hd, hr.1, hr.2.1]
            · by_cases hpz : w.isPaused = true
              · simp [handleFingerprintDetected, ht, h0, hc, hw, hd, hr.1, hr.2.1, hpz,
                  notifyAllPanels]
              · cases hadd : (rememberTabContext P w tabId
                    (strOr (jsOr (e.sender.tab.bind fun t => t.url) (resolveSenderUrl P e.sender))
                      "")).storage.addCapture (enrich P e.env data e.sender tabId) e.env.store with
                | mk res st =>
                  cases res with
                  | error err =>
                    simp [handleFingerprintDetected, ht, h0, hc, hw, hd, hr.1, hr.2.1, hpz, hadd]
                  | ok v =>
                    simp [handleFingerprintDetected, ht, h0, hc, hw, hd, hr.1, hr.2.1, hpz, hadd,
                      (notifyDevTools_frame _ _).1, (notifyDevTools_frame _ _).2.1,
                      (updateBadge_frame _ _ _).1, (updateBadge_frame _ _ _).2.1]

theorem intakeAll_captureBuffer (P : UrlParser) (events : List IntakeEvent) (w : Worker)
    (hlen : w.captureBuffer.length ≤ MAX_BUFFER_SIZE) :
    (intakeAll P w events).captureBuffer =
      sliceLast (w.captureBuffer ++ bufferedRecords P w events) MAX_BUFFER_SIZE := by
  induction events generalizing w with
  | nil =>
    show w.captureBuffer = sliceLast (w.captureBuffer ++ []) MAX_BUFFER_SIZE
    unfold sliceLast
    rw [List.append_nil, Nat.sub_eq_zero_of_le hlen, List.drop_zero]
  | cons e rest ih =>
    have hstep := (handle_captureBuffer P w e).1
    show (intakeAll P (handleFingerprintDetected P w e.env e.payload e.sender).2 rest).captureBuffer
      = sliceLast (w.captureBuffer ++
          ((if (handleFingerprintDetected P w e.env e.payload e.sender).1.buffered = some true then
              [enrich P e.env (e.payload.getD {}) e.sender
                ((e.sender.tab.bind fun t => t.id).getD 0)]
            else []) ++
            bufferedRecords P (handleFingerprintDetected P w e.env e.payload e.sender).2 rest))
          MAX_BUFFER_SIZE
    by_cases hb : (handleFingerprintDetected P w e.env e.payload e.sender).1.buffered = some true
    · rw [if_pos hb] at hstep ⊢
      have hpush := bufferPush_eq MAX_BUFFER_SIZE (by decide) w.captureBuffer
        (enrich P e.env (e.payload.getD {}) e.sender ((e.sender.tab.bind fun t => t.id).getD 0))
        hlen
      rw [ih _ (by rw [hstep, hpush]; exact length_sliceLast_le _ _), hstep, hpush,
        sliceLast_sliceLast_append, List.append_assoc]
    · rw [if_neg hb] at hstep ⊢
      rw [ih _ (by rw [hstep]; exact hlen), hstep, List.nil_append]

theorem bufferedRecords_of_running (P : UrlParser) (events : List IntakeEvent) (w : Worker)
    (hrun : w.isPaused = false) : bufferedRecords P w events = [] := by
  induction events generalizing w with
  | nil => rfl
  | cons e rest ih =>
    have hstep := handle_captureBuffer P w e
    have hnb : ¬ (handleFingerprintDetected P w e.env e.payload e.sender).1.buffered = some true := by
      intro hb
      have := hstep.2.2 hb
      rw [hrun] at this
      exact absurd this (by decide)
    show (if (handleFingerprintDetected P w e.env e.payload e.sender).1.buffered = some true then
        [enrich P e.env (e.payload.getD {}) e.sender ((e.sender.tab.bind fun t => t.id).getD 0)]
      else []) ++ bufferedRecords P (handleFingerprintDetected P w e.env e.payload e.sender).2 rest
      = []
    rw [if_neg hnb, List.nil_append, ih _ (by rw [hstep.2.1]; exact hrun)]

/-- C16. The pause buffer is a bounded drop-oldest FIFO: starting from a buffer
of at most `MAX_BUFFER_SIZE` entries, after any sequence of intake events the
buffer equals the last `MAX_BUFFER_SIZE` elements, in arrival order, of the old
buffer followed by the enriched records of the events answered
`buffered: true`, and never holds more than `MAX_BUFFER_SIZE` entries; records
are buffered only while paused. The buffering step has this property for every
capacity of at least 1, and with capacity 2 three captures leave the two most
recent. -/
theorem pause_buffer_fifo (P : UrlParser) (w : Worker) (events : List IntakeEvent)
    (hlen : w.captureBuffer.length ≤ MAX_BUFFER_SIZE) :
    (intakeAll P w events).captureBuffer =
      sliceLast (w.captureBuffer ++ bufferedRecords P w events) MAX_BUFFER_SIZE ∧
    (intakeAll P w events).captureBuffer.length ≤ MAX_BUFFER_SIZE ∧
    (w.isPaused = false → bufferedRecords P w events = []) ∧
    (∀ (capacity : Nat) (buffer captures : List Capture), 0 < capacity →
      buffer.length ≤ capacity →
      captures.foldl (bufferPush capacity) buffer = sliceLast (buffer ++ captures) capacity ∧
      (captures.foldl (bufferPush capacity) buffer).length ≤ capacity) ∧
    (∀ c1 c2 c3 : Capture, [c1, c2, c3].foldl (bufferPush 2) [] = [c2, c3]) := by
  have h1 := intakeAll_captureBuffer P events w hlen
  refine ⟨h1, ?_, bufferedRecords_of_running P events w, ?_, ?_⟩
  · rw [h1]; exact length_sliceLast_le _ _
  · intro capacity buffer captures hcap hb
    have h := foldl_bufferPush capacity hcap captures buffer hb
    exact ⟨h, by rw [h]; exact length_sliceLast_le _ _⟩
  · intro c1 c2 c3
    rfl

/-- Witness of C16: two captures from `a.com` reach the paused example worker. -/
theorem pause_buffer_fifo_witness :
    (intakeAll exampleParser exampleWorker exampleEvents).captureBuffer =
      sliceLast (exampleWorker.captureBuffer ++
        bufferedRecords exampleParser exampleWorker exampleEvents) MAX_BUFFER_SIZE ∧
    (bufferedRecords exampleParser exampleWorker exampleEvents).length = 2 :=
  ⟨(pause_buffer_fifo exampleParser exampleWorker exampleEvents (by decide)).1, by decide⟩

/-! ## Stored URLs -/

/-- Counterexample to C15: an event from the whitelisted `a.com` whose payload
carries the page URL `about:srcdoc?token=1#frag` is accepted (buffered), and the
buffered record keeps that page URL, query string and fragment included. -/
theorem stored_urls_counterexample :
    (handleFingerprintDetected exampleParser exampleWorker exampleSrcdocEvent.env
        exampleSrcdocEvent.payload exampleSrcdocEvent.sender).1.buffered = some true ∧
    ((handleFingerprintDetected exampleParser exampleWorker exampleSrcdocEvent.env
        exampleSrcdocEvent.payload exampleSrcdocEvent.sender).2.captureBuffer.getLast?.bind
        fun c => c.pageUrl) = some "about:srcdoc?token=1#frag" ∧
    '?' ∈ "about:srcdoc?token=1#frag".data ∧ '#' ∈ "about:srcdoc?token=1#frag".data := by
  decide

theorem sanitizePayload_pageUrl (P : UrlParser) (data : Capture) :
    (∀ u : Url, tryParseHttpUrl P data.pageUrl = some u →
      (sanitizePayload P data).pageUrl = some (u.protocol ++ "//" ++ u.hostname ++ u.pathname)) ∧
    (tryParseHttpUrl P data.pageUrl = none → (sanitizePayload P data).pageUrl = data.pageUrl) := by
  constructor
  · intro u hu
    have hs := (sanitize_some_of_parse_some P _ u hu).1
    have hne := sanitized_ne_empty u (tryParseHttpUrl_protocol P _ u hu)
    cases hp : data.pageUrl with
    | none => rw [hp] at hu; simp [tryParseHttpUrl] at hu
    | some p =>
      rw [hp] at hs
      simp [sanitizePayload, hp, hs, strOr, hne]
  · intro hn
    have hs := (sanitize_none_of_parse_none P _ hn).1
    cases hp : data.pageUrl with
    | none => simp [sanitizePayload, hp]
    | some p =>
      rw [hp] at hs
      simp [sanitizePayload, hp, hs, strOr]

theorem bufferPush_getLast (capacity : Nat) (buffer : List Capture) (c : Capture) :
    (bufferPush capacity buffer c).getLast? = some c := by
  unfold bufferPush
  simp

/-- What one intake event does to the store. -/
theorem handle_stored (P : UrlParser) (w : Worker) (e : IntakeEvent) (data : Capture)
    (tabId : Nat) (hp : e.payload = some data)
    (ht : (e.sender.tab.bind fun t => t.id) = some tabId)
    (hsucc : (handleFingerprintDetected P w e.env e.payload e.sender).1.success = some true)
    (hb : (handleFingerprintDetected P w e.env e.payload e.sender).1.buffered = none)
    (hf : (handleFingerprintDetected P w e.env e.payload e.sender).1.filtered = none)
    (hi : (handleFingerprintDetected P w e.env e.payload e.sender).1.ignored = none) :
    (handleFingerprintDetected P w e.env e.payload e.sender).2.storage.durable =
      (w.storage.addCapture (enrich P e.env data e.sender tabId) e.env.store).2.durable := by
  rw [hp] at hsucc hb hf hi ⊢
  by_cases h0 : tabId = 0
  · simp [handleFingerprintDetected, ht, h0] at hsucc
  · by_cases hc : tabId ∈ w.tabsBeingCleared
    · simp [handleFingerprintDetected, ht, h0, hc] at hi
    · by_cases hw : isWhitelisted P w.whitelist (resolveSenderUrl P e.sender) = false
      · simp [handleFingerprintDetected, ht, h0, hc, hw] at hi
      · have hr := rememberTabContext_frame P w tabId
          (strOr (jsOr (e.sender.tab.bind fun t => t.url) (resolveSenderUrl P e.sender)) "")
        by_cases hd : ((rememberTabContext P w tabId
            (strOr (jsOr (e.sender.tab.bind fun t => t.url) (resolveSenderUrl P e.sender))
              "")).deduplicator.isDuplicate e.env.dedupNow
            (enrich P e.env data e.sender tabId)).1.isDuplicate = true
        · simp [handleFingerprintDetected, ht, h0, hc, hw, hd] at hf
        · by_cases hpz : w.isPaused = true
          · simp [handleFingerprintDetected, ht, h0, hc, hw, hd, hr.2.1, hpz] at hb
          · rw [← hr.2.2.1]
            cases hadd : (rememberTabContext P w tabId
                (strOr (jsOr (e.sender.tab.bind fun t => t.url) (resolveSenderUrl P e.sender))
                  "")).storage.addCapture (enrich P e.env data e.sender tabId) e.env.store with
            | mk res st =>
              cases res with
              | error err =>
                simp [handleFingerprintDetected, ht, h0, hc, hw, hd, hr.2.1, hpz, hadd] at hsucc
              | ok v =>
                simp [handleFingerprintDetected, ht, h0, hc, hw, hd, hr.2.1, hpz, hadd,
                  (notifyDevTools_frame _ _).2.2.2, (updateBadge_frame _ _ _).2.2.2]

/-- C15, amended. Stored page URLs: for every intake event, the enriched record
has as `pageUrl` the form `protocol://hostname/pathname` when the payload's
`pageUrl` parses as an http(s) URL, and the payload's `pageUrl` as received
otherwise; it has as `tabUrl` that form of the sender's tab URL when the tab URL
parses as an http(s) URL. The enriched record is the one an accepted event puts
last in the pause buffer (answer `buffered: true`) or hands to `addCapture`
(answer `success: true` without `buffered`, `filtered` or `ignored`). -/
theorem stored_page_urls (P : UrlParser) (w : Worker) (e : IntakeEvent) (data : Capture)
    (tabId : Nat) (hp : e.payload = some data)
    (ht : (e.sender.tab.bind fun t => t.id) = some tabId) :
    (∀ u : Url, tryParseHttpUrl P data.pageUrl = some u →
      (enrich P e.env data e.sender tabId).pageUrl =
        some (u.protocol ++ "//" ++ u.hostname ++ u.pathname)) ∧
    (tryParseHttpUrl P data.pageUrl = none →
      (enrich P e.env data e.sender tabId).pageUrl = data.pageUrl) ∧
    (∀ u : Url, tryParseHttpUrl P (e.sender.tab.bind fun t => t.url) = some u →
      (enrich P e.env data e.sender tabId).tabUrl =
        some (u.protocol ++ "//" ++ u.hostname ++ u.pathname)) ∧
    ((handleFingerprintDetected P w e.env e.payload e.sender).1.buffered = some true →
      (handleFingerprintDetected P w e.env e.payload e.sender).2.captureBuffer.getLast? =
        some (enrich P e.env data e.sender tabId)) ∧
    ((handleFingerprintDetected P w e.env e.payload e.sender).1.success = some true →
      (handleFingerprintDetected P w e.env e.payload e.sender).1.buffered = none →
      (handleFingerprintDetected P w e.env e.payload e.sender).1.filtered = none →
      (handleFingerprintDetected P w e.env e.payload e.sender).1.ignored = none →
      (handleFingerprintDetected P w e.env e.payload e.sender).2.storage.durable =
        (w.storage.addCapture (enrich P e.env data e.sender tabId) e.env.store).2.durable) := by
  have hpage := sanitizePayload_pageUrl P data
  refine ⟨?_, ?_, ?_, ?_, ?_⟩
  · intro u hu
    exact hpage.1 u hu
  · intro hn
    exact hpage.2 hn
  · intro u hu
    have hs := (sanitize_some_of_parse_some P _ u hu).1
    have hne := sanitized_ne_empty u (tryParseHttpUrl_protocol P _ u hu)
    simp [enrich, hs, strOr, hne]
  · intro hb
    have hstep := (handle_captureBuffer P w e).1
    rw [if_pos hb] at hstep
    rw [hstep, hp, ht]
    exact bufferPush_getLast _ _ _
  · intro hsucc hb hf hi
    exact handle_stored P w e data tabId hp ht hsucc hb hf hi

/-- Witness of C15 (amended): the example event keeps its page URL and gets the
sanitized tab URL. -/
theorem stored_page_urls_witness :
    (enrich exampleParser exampleSrcdocEvent.env
        { id := some "z", method := some "toDataURL",
          pageUrl := some "about:srcdoc?token=1#frag" }
        exampleSrcdocEvent.sender 5).tabUrl = some "https://a.com/page" :=
  ((stored_page_urls exampleParser exampleWorker exampleSrcdocEvent
      { id := some "z", method := some "toDataURL", pageUrl := some "about:srcdoc?token=1#frag" }
      5 rfl rfl).2.2.1 ⟨"https:", "a.com", "/page"⟩ (by decide)).trans (by decide)

/-! ## Pause and resume -/

theorem addCapture_durable (s : StorageManager) (c : Capture) (b : Backend) :
    (s.addCapture c b).2.durable = addDurable s.durable c b := by
  unfold addDurable
  by_cases h : b.readOk = true ∧ ∃ x ∈ s.durable, x.id = c.id
  · obtain ⟨hread, x, hx, hid⟩ := h
    rw [addCapture_of_present s c b hread x hx hid, if_pos ⟨hread, x, hx, hid⟩]
  · rw [addCapture_of_absent s c b h, if_neg h]

theorem addAll_durable (captures : List Capture) (s : StorageManager) (backends : Nat → Backend)
    (i : Nat) :
    (addAll s captures backends i).durable = addAllDurable s.durable captures backends i := by
  induction captures generalizing s i with
  | nil => rfl
  | cons c rest ih =>
    show (addAll (s.addCapture c (backends i)).2 rest backends (i + 1)).durable =
      addAllDurable (addDurable s.durable c (backends i)) rest backends (i + 1)
    rw [ih, addCapture_durable]

theorem flushLoop_frame (envs : Nat → IntakeEnv) (captures : List Capture) (w : Worker)
    (i : Nat) :
    (flushLoop w captures envs i).captureBuffer = w.captureBuffer ∧
    (flushLoop w captures envs i).isPaused = w.isPaused ∧
    (flushLoop w captures envs i).devToolsPorts = w.devToolsPorts ∧
    (flushLoop w captures envs i).storage.durable =
      addAllDurable w.storage.durable captures (fun j => (envs j).store) i := by
  induction captures generalizing w i with
  | nil => exact ⟨rfl, rfl, rfl, rfl⟩
  | cons c rest ih =>
    have hd := addCapture_durable w.storage c (envs i).store
    unfold flushLoop
    cases hadd : w.storage.addCapture c (envs i).store with
    | mk res st =>
      rw [hadd] at hd
      simp only [] at hd
      cases res with
      | error err =>
        simp only []
        obtain ⟨h1, h2, h3, h4⟩ := ih { w with storage := st } (i + 1)
        refine ⟨h1, h2, h3, ?_⟩
        rw [h4]
        show addAllDurable st.durable rest _ (i + 1) = addAllDurable _ rest _ (i + 1)
        rw [hd]
      | ok v =>
        simp only []
        cases htab : c.tabId with
        | none =>
          simp only []
          obtain ⟨h1, h2, h3, h4⟩ := ih (notifyDevTools { w with storage := st } c) (i + 1)
          have hn := notifyDevTools_frame { w with storage := st } c
          refine ⟨h1.trans hn.1, h2.trans hn.2.1, h3.trans hn.2.2.1, ?_⟩
          rw [h4, hn.2.2.2]
          show addAllDurable st.durable rest _ (i + 1) = addAllDurable _ rest _ (i + 1)
          rw [hd]
        | some t =>
          simp only []
          obtain ⟨h1, h2, h3, h4⟩ :=
            ih (notifyDevTools (updateBadge { w with storage := st } t (envs i).badge) c) (i + 1)
          have hn := notifyDevTools_frame (updateBadge { w with storage := st } t (envs i).badge) c
          have hu := updateBadge_frame { w with storage := st } t (envs i).badge
          refine ⟨(h1.trans hn.1).trans hu.1, (h2.trans hn.2.1).trans hu.2.1,
            (h3.trans hn.2.2.1).trans hu.2.2.1, ?_⟩
          rw [h4, hn.2.2.2, hu.2.2.2]
          show addAllDurable st.durable rest _ (i + 1) = addAllDurable _ rest _ (i + 1)
          rw [hd]

theorem flatMap_eq_nil_of_forall {α β : Type} (l : List α) (f : α → List β)
    (h : ∀ a ∈ l, f a = []) : l.flatMap f = [] := by
  induction l with
  | nil => rfl
  | cons a l ih =>
    rw [List.flatMap_cons, h a (List.mem_cons_self _ _),
      ih (fun a' ha' => h a' (List.mem_cons_of_mem _ ha'))]
    rfl

/-- Within the limits `trimCaptures` drops nothing. -/
theorem trimCaptures_perm_of_within (l : List Capture) (hlen : l.length ≤ MAX_TOTAL_CAPTURES)
    (htab : ∀ k : Nat, l.countP (fun c => tabKey c = k) ≤ MAX_CAPTURES_PER_TAB) :
    List.Perm (trimCaptures l) l := by
  have hdec := trimCaptures_decomposition l
  have hdrop : (tabOrder l).flatMap (droppedOfTab l) = [] := by
    apply flatMap_eq_nil_of_forall
    intro k _
    unfold droppedOfTab
    apply List.drop_eq_nil_of_le
    rw [(sortNewestFirst_perm _).length_eq, tabGroup, ← List.countP_eq_length_filter]
    exact htab k
  rw [hdrop, List.append_nil] at hdec
  have hsorted : trimCaptures l ++ (sortNewestFirst (keptPerTab l)).drop MAX_TOTAL_CAPTURES =
      sortNewestFirst (keptPerTab l) := by
    rw [trimCaptures_eq, List.take_append_drop]
  rw [hsorted] at hdec
  have hlen' : (sortNewestFirst (keptPerTab l)).length ≤ MAX_TOTAL_CAPTURES := by
    rw [← hdec.length_eq]; exact hlen
  rw [trimCaptures_eq, List.take_of_length_le hlen']
  exact hdec.symm

theorem addAllDurable_perm (backends : Nat → Backend)
    (captures : List Capture) (durable : List Capture) (i : Nat)
    (hok : ∀ j, i ≤ j → j < i + captures.length →
      (backends j).readOk = true ∧ (backends j).writeOk = true)
    (hids : (captures.map fun c => c.id).Nodup)
    (hnew : ∀ c ∈ captures, ∀ x ∈ durable, x.id ≠ c.id)
    (hlen : (durable ++ captures).length ≤ MAX_TOTAL_CAPTURES)
    (htab : ∀ k : Nat, (durable ++ captures).countP (fun c => tabKey c = k) ≤
      MAX_CAPTURES_PER_TAB) :
    List.Perm (addAllDurable durable captures backends i) (durable ++ captures) := by
  induction captures generalizing durable i with
  | nil => rw [List.append_nil]; exact List.Perm.refl _
  | cons c rest ih =>
    have hoki := hok i (le_refl _) (by rw [List.length_cons]; omega)
    have habs : ¬ ((backends i).readOk = true ∧ ∃ x ∈ durable, x.id = c.id) := by
      rintro ⟨_, x, hx, hid⟩
      exact hnew c (List.mem_cons_self _ _) x hx hid
    have hstep : addDurable durable c (backends i) = trimCaptures (durable ++ [c]) := by
      unfold addDurable
      rw [if_neg habs, if_pos hoki.2, if_pos hoki.1]
    have hsub : List.Sublist (durable ++ [c]) (durable ++ c :: rest) :=
      List.Sublist.append (List.Sublist.refl _) (List.Sublist.cons₂ _ (List.nil_sublist _))
    have hperm1 : List.Perm (trimCaptures (durable ++ [c])) (durable ++ [c]) :=
      trimCaptures_perm_of_within _ (le_trans hsub.length_le hlen)
        (fun k => le_trans (hsub.countP_le _) (htab k))
    have hperm2 : List.Perm (trimCaptures (durable ++ [c]) ++ rest) (durable ++ c :: rest) := by
      have := hperm1.append_right rest
      simpa [List.append_assoc] using this
    show List.Perm (addAllDurable (addDurable durable c (backends i)) rest backends (i + 1))
      (durable ++ c :: rest)
    rw [hstep]
    refine (ih (trimCaptures (durable ++ [c])) (i + 1) ?_ ?_ ?_ ?_ ?_).trans hperm2
    · intro j h1 h2
      exact hok j (by omega) (by rw [List.length_cons]; omega)
    · exact (List.nodup_cons.mp hids).2
    · intro c' hc' x hx
      rcases List.mem_append.mp (hperm1.mem_iff.mp hx) with h | h
      · exact hnew c' (List.mem_cons_of_mem _ hc') x h
      · rw [List.mem_singleton] at h
        subst h
        intro hid
        exact (List.nodup_cons.mp hids).1 (List.mem_map.mpr ⟨c', hc', hid.symm⟩)
    · rw [hperm2.length_eq]; exact hlen
    · intro k
      rw [hperm2.countP_eq]; exact htab k

theorem flushCaptureBuffer_spec (w : Worker) (envs : Nat → IntakeEnv) :
    (flushCaptureBuffer w envs).1 = w.captureBuffer.length ∧
    (flushCaptureBuffer w envs).2.captureBuffer = [] ∧
    (flushCaptureBuffer w envs).2.isPaused = w.isPaused ∧
    (flushCaptureBuffer w envs).2.devToolsPorts = w.devToolsPorts ∧
    (flushCaptureBuffer w envs).2.storage.durable =
      addAllDurable w.storage.durable w.captureBuffer (fun j => (envs j).store) 0 ∧
    (w.captureBuffer ≠ [] → ∀ port ∈ w.devToolsPorts,
      Notification.bufferFlushed port w.captureBuffer.length ∈
        (flushCaptureBuffer w envs).2.outbox) := by
  unfold flushCaptureBuffer
  by_cases h0 : w.captureBuffer.length = 0
  · have hnil : w.captureBuffer = [] := List.length_eq_zero.mp h0
    rw [if_pos h0]
    refine ⟨h0.symm, hnil, rfl, rfl, ?_, fun h => absurd hnil h⟩
    rw [hnil]
    rfl
  · rw [if_neg h0]
    obtain ⟨h1, h2, h3, h4⟩ := flushLoop_frame envs w.captureBuffer
      { w with captureBuffer := [] } 0
    refine ⟨rfl, h1, h2, h3, h4, ?_⟩
    intro _ port hport
    simp only [notifyAllPanels]
    apply List.mem_append_right
    rw [h3]
    exact List.mem_map_of_mem _ hport

/-- Counterexample to C17: a paused worker with one stored capture and two
buffered captures with new, distinct ids, far below the trim limits. When the
write of the pause flag fails, `setPauseState(false)` throws before the flush
and the buffer keeps its captures. When the flag is written and the writes of
the flush fail, each error is caught: the call succeeds, the buffer is empty
and the flushed count is 2, but the durable collection is the old one. When
the reads of the flush fail instead, each `addCapture` stores its capture
alone, and only the last buffered capture is left. -/
theorem pause_resume_round_trip_counterexample :
    (exampleBuffered.captureBuffer.length ≤ MAX_BUFFER_SIZE ∧
      (exampleBuffered.captureBuffer.map fun c => c.id).Nodup ∧
      (∀ c ∈ exampleBuffered.captureBuffer, ∀ x ∈ exampleBuffered.storage.durable, x.id ≠ c.id) ∧
      (exampleBuffered.storage.durable ++ exampleBuffered.captureBuffer).length ≤
        MAX_CAPTURES_PER_TAB) ∧
    ((setPauseState exampleBuffered false false fun _ => {}).1 = Except.error writeError ∧
      (setPauseState exampleBuffered false false fun _ => {}).2.captureBuffer =
        exampleBuffered.captureBuffer ∧
      (setPauseState exampleBuffered false false fun _ => {}).2.storage.durable =
        exampleBuffered.storage.durable) ∧
    ((setPauseState exampleBuffered false true fun _ => { store := { writeOk := false } }).1 =
        Except.ok () ∧
      (setPauseState exampleBuffered false true
        fun _ => { store := { writeOk := false } }).2.captureBuffer = [] ∧
      (flushCaptureBuffer { exampleBuffered with isPaused := false }
        fun _ => { store := { writeOk := false } }).1 = 2 ∧
      (setPauseState exampleBuffered false true
        fun _ => { store := { writeOk := false } }).2.storage.durable =
        exampleBuffered.storage.durable) ∧
    ((setPauseState exampleBuffered false true fun _ => { store := { readOk := false } }).1 =
        Except.ok () ∧
      (setPauseState exampleBuffered false true
        fun _ => { store := { readOk := false } }).2.storage.durable =
        [{ id := some "b2", tabId := some 4, timestamp := 30 }]) := by
  refine ⟨⟨by decide, by decide, by decide, by decide⟩, ⟨rfl, by decide, by decide⟩,
    ⟨rfl, by decide, by decide, by decide⟩, rfl, by decide⟩

/-- C17, amended. Pause/resume round trip: for every buffer, when the write of
the pause flag succeeds, unpausing (`setPauseState(false)`) ends with an empty
buffer and the worker running; `flushCaptureBuffer` returns the number `n` of
buffered captures as `flushedCount` and, when the buffer was not empty, every
connected panel is sent `BUFFER_FLUSHED` with count `n`; the durable collection
is the one obtained by applying `addCapture` to the buffered captures one after
another in insertion order; and when the read and the write of each of these
`n` calls succeed, the buffered ids are pairwise distinct and not in the store,
and the trim limits are not reached by the store and the buffer together, the
durable collection is a permutation of the old one and the buffer, so that all
`n` captures are in the store. -/
theorem pause_resume_round_trip (w : Worker) (persistOk : Bool) (envs : Nat → IntakeEnv)
    (hpersist : persistOk = true) :
    (setPauseState w false persistOk envs).1 = Except.ok () ∧
    (setPauseState w false persistOk envs).2.captureBuffer = [] ∧
    (setPauseState w false persistOk envs).2.isPaused = false ∧
    (flushCaptureBuffer { w with isPaused := false } envs).1 = w.captureBuffer.length ∧
    (w.captureBuffer ≠ [] → ∀ port ∈ w.devToolsPorts,
      Notification.bufferFlushed port w.captureBuffer.length ∈
        (setPauseState w false persistOk envs).2.outbox) ∧
    (setPauseState w false persistOk envs).2.storage.durable =
      (addAll w.storage w.captureBuffer (fun i => (envs i).store) 0).durable ∧
    ((∀ i < w.captureBuffer.length,
        (envs i).store.readOk = true ∧ (envs i).store.writeOk = true) →
      (w.captureBuffer.map fun c => c.id).Nodup →
      (∀ c ∈ w.captureBuffer, ∀ x ∈ w.storage.durable, x.id ≠ c.id) →
      (w.storage.durable ++ w.captureBuffer).length ≤ MAX_TOTAL_CAPTURES →
      (∀ k : Nat, (w.storage.durable ++ w.captureBuffer).countP (fun c => tabKey c = k) ≤
        MAX_CAPTURES_PER_TAB) →
      List.Perm (setPauseState w false persistOk envs).2.storage.durable
        (w.storage.durable ++ w.captureBuffer) ∧
      ∀ c ∈ w.captureBuffer, c ∈ (setPauseState w false persistOk envs).2.storage.durable) := by
  subst hpersist
  have hf := flushCaptureBuffer_spec { w with isPaused := false } envs
  have hdur : (setPauseState w false true envs).2.storage.durable =
      addAllDurable w.storage.durable w.captureBuffer (fun j => (envs j).store) 0 := by
    unfold setPauseState
    by_cases h0 : w.captureBuffer.length > 0
    · simp only [h0, notifyAllPanels]
      simp
      exact hf.2.2.2.2.1
    · have hnil : w.captureBuffer = [] := List.length_eq_zero.mp (by omega)
      simp [h0, notifyAllPanels, hnil, addAllDurable]
  have hbuf : (setPauseState w false true envs).2.captureBuffer = [] := by
    unfold setPauseState
    by_cases h0 : w.captureBuffer.length > 0
    · simp only [h0, notifyAllPanels]
      simp
      exact hf.2.1
    · have hnil : w.captureBuffer = [] := List.length_eq_zero.mp (by omega)
      simp [h0, notifyAllPanels, hnil]
  have hpaused : (setPauseState w false true envs).2.isPaused = false := by
    unfold setPauseState
    by_cases h0 : w.captureBuffer.length > 0
    · simp only [h0, notifyAllPanels]
      simp
      exact hf.2.2.1
    · simp [h0, notifyAllPanels]
  refine ⟨?_, hbuf, hpaused, hf.1, ?_, ?_, ?_⟩
  · unfold setPauseState
    simp
  · intro hne port hport
    have h0 : w.captureBuffer.length > 0 := List.length_pos.mpr hne
    unfold setPauseState
    simp only [h0, notifyAllPanels]
    simp
    exact hf.2.2.2.2.2 hne port hport
  · rw [hdur, addAll_durable]
  · intro hok hids hnew hlen htab
    have hperm := addAllDurable_perm (fun j => (envs j).store) w.captureBuffer
      w.storage.durable 0 (fun j _ hj => hok j (by omega)) hids hnew hlen htab
    rw [hdur]
    refine ⟨hperm, ?_⟩
    intro c hc
    exact hperm.mem_iff.mpr (List.mem_append_right _ hc)

/-- Witness of C17 (amended): unpausing the example worker stores its two
buffered captures. -/
theorem pause_resume_round_trip_witness :
    List.Perm (setPauseState exampleBuffered false true fun _ => {}).2.storage.durable
        (exampleBuffered.storage.durable ++ exampleBuffered.captureBuffer) ∧
      ∀ c ∈ exampleBuffered.captureBuffer,
        c ∈ (setPauseState exampleBuffered false true fun _ => {}).2.storage.durable :=
  (pause_resume_round_trip exampleBuffered true (fun _ => {}) rfl).2.2.2.2.2.2
    (fun _ _ => ⟨rfl, rfl⟩)
    (by decide) (by decide) (by decide)
    (fun _ => le_trans (List.countP_le_length _) (by decide))

/-- Witness of C19 (amended): a query by method with a limit of 1 on three captures. -/
theorem query_filter_sort_paginate_witness :
    ((StorageManager.mk
        [{ id := some "a", method := some "toDataURL", timestamp := 5 },
         { id := some "b", method := some "getImageData", timestamp := 9 },
         { id := some "c", method := some "toDataURL", timestamp := 7 }] none 0).getCaptures
        exampleParser { method := some "toDataURL", limit := some 1 } {}).1 =
      [{ id := some "c", method := some "toDataURL", timestamp := 7 }] :=
  ((query_filter_sort_paginate exampleParser
      (StorageManager.mk
        [{ id := some "a", method := some "toDataURL", timestamp := 5 },
         { id := some "b", method := some "getImageData", timestamp := 9 },
         { id := some "c", method := some "toDataURL", timestamp := 7 }] none 0)
      { method := some "toDataURL", limit := some 1 } {}).2.1 rfl (Or.inl rfl)).trans (by decide)

/-! ## Bulk deduplication -/

theorem accepted_cons (d : Deduplicator) (call : Int × Capture) (rest : List (Int × Capture)) :
    d.accepted (call :: rest) =
      if (d.isDuplicate call.1 call.2).1.isDuplicate = true then
        (d.isDuplicate call.1 call.2).2.accepted rest
      else call.2 :: (d.isDuplicate call.1 call.2).2.accepted rest := by
  unfold Deduplicator.accepted
  simp only [Deduplicator.verdicts, List.zip_cons_cons, List.filter_cons]
  cases h : (d.isDuplicate call.1 call.2).1.isDuplicate <;> simp

theorem filterDuplicates_foldl (calls : List (Int × Capture)) (d : Deduplicator)
    (acc : List Capture) :
    calls.foldl
      (fun (acc : List Capture × Deduplicator) call =>
        let (result, d) := acc.2.isDuplicate call.1 call.2
        if result.isDuplicate then (acc.1, d) else (acc.1 ++ [call.2], d))
      (acc, d) = (acc ++ d.accepted calls, d.run calls) := by
  induction calls generalizing d acc with
  | nil => simp [Deduplicator.accepted, Deduplicator.verdicts, Deduplicator.run]
  | cons call rest ih =>
    rw [List.foldl_cons, accepted_cons]
    cases h : (d.isDuplicate call.1 call.2).1.isDuplicate
    · simp only [h, Bool.false_eq_true, if_false]
      rw [ih]
      simp [Deduplicator.run]
    · simp only [h, if_true]
      rw [ih]
      simp [Deduplicator.run]

theorem accepted_sublist (calls : List (Int × Capture)) (d : Deduplicator) :
    List.Sublist (d.accepted calls) (calls.map Prod.snd) := by
  induction calls generalizing d with
  | nil => simp [Deduplicator.accepted, Deduplicator.verdicts]
  | cons call rest ih =>
    rw [accepted_cons, List.map_cons]
    split_ifs
    · exact (ih _).cons _
    · exact (ih _).cons₂ _

theorem accepted_id_not_recent (calls : List (Int × Capture)) (d : Deduplicator)
    (c : Capture) (hc : c ∈ d.accepted calls) : c.id ∉ d.recentIds := by
  induction calls generalizing d with
  | nil => simp [Deduplicator.accepted, Deduplicator.verdicts] at hc
  | cons call rest ih =>
    have hsub : ∀ x, x ∈ d.recentIds → x ∈ (d.isDuplicate call.1 call.2).2.recentIds := by
      intro x hx
      unfold Deduplicator.isDuplicate
      simp only [setAdd]
      split_ifs
      all_goals simp_all
    rw [accepted_cons] at hc
    split_ifs at hc with h
    · exact fun hmem => ih _ hc (hsub _ hmem)
    · rcases List.mem_cons.mp hc with heq | htail
      · subst heq
        intro hmem
        rw [isDuplicate_of_mem d call.1 call.2 hmem] at h
        exact h rfl
      · exact fun hmem => ih _ htail (hsub _ hmem)

theorem accepted_ids_nodup (calls : List (Int × Capture)) (d : Deduplicator) :
    ((d.accepted calls).map fun c => c.id).Nodup := by
  induction calls generalizing d with
  | nil => simp [Deduplicator.accepted, Deduplicator.verdicts]
  | cons call rest ih =>
    rw [accepted_cons]
    split_ifs with h
    · exact ih _
    · rw [List.map_cons, List.nodup_cons]
      refine ⟨?_, ih _⟩
      intro hmem
      obtain ⟨c, hc, hid⟩ := List.mem_map.mp hmem
      have h1 := accepted_id_not_recent rest _ c hc
      have h2 := isDuplicate_accept_records_id d call.1 call.2 (by simpa using h)
      rw [← hid] at h2
      exact h1 h2

theorem verdicts_length (calls : List (Int × Capture)) (d : Deduplicator) :
    (d.verdicts calls).length = calls.length := by
  induction calls generalizing d with
  | nil => rfl
  | cons call rest ih => simp [Deduplicator.verdicts, ih]

/-- C21. The method `filterDuplicates` preserves order: for every list of
captures and every Deduplicator state it returns the captures of the input
whose `isDuplicate` call, made from left to right on the evolving state,
answered not-duplicate, in input order: the result is a subsequence of the
input, and the state left is the one left by the calls. The returned captures
have pairwise distinct ids (whether or not the ids are defined), none of which
was in the id set before the call. -/
theorem filterDuplicates_preserves_order (d : Deduplicator) (calls : List (Int × Capture)) :
    (d.filterDuplicates calls).1 =
      ((calls.zip (d.verdicts calls)).filter fun p => !p.2).map (fun p => p.1.2) ∧
    (d.verdicts calls).length = calls.length ∧
    List.Sublist (d.filterDuplicates calls).1 (calls.map Prod.snd) ∧
    (d.filterDuplicates calls).2 = d.run calls ∧
    ((d.filterDuplicates calls).1.map fun c => c.id).Nodup ∧
    ∀ c ∈ (d.filterDuplicates calls).1, c.id ∉ d.recentIds := by
  have h : d.filterDuplicates calls = (d.accepted calls, d.run calls) := by
    unfold Deduplicator.filterDuplicates
    rw [filterDuplicates_foldl]
    simp
  rw [h]
  exact ⟨rfl, verdicts_length calls d, accepted_sublist calls d, rfl,
    accepted_ids_nodup calls d, fun c hc => accepted_id_not_recent calls d c hc⟩

/-- Witness of C21: of four `getParameter` captures, the second comes 10 ms
after the first with the same signature and the third repeats the id of the
first; the first and the fourth are returned. -/
theorem filterDuplicates_preserves_order_witness :
    (exampleDedup.filterDuplicates
        [(1000, exampleGetParameter "a"), (1010, exampleGetParameter "b"),
         (1020, exampleGetParameter "a"), (1100, exampleGetParameter "c")]).1 =
      [exampleGetParameter "a", exampleGetParameter "c"] :=
  (filterDuplicates_preserves_order exampleDedup
      [(1000, exampleGetParameter "a"), (1010, exampleGetParameter "b"),
       (1020, exampleGetParameter "a"), (1100, exampleGetParameter "c")]).1.trans (by decide)

/-! ## The whitelist gate -/

/-- Counterexample to C25: on a worker that monitors `a.com`, a capture sent
from a frame of `cdn.b.com` in tab 5 is answered with reason `not whitelisted`,
written with a space, which is not the string `not_whitelisted`. -/
theorem whitelist_reason_counterexample :
    (handleFingerprintDetected exampleParser exampleWorker {} (some { id := some "y" })
        { tab := some { id := some 5, url := some "https://cdn.b.com/script.js" },
          url := some "https://cdn.b.com/script.js" }).1.reason = some "not whitelisted" ∧
    (handleFingerprintDetected exampleParser exampleWorker {} (some { id := some "y" })
        { tab := some { id := some 5, url := some "https://cdn.b.com/script.js" },
          url := some "https://cdn.b.com/script.js" }).1.reason ≠ some "not_whitelisted" := by
  decide

/-- C25, amended. Non-whitelisted rejection reason: for every intake event
with a payload and a valid tab id whose tab is not being cleared, if
`isWhitelisted` rejects the resolved sender URL (it does not parse, or its
hostname is not in the whitelist), `handleFingerprintDetected` returns
`success: true`, the id of the payload, `ignored: true` and the reason
`not whitelisted`. -/
theorem whitelist_rejection_reason (P : UrlParser) (w : Worker) (env : IntakeEnv)
    (data : Capture) (sender : Sender) (tabId : Nat)
    (htab : (sender.tab.bind fun t => t.id) = some tabId) (hvalid : tabId ≠ 0)
    (hclear : tabId ∉ w.tabsBeingCleared)
    (hgate : isWhitelisted P w.whitelist (resolveSenderUrl P sender) = false) :
    (handleFingerprintDetected P w env (some data) sender).1 =
      { success := some true, id := data.id, ignored := some true,
        reason := some "not whitelisted" } := by
  unfold handleFingerprintDetected
  simp only [htab, if_neg hvalid, if_neg hclear, if_pos hgate]

/-- Witness of C25 (amended): the capture sent from a frame of `cdn.b.com`. -/
theorem whitelist_rejection_reason_witness :
    (handleFingerprintDetected exampleParser exampleWorker {} (some { id := some "y" })
        { tab := some { id := some 5, url := some "https://cdn.b.com/script.js" },
          url := some "https://cdn.b.com/script.js" }).1 =
      { success := some true, id := some "y", ignored := some true,
        reason := some "not whitelisted" } :=
  whitelist_rejection_reason exampleParser exampleWorker {} { id := some "y" }
    { tab := some { id := some 5, url := some "https://cdn.b.com/script.js" },
      url := some "https://cdn.b.com/script.js" } 5 rfl (by decide) (by decide) (by decide)

/-! ## Adding the newest capture, and adding after a failed read -/

theorem trimCaptures_singleton (c : Capture) : trimCaptures [c] = [c] := by
  rw [trimCaptures_one_group [c] (tabKey c) (by simp)]
  simp [sortNewestFirst, MAX_CAPTURES_PER_TAB]

theorem head_sortNewestFirst_of_newest (m : List Capture) (c : Capture) (hc : c ∈ m)
    (hts : ∀ x ∈ m, x = c ∨ x.timestamp < c.timestamp) :
    (sortNewestFirst m).head? = some c := by
  have hperm := sortNewestFirst_perm m
  have hsorted := sortNewestFirst_sorted m
  cases hs : sortNewestFirst m with
  | nil =>
    rw [hs] at hperm
    have := hperm.symm.subset hc
    simp at this
  | cons h t =>
    rw [hs] at hperm hsorted
    have hh : h ∈ m := hperm.subset (List.mem_cons_self h t)
    have hcm : c ∈ h :: t := hperm.symm.subset hc
    rcases hts h hh with heq | hlt
    · simp [heq]
    · rcases List.mem_cons.mp hcm with heq | htail
      · simp [heq]
      · have := List.rel_of_sorted_cons hsorted c htail
        unfold newerFirst at this
        omega

theorem head_trimCaptures_of_newest (l : List Capture) (c : Capture)
    (hts : ∀ x ∈ l, x.timestamp < c.timestamp) :
    (trimCaptures (l ++ [c])).head? = some c := by
  rw [trimCaptures_eq]
  have hgroup : (sortNewestFirst (tabGroup (l ++ [c]) (tabKey c))).head? = some c := by
    apply head_sortNewestFirst_of_newest
    · simp [tabGroup]
    · intro x hx
      have hx2 := (List.mem_filter.mp hx).1
      rcases List.mem_append.mp hx2 with h | h
      · exact Or.inr (hts x h)
      · exact Or.inl (List.mem_singleton.mp h)
  have hkept : c ∈ keptOfTab (l ++ [c]) (tabKey c) := by
    unfold keptOfTab
    cases hs : sortNewestFirst (tabGroup (l ++ [c]) (tabKey c)) with
    | nil => rw [hs] at hgroup; simp at hgroup
    | cons h t =>
      rw [hs] at hgroup
      simp at hgroup
      simp [MAX_CAPTURES_PER_TAB, hgroup]
  have hmem : c ∈ keptPerTab (l ++ [c]) := by
    unfold keptPerTab
    rw [List.mem_flatMap]
    exact ⟨tabKey c, (mem_tabOrder _ _).mpr (by simp), hkept⟩
  have hhead : (sortNewestFirst (keptPerTab (l ++ [c]))).head? = some c := by
    apply head_sortNewestFirst_of_newest _ _ hmem
    intro x hx
    unfold keptPerTab at hx
    obtain ⟨k, _, hk⟩ := List.mem_flatMap.mp hx
    have hx2 := (mem_keptOfTab _ _ _ hk).1
    rcases List.mem_append.mp hx2 with h | h
    · exact Or.inr (hts x h)
    · exact Or.inl (List.mem_singleton.mp h)
  cases hs : sortNewestFirst (keptPerTab (l ++ [c])) with
  | nil => rw [hs] at hhead; simp at hhead
  | cons h t =>
    rw [hs] at hhead
    simp at hhead
    simp [MAX_TOTAL_CAPTURES, hhead]

/-- C29. A strictly newest capture survives its own add: for every persisted
collection and every capture `c` whose id is not yet stored and whose
timestamp is strictly greater than the timestamp of every stored capture, an
`addCapture(c)` whose write succeeds returns the id, and the persisted
collection then contains `c` as its first element (whether the read inside
`addCapture` succeeds or fails). -/
theorem newest_capture_survives_add (s : StorageManager) (c : Capture) (b : Backend)
    (hnew : ∀ x ∈ s.durable, x.id ≠ c.id)
    (hts : ∀ x ∈ s.durable, x.timestamp < c.timestamp)
    (hwrite : b.writeOk = true) :
    (s.addCapture c b).1 = Except.ok c.id ∧
    (s.addCapture c b).2.durable.head? = some c ∧
    c ∈ (s.addCapture c b).2.durable := by
  have hhead : (s.addCapture c b).2.durable.head? = some c := by
    rw [addCapture_of_absent s c b (by
      rintro ⟨_, x, hx, hid⟩
      exact hnew x hx hid)]
    rw [if_pos hwrite]
    by_cases hr : b.readOk = true
    · rw [if_pos hr]
      exact head_trimCaptures_of_newest _ _ hts
    · rw [if_neg hr]
      exact head_trimCaptures_of_newest [] c (by simp)
  refine ⟨?_, hhead, List.mem_of_mem_head? hhead⟩
  unfold StorageManager.addCapture
  rw [getAllCaptures_bypass]
  by_cases hr : b.readOk = true
  · have hany : (s.durable.any fun x => decide (x.id = c.id)) = false := by
      rw [List.any_eq_false]
      intro x hx
      simpa using hnew x hx
    simp [hr, hany, StorageManager.saveCaptures, hwrite]
  · simp [hr, StorageManager.saveCaptures, hwrite]

/-- Witness of C29: a capture of timestamp 9 added to a store holding a capture
of timestamp 5. -/
theorem newest_capture_survives_add_witness :
    ((StorageManager.mk [{ id := some "a", tabId := some 1, timestamp := 5 }] none 0).addCapture
        { id := some "b", tabId := some 2, timestamp := 9 } {}).2.durable.head? =
      some { id := some "b", tabId := some 2, timestamp := 9 } :=
  (newest_capture_survives_add
    (StorageManager.mk [{ id := some "a", tabId := some 1, timestamp := 5 }] none 0)
    { id := some "b", tabId := some 2, timestamp := 9 } {} (by decide) (by decide) rfl).2.1

/-- C30. Read failure inside add: for every durable collection (empty or not)
and every capture `c`, if the read performed by `addCapture` fails, so that
`getAllCaptures` degrades to the empty list, and the following write succeeds,
then `addCapture` succeeds and the durable collection afterwards is exactly
`[c]`. -/
theorem read_failure_inside_add (s : StorageManager) (c : Capture) (b : Backend)
    (hread : b.readOk = false) (hwrite : b.writeOk = true) :
    (s.getAllCaptures true b).1 = [] ∧
    (s.addCapture c b).1 = Except.ok c.id ∧
    (s.addCapture c b).2.durable = [c] := by
  refine ⟨?_, ?_, ?_⟩
  · rw [getAllCaptures_bypass]
    simp [hread]
  · unfold StorageManager.addCapture
    rw [getAllCaptures_bypass]
    simp [hread, StorageManager.saveCaptures, hwrite]
  · rw [addCapture_of_absent s c b (by simp [hread])]
    simp [hread, hwrite, trimCaptures_singleton]

/-- Witness of C30: a store holding one capture loses it to an add whose read fails. -/
theorem read_failure_inside_add_witness :
    ((StorageManager.mk [{ id := some "a", tabId := some 1, timestamp := 5 }] none 0).addCapture
        { id := some "b", tabId := some 2, timestamp := 9 } { readOk := false }).2.durable =
      [{ id := some "b", tabId := some 2, timestamp := 9 }] :=
  (read_failure_inside_add
    (StorageManager.mk [{ id := some "a", tabId := some 1, timestamp := 5 }] none 0)
    { id := some "b", tabId := some 2, timestamp := 9 } { readOk := false } rfl rfl).2.2

/-! ## Third-party sources are script sources -/

theorem exampleParser_readsScheme : ReadsScheme exampleParser := by
  intro s u hP _
  unfold exampleParser at hP
  split_ifs at hP with h1 h2 h3 h4
  all_goals first
    | (subst h1; decide)
    | (subst h2; decide)
    | (subst h3; decide)
    | (subst h4; decide)

theorem thirdParty_source_parses (P : UrlParser) (input : AttributionInput)
    (h : (buildAttribution P input).isThirdParty = true) :
    ∃ s u, input.sourceUrl = some s ∧ P s = some u ∧
      (u.protocol = "http:" ∨ u.protocol = "https:") := by
  have h2 := ((buildAttribution_isThirdParty_iff P input).mp h).2.1
  cases hs : input.sourceUrl with
  | none =>
    exfalso
    apply h2
    simp [buildAttribution, hs, sanitizeHttpUrl, tryParseHttpUrl, jsOr, truthyStr,
      getUrlHostname, strOr]
  | some s =>
    cases hP : P s with
    | none =>
      exfalso
      apply h2
      simp [buildAttribution, hs, sanitizeHttpUrl, tryParseHttpUrl, jsOr, truthyStr,
        getUrlHostname, strOr, hP]
    | some u =>
      by_cases hproto : u.protocol = "http:" ∨ u.protocol = "https:"
      · exact ⟨s, u, rfl, hP, hproto⟩
      · exfalso
        apply h2
        simp [buildAttribution, hs, sanitizeHttpUrl, tryParseHttpUrl, jsOr, truthyStr,
          getUrlHostname, strOr, hP, hproto]

/-- C26. Only resolvable script sources can be third-party: for every input of
`buildAttribution`, `isThirdParty = true` implies `sourceKind = 'script'`;
equivalently, a source classified `unknown`, `blob`, `data`, `javascript`,
`other` or `inline` is never reported as third-party. The platform parser is
taken to read the scheme of a string: what it parses to an http(s) URL is not
empty, is not the word `unknown` and does not start with `blob:`, `data:` or
`javascript:`. -/
theorem third_party_only_script (P : UrlParser) (hP : ReadsScheme P)
    (input : AttributionInput) :
    ((buildAttribution P input).isThirdParty = true →
      (buildAttribution P input).sourceKind = "script") ∧
    ((buildAttribution P input).sourceKind ∈
        ["unknown", "blob", "data", "javascript", "other", "inline"] →
      (buildAttribution P input).isThirdParty = false) := by
  have hmain : (buildAttribution P input).isThirdParty = true →
      (buildAttribution P input).sourceKind = "script" := by
    intro h
    obtain ⟨s, u, hs, hPs, hproto⟩ := thirdParty_source_parses P input h
    obtain ⟨hne, hunk, hblob, hdata, hjs⟩ := hP s u hPs hproto
    have hkind := ((buildAttribution_isThirdParty_iff P input).mp h).2.2.2
    have hsan := sanitize_of_parse P s u hPs hproto
    have hcl : (buildAttribution P input).sourceKind =
        classifySourceKind P (some s) (sanitizeHttpUrl P (some s))
          (sanitizeHttpUrl P input.frameUrl) (sanitizeHttpUrl P input.topLevelUrl) := by
      simp only [buildAttribution, hs]
    rw [hcl] at hkind ⊢
    rw [classify_inline P s _ _ _ hne hunk hblob hdata hjs (by rw [hsan.2.1]; simp)
      (by rw [hsan.1]; simp [truthyStr, sanitized_ne_empty u hproto])] at hkind ⊢
    split_ifs at hkind ⊢ with hc
    · exact absurd rfl hkind
    · rfl
  refine ⟨hmain, ?_⟩
  intro hkind
  cases h : (buildAttribution P input).isThirdParty with
  | false => rfl
  | true =>
    rw [hmain h] at hkind
    exact absurd hkind (by decide)

/-- Witness of C26: the script of `cdn.b.com` on a page of `a.com`, which is
reported as third-party. -/
theorem third_party_only_script_witness :
    (buildAttribution exampleParser
      { topLevelUrl := some "https://a.com/page", frameUrl := some "https://a.com/page",
        sourceUrl := some "https://cdn.b.com/script.js" }).sourceKind = "script" :=
  (third_party_only_script exampleParser exampleParser_readsScheme
    { topLevelUrl := some "https://a.com/page", frameUrl := some "https://a.com/page",
      sourceUrl := some "https://cdn.b.com/script.js" }).1 (by decide)

/-! ## Idempotence of `getSiteBase` -/

theorem char_upper_cases (c : Char) (h : 65 ≤ c.toNat ∧ c.toNat ≤ 90) :
    c ∈ "ABCDEFGHIJKLMNOPQRSTUVWXYZ".data := by
  have hc : c = Char.ofNat c.toNat := (Char.ofNat_toNat c).symm
  obtain ⟨h1, h2⟩ := h
  generalize c.toNat = n at hc h1 h2
  subst hc
  interval_cases n <;> decide

theorem toLower_whiteSpace (c : Char) : isJsWhiteSpace c.toLower = isJsWhiteSpace c := by
  by_cases h : 65 ≤ c.toNat ∧ c.toNat ≤ 90
  · have key : ∀ c ∈ "ABCDEFGHIJKLMNOPQRSTUVWXYZ".data,
        isJsWhiteSpace c.toLower = isJsWhiteSpace c := by decide
    exact key c (char_upper_cases c h)
  · unfold Char.toLower
    simp only [ge_iff_le]
    rw [if_neg h]

theorem toLower_toLower (c : Char) : c.toLower.toLower = c.toLower := by
  by_cases h : 65 ≤ c.toNat ∧ c.toNat ≤ 90
  · have key : ∀ c ∈ "ABCDEFGHIJKLMNOPQRSTUVWXYZ".data,
        c.toLower.toLower = c.toLower := by decide
    exact key c (char_upper_cases c h)
  · have : c.toLower = c := by
      unfold Char.toLower
      simp only [ge_iff_le]
      rw [if_neg h]
    rw [this, this]

theorem dropWhile_of_none (p : Char → Bool) (l : List Char) (h : ∀ c ∈ l, p c = false) :
    l.dropWhile p = l := by
  cases l with
  | nil => rfl
  | cons c t => rw [List.dropWhile_cons, h c (List.mem_cons_self _ _)]; rfl

theorem jsTrim_of_no_whiteSpace (l : List Char) (h : ∀ c ∈ l, isJsWhiteSpace c = false) :
    jsTrim l = l := by
  unfold jsTrim
  rw [dropWhile_of_none _ l h, dropWhile_of_none _ l.reverse (fun c hc => h c (List.mem_reverse.mp hc)),
    List.reverse_reverse]

theorem mem_jsTrim (l : List Char) (c : Char) (h : c ∈ jsTrim l) : c ∈ l := by
  unfold jsTrim at h
  rw [List.mem_reverse] at h
  have h1 := (List.dropWhile_sublist _).subset h
  rw [List.mem_reverse] at h1
  exact (List.dropWhile_sublist _).subset h1

theorem jsTrim_toLower (s : List Char) : jsTrim (jsToLowerCase s) = jsToLowerCase (jsTrim s) := by
  have hcomp : (isJsWhiteSpace ∘ Char.toLower) = isJsWhiteSpace := by
    funext c
    exact toLower_whiteSpace c
  unfold jsTrim jsToLowerCase
  rw [List.dropWhile_map, hcomp, ← List.map_reverse, List.dropWhile_map, hcomp, List.map_reverse]

theorem dropWhile_prefix_fixed (p : Char → Bool) (l m : List Char)
    (hl : l.dropWhile p = l) (hm : m <+: l) : m.dropWhile p = m := by
  cases m with
  | nil => rfl
  | cons a u =>
    obtain ⟨t, ht⟩ := hm
    rw [← ht, List.cons_append, List.dropWhile_cons] at hl
    rw [List.dropWhile_cons]
    cases ha : p a with
    | false => rfl
    | true =>
      rw [ha] at hl
      simp only [if_true] at hl
      have hlen := congrArg List.length hl
      have hsub := (List.dropWhile_sublist p (l := u ++ t)).length_le
      simp only [List.length_cons] at hlen
      omega

theorem jsTrim_jsTrim (s : List Char) : jsTrim (jsTrim s) = jsTrim s := by
  have hrd : ∀ l : List Char, (l.reverse.dropWhile isJsWhiteSpace).reverse =
      l.rdropWhile isJsWhiteSpace := fun l => rfl
  unfold jsTrim
  rw [hrd, hrd]
  rw [dropWhile_prefix_fixed isJsWhiteSpace (List.dropWhile isJsWhiteSpace s) _
    (List.dropWhile_idempotent _ _) (List.rdropWhile_prefix _ _), List.rdropWhile_idempotent]

theorem normalizedHost_fixed (r : List Char) (htrim : jsTrim r = r)
    (hlow : jsToLowerCase r = r) : normalizedHost (String.mk r) = r := by
  unfold normalizedHost
  simp only [htrim, hlow]

theorem normalizedHost_idem (h : String) :
    normalizedHost (String.mk (normalizedHost h)) = normalizedHost h := by
  apply normalizedHost_fixed
  · unfold normalizedHost
    rw [jsTrim_toLower, jsTrim_jsTrim]
  · unfold normalizedHost jsToLowerCase
    rw [List.map_map]
    apply List.map_congr_left
    intro c _
    exact toLower_toLower c

theorem normalizedHost_lower (h : String) (c : Char) (hc : c ∈ normalizedHost h) :
    c.toLower = c := by
  unfold normalizedHost jsToLowerCase at hc
  obtain ⟨d, _, rfl⟩ := List.mem_map.mp hc
  exact toLower_toLower d

theorem jsToLowerCase_fixed (r : List Char) (h : ∀ c ∈ r, c.toLower = c) :
    jsToLowerCase r = r := by
  unfold jsToLowerCase
  conv_rhs => rw [← List.map_id r]
  exact List.map_congr_left h

theorem mem_jsSplit (sep : Char) (s : List Char) :
    ∀ l ∈ jsSplit sep s, sep ∉ l ∧ ∀ c ∈ l, c ∈ s := by
  induction s with
  | nil => simp [jsSplit]
  | cons c cs ih =>
    rw [jsSplit]
    cases h : jsSplit sep cs with
    | nil => simp
    | cons l0 ls =>
      rw [h] at ih
      simp only []
      intro l hl
      split_ifs at hl with hc
      · rcases List.mem_cons.mp hl with rfl | hl
        · simp
        · obtain ⟨h1, h2⟩ := ih l hl
          exact ⟨h1, fun d hd => List.mem_cons_of_mem _ (h2 d hd)⟩
      · rcases List.mem_cons.mp hl with rfl | hl
        · obtain ⟨h1, h2⟩ := ih l0 (List.mem_cons_self _ _)
          constructor
          · intro hmem
            rcases List.mem_cons.mp hmem with heq | hmem
            · exact hc heq.symm
            · exact h1 hmem
          · intro d hd
            rcases List.mem_cons.mp hd with rfl | hd
            · exact List.mem_cons_self _ _
            · exact List.mem_cons_of_mem _ (h2 d hd)
        · obtain ⟨h1, h2⟩ := ih l (List.mem_cons_of_mem _ hl)
          exact ⟨h1, fun d hd => List.mem_cons_of_mem _ (h2 d hd)⟩

theorem mem_labelsOf (host : List Char) (l : List Char) (hl : l ∈ labelsOf host) :
    l ≠ [] ∧ '.' ∉ l ∧ ∀ c ∈ l, c ∈ host := by
  unfold labelsOf at hl
  rw [List.mem_filter] at hl
  obtain ⟨h1, h2⟩ := mem_jsSplit '.' host l hl.1
  exact ⟨by simpa using hl.2, h1, h2⟩

theorem jsSplit_of_not_mem (sep : Char) (l : List Char) (h : sep ∉ l) :
    jsSplit sep l = [l] := by
  induction l with
  | nil => rfl
  | cons c cs ih =>
    rw [jsSplit, ih (fun hm => h (List.mem_cons_of_mem _ hm))]
    simp only []
    rw [if_neg (fun hc => h (by simp [hc]))]

theorem labelsOf_label (l : List Char) (hne : l ≠ []) (h : '.' ∉ l) : labelsOf l = [l] := by
  unfold labelsOf
  rw [jsSplit_of_not_mem '.' l h]
  simp [hne]

theorem labelsOf_join_two (a b : List Char) (ha : a ≠ [] ∧ '.' ∉ a) (hb : b ≠ [] ∧ '.' ∉ b) :
    labelsOf (jsJoinDot [a, b]) = [a, b] := by
  have : jsJoinDot [a, b] = a ++ '.' :: b := by simp [jsJoinDot, List.intercalate]
  rw [this, labelsOf_append_sep, labelsOf_label a ha.1 ha.2, labelsOf_label b hb.1 hb.2]
  rfl

theorem labelsOf_join_three (a b c : List Char) (ha : a ≠ [] ∧ '.' ∉ a)
    (hb : b ≠ [] ∧ '.' ∉ b) (hc : c ≠ [] ∧ '.' ∉ c) :
    labelsOf (jsJoinDot [a, b, c]) = [a, b, c] := by
  have : jsJoinDot [a, b, c] = a ++ '.' :: (b ++ '.' :: c) := by
    simp [jsJoinDot, List.intercalate]
  rw [this, labelsOf_append_sep, labelsOf_append_sep, labelsOf_label a ha.1 ha.2,
    labelsOf_label b hb.1 hb.2, labelsOf_label c hc.1 hc.2]
  rfl

theorem last_three_append (front : List (List Char)) (a b c : List Char) :
    sliceLast (front ++ [a, b, c]) 3 = [a, b, c] ∧
      sliceLast (front ++ [a, b, c]) 2 = [b, c] ∧ (front ++ [a, b, c]).getLastD [] = c ∧
      ((front ++ [a, b, c]).get? ((front ++ [a, b, c]).length - 2)).getD [] = b := by
  refine ⟨?_, ?_, ?_, ?_⟩
  · unfold sliceLast
    rw [List.length_append, show front.length + [a, b, c].length - 3 = front.length by simp,
      List.drop_left]
  · unfold sliceLast
    rw [show front ++ [a, b, c] = (front ++ [a]) ++ [b, c] by simp]
    rw [List.length_append,
      show (front ++ [a]).length + [b, c].length - 2 = (front ++ [a]).length by simp,
      List.drop_left]
  · simp
  · rw [List.get?_eq_getElem?, List.length_append,
      List.getElem?_append_right (by simp)]
    simp

theorem last_three (ls : List (List Char)) (hlen : 2 < ls.length) :
    ∃ front a b c, ls = front ++ [a, b, c] := by
  have hdrop : (ls.drop (ls.length - 3)).length = 3 := by
    rw [List.length_drop]
    omega
  match hd : ls.drop (ls.length - 3), hdrop with
  | [a, b, c], _ =>
    exact ⟨ls.take (ls.length - 3), a, b, c, by rw [← hd, List.take_append_drop]⟩

theorem mem_jsJoinDot (ls : List (List Char)) (c : Char) (hc : c ∈ jsJoinDot ls) :
    c = '.' ∨ ∃ l ∈ ls, c ∈ l := by
  induction ls with
  | nil => simp [jsJoinDot, List.intercalate] at hc
  | cons l rest ih =>
    cases rest with
    | nil =>
      have : jsJoinDot [l] = l := by simp [jsJoinDot, List.intercalate]
      rw [this] at hc
      exact Or.inr ⟨l, List.mem_cons_self _ _, hc⟩
    | cons l2 rest2 =>
      have : jsJoinDot (l :: l2 :: rest2) = l ++ '.' :: jsJoinDot (l2 :: rest2) := by
        simp [jsJoinDot, List.intercalate]
      rw [this] at hc
      rcases List.mem_append.mp hc with h | h
      · exact Or.inr ⟨l, List.mem_cons_self _ _, h⟩
      · rcases List.mem_cons.mp h with h | h
        · exact Or.inl h
        · rcases ih h with h | ⟨l', hl', hcl'⟩
          · exact Or.inl h
          · exact Or.inr ⟨l', List.mem_cons_of_mem _ hl', hcl'⟩

theorem getSiteBase_of_three (a b c : List Char) (ha : a ≠ [] ∧ '.' ∉ a)
    (hb : b ≠ [] ∧ '.' ∉ b) (hc : c ≠ [] ∧ '.' ∉ c)
    (htrim : jsTrim (jsJoinDot [a, b, c]) = jsJoinDot [a, b, c])
    (hlow : jsToLowerCase (jsJoinDot [a, b, c]) = jsJoinDot [a, b, c])
    (hcase : HOSTED_PUBLIC_SUFFIXES.any
        (fun s => ('.' :: s.data).isSuffixOf (jsJoinDot [a, b, c])) = true ∨
      (c.length = 2 ∧ String.mk b ∈ COMMON_SECOND_LEVEL_TLDS)) :
    getSiteBase (String.mk (jsJoinDot [a, b, c])) = some (String.mk (jsJoinDot [a, b, c])) := by
  have hnorm := normalizedHost_fixed _ htrim hlow
  have hlabels := labelsOf_join_three a b c ha hb hc
  have hne : jsJoinDot [a, b, c] ≠ [] := by
    intro h
    rw [h] at hlabels
    have := congrArg List.length hlabels
    simp [labelsOf, jsSplit] at this
  have h3 := last_three_append [] a b c
  simp only [List.nil_append] at h3
  rw [getSiteBase_unfold, hnorm, hlabels, if_neg hne, if_neg (by simp), h3.1, h3.2.2.1, h3.2.2.2]
  split_ifs with h1 h2
  · rfl
  · rfl
  · rcases hcase with h | h
    · exact absurd h h1
    · exact absurd h h2

theorem getSiteBase_of_two (b c : List Char) (hb : b ≠ [] ∧ '.' ∉ b) (hc : c ≠ [] ∧ '.' ∉ c)
    (htrim : jsTrim (jsJoinDot [b, c]) = jsJoinDot [b, c])
    (hlow : jsToLowerCase (jsJoinDot [b, c]) = jsJoinDot [b, c]) :
    getSiteBase (String.mk (jsJoinDot [b, c])) = some (String.mk (jsJoinDot [b, c])) := by
  have hnorm := normalizedHost_fixed _ htrim hlow
  have hlabels := labelsOf_join_two b c hb hc
  have hne : jsJoinDot [b, c] ≠ [] := by
    intro h
    rw [h] at hlabels
    have := congrArg List.length hlabels
    simp [labelsOf, jsSplit] at this
  rw [getSiteBase_unfold, hnorm, hlabels, if_neg hne, if_pos (by simp)]

theorem join_lower (h : String) (ls : List (List Char))
    (hls : ∀ l ∈ ls, l ∈ labelsOf (normalizedHost h)) :
    jsToLowerCase (jsJoinDot ls) = jsJoinDot ls := by
  apply jsToLowerCase_fixed
  intro c hc
  rcases mem_jsJoinDot ls c hc with rfl | ⟨l, hl, hcl⟩
  · rfl
  · exact normalizedHost_lower h c ((mem_labelsOf _ l (hls l hl)).2.2 c hcl)

theorem getSiteBase_idem_core (h r : String) (hr : getSiteBase h = some r)
    (htrim : jsTrim r.data = r.data) : getSiteBase r = some r := by
  rw [getSiteBase_unfold] at hr
  split_ifs at hr with h0 h2 hany hb
  · injection hr with hr
    subst hr
    rw [getSiteBase_unfold, normalizedHost_idem, if_neg h0, if_pos h2]
  · injection hr with hr
    subst hr
    obtain ⟨front, a, b, c, hls⟩ := last_three _ (not_le.mp h2)
    have hmem : ∀ l ∈ [a, b, c], l ∈ labelsOf (normalizedHost h) := by
      intro l hl
      rw [hls]
      exact List.mem_append_right _ hl
    have ha := mem_labelsOf _ a (hmem a (by simp))
    have hb := mem_labelsOf _ b (hmem b (by simp))
    have hc := mem_labelsOf _ c (hmem c (by simp))
    have h3 := last_three_append front a b c
    rw [hls, h3.1] at htrim ⊢
    apply getSiteBase_of_three a b c ⟨ha.1, ha.2.1⟩ ⟨hb.1, hb.2.1⟩ ⟨hc.1, hc.2.1⟩ htrim
      (join_lower h _ hmem)
    left
    rw [List.any_eq_true] at hany ⊢
    obtain ⟨s, hs, hends⟩ := hany
    obtain ⟨pre, hpre⟩ := List.isSuffixOf_iff_suffix.mp hends
    obtain ⟨_, extra, _, _, hjoin⟩ :=
      join_last_three (normalizedHost h) pre s hs hpre.symm (not_le.mp h2)
    rw [hls, h3.1] at hjoin
    refine ⟨s, hs, List.isSuffixOf_iff_suffix.mpr ⟨extra, ?_⟩⟩
    rw [hjoin]
  · injection hr with hr
    subst hr
    obtain ⟨front, a, b, c, hls⟩ := last_three _ (not_le.mp h2)
    have hmem : ∀ l ∈ [a, b, c], l ∈ labelsOf (normalizedHost h) := by
      intro l hl
      rw [hls]
      exact List.mem_append_right _ hl
    have ha := mem_labelsOf _ a (hmem a (by simp))
    have hb' := mem_labelsOf _ b (hmem b (by simp))
    have hc := mem_labelsOf _ c (hmem c (by simp))
    have h3 := last_three_append front a b c
    rw [hls, h3.2.2.1, h3.2.2.2] at hb
    rw [hls, h3.1] at htrim ⊢
    exact getSiteBase_of_three a b c ⟨ha.1, ha.2.1⟩ ⟨hb'.1, hb'.2.1⟩ ⟨hc.1, hc.2.1⟩ htrim
      (join_lower h _ hmem) (Or.inr hb)
  · injection hr with hr
    subst hr
    obtain ⟨front, a, b, c, hls⟩ := last_three _ (not_le.mp h2)
    have hmem : ∀ l ∈ [b, c], l ∈ labelsOf (normalizedHost h) := by
      intro l hl
      rw [hls]
      exact List.mem_append_right _ (List.mem_cons_of_mem _ hl)
    have hb' := mem_labelsOf _ b (hmem b (by simp))
    have hc := mem_labelsOf _ c (hmem c (by simp))
    have h3 := last_three_append front a b c
    rw [hls, h3.2.1] at htrim ⊢
    exact getSiteBase_of_two b c ⟨hb'.1, hb'.2.1⟩ ⟨hc.1, hc.2.1⟩ htrim (join_lower h _ hmem)

theorem getSiteBase_no_whiteSpace (h r : String) (hr : getSiteBase h = some r)
    (hws : ∀ c ∈ h.data, isJsWhiteSpace c = false) : ∀ c ∈ r.data, isJsWhiteSpace c = false := by
  have hhost : ∀ c ∈ normalizedHost h, isJsWhiteSpace c = false := by
    intro c hc
    unfold normalizedHost jsToLowerCase at hc
    obtain ⟨d, hd, rfl⟩ := List.mem_map.mp hc
    rw [toLower_whiteSpace]
    exact hws d (mem_jsTrim _ d hd)
  have hjoin : ∀ n, ∀ c ∈ jsJoinDot (sliceLast (labelsOf (normalizedHost h)) n),
      isJsWhiteSpace c = false := by
    intro n c hc
    rcases mem_jsJoinDot _ c hc with rfl | ⟨l, hl, hcl⟩
    · rfl
    · have hl2 : l ∈ labelsOf (normalizedHost h) := (List.drop_sublist _ _).subset hl
      exact hhost c ((mem_labelsOf _ l hl2).2.2 c hcl)
  rw [getSiteBase_unfold] at hr
  split_ifs at hr
  all_goals
    injection hr with hr
    subst hr
  · exact hhost
  · exact hjoin 3
  · exact hjoin 3
  · exact hjoin 2

/-- Counterexample to C27: the hostname `a. b.c`, with a blank after the first
dot, has the three labels `a`, ` b` and `c`; its site base is ` b.c`, with the
blank in front, and the site base of that is `b.c`. -/
theorem site_base_idempotent_counterexample :
    getSiteBase "a. b.c" = some " b.c" ∧ getSiteBase " b.c" = some "b.c" := by
  decide

/-- C27, amended. The function `getSiteBase` is idempotent on results that
carry no leading or trailing white space: for every string hostname `h` for
which `getSiteBase(h)` is not null, `getSiteBase(getSiteBase(h))` equals
`getSiteBase(h)` when `getSiteBase(h)` is left unchanged by `trim()`, as it is
for every hostname `h` without white space. -/
theorem site_base_idempotent (h r : String) (hr : getSiteBase h = some r) :
    (jsTrim r.data = r.data → getSiteBase r = some r) ∧
    ((∀ c ∈ h.data, isJsWhiteSpace c = false) → getSiteBase r = some r) :=
  ⟨getSiteBase_idem_core h r hr, fun hws =>
    getSiteBase_idem_core h r hr
      (jsTrim_of_no_whiteSpace _ (getSiteBase_no_whiteSpace h r hr hws))⟩

/-- Witness of C27 (amended): the site base `example.co.uk` of
`www.example.co.uk` is its own site base. -/
theorem site_base_idempotent_witness :
    getSiteBase "www.example.co.uk" = some "example.co.uk" ∧
    getSiteBase "example.co.uk" = some "example.co.uk" :=
  ⟨by decide, (site_base_idempotent "www.example.co.uk" "example.co.uk" (by decide)).2
    (by decide)⟩

/-! ## Idempotence of `trimCaptures` -/

theorem tabBefore_asymm (a b : Nat) (h1 : tabBefore a b) (h2 : tabBefore b a) : False := by
  have := h1.2 h2.1
  have := h2.2 h1.1
  omega

theorem tabBefore_irrefl (a : Nat) (h : tabBefore a a) : False := tabBefore_asymm a a h h

theorem tabOrder_pairwise (l : List Capture) (hkeys : ∀ c ∈ l, tabKey c < 2 ^ 32 - 1) :
    List.Pairwise tabBefore (tabOrder l) := by
  have hnd := tabOrder_nodup l
  have hmem : ∀ k ∈ tabOrder l, k < 2 ^ 32 - 1 := by
    intro k hk
    obtain ⟨c, hc, rfl⟩ := List.mem_map.mp ((mem_tabOrder l k).mp hk)
    exact hkeys c hc
  unfold tabOrder forInOrder at hnd hmem ⊢
  rw [List.map_append] at hnd hmem ⊢
  rw [List.nodup_append] at hnd
  obtain ⟨hnd1, hnd2, _⟩ := hnd
  have hidx1 : ∀ k ∈ List.map Prod.fst
      (List.insertionSort (fun a b : Nat × List Capture => a.1 ≤ b.1)
        (List.filter (fun e => isArrayIndex e.1) (groupByTab l))), isArrayIndex k = true := by
    intro k hk
    obtain ⟨e, he, rfl⟩ := List.mem_map.mp hk
    rw [List.mem_insertionSort] at he
    exact (List.mem_filter.mp he).2
  have hidx2 : ∀ k ∈ List.map Prod.fst
      (List.filter (fun e => !isArrayIndex e.1) (groupByTab l)), isArrayIndex k = false := by
    intro k hk
    obtain ⟨e, he, rfl⟩ := List.mem_map.mp hk
    simpa using (List.mem_filter.mp he).2
  rw [List.pairwise_append]
  refine ⟨?_, ?_, ?_⟩
  · have hsorted : List.Pairwise (fun a b : Nat => a ≤ b)
        (List.map Prod.fst (List.insertionSort (fun a b : Nat × List Capture => a.1 ≤ b.1)
          (List.filter (fun e => isArrayIndex e.1) (groupByTab l)))) := by
      rw [List.pairwise_map]
      haveI : IsTotal (Nat × List Capture) (fun a b => a.1 ≤ b.1) := ⟨fun a b => le_total a.1 b.1⟩
      haveI : IsTrans (Nat × List Capture) (fun a b => a.1 ≤ b.1) :=
        ⟨fun _ _ _ hab hbc => le_trans hab hbc⟩
      exact List.sorted_insertionSort _ _
    refine List.Pairwise.imp_of_mem ?_ (hsorted.and hnd1)
    intro a b ha _ hab
    exact ⟨hidx1 a ha, fun _ => lt_of_le_of_ne hab.1 hab.2⟩
  · refine List.Pairwise.imp_of_mem ?_ hnd2
    intro a b ha hb hne
    exfalso
    have ha1 := hidx2 a ha
    have hb1 := hidx2 b hb
    have ha2 := hmem a (List.mem_append_right _ ha)
    have hb2 := hmem b (List.mem_append_right _ hb)
    simp only [isArrayIndex, Bool.and_eq_false_imp, decide_eq_true_eq, decide_eq_false_iff_not] at ha1 hb1
    apply hne
    by_cases h0 : 0 < a
    · exact absurd ha2 (ha1 h0)
    · by_cases h1 : 0 < b
      · exact absurd hb2 (hb1 h1)
      · omega
  · intro a ha b hb
    refine ⟨hidx1 a ha, fun h => ?_⟩
    rw [hidx2 b hb] at h
    exact absurd h (by simp)

theorem keptPerTab_pairwise (l : List Capture) (hkeys : ∀ c ∈ l, tabKey c < 2 ^ 32 - 1) :
    List.Pairwise groupBefore (keptPerTab l) := by
  unfold keptPerTab
  rw [List.pairwise_flatMap]
  constructor
  · intro k _
    apply List.pairwise_of_forall_mem_list
    intro a ha b hb
    exact Or.inl ((mem_keptOfTab l k a ha).2.trans (mem_keptOfTab l k b hb).2.symm)
  · refine List.Pairwise.imp ?_ (tabOrder_pairwise l hkeys)
    intro k1 k2 h x hx y hy
    right
    rw [(mem_keptOfTab l k1 x hx).2, (mem_keptOfTab l k2 y hy).2]
    exact h

theorem orderedInsert_stable (a : Capture) (l : List Capture)
    (hl : List.Pairwise stableBefore l) (ha : ∀ b ∈ l, groupBefore a b) :
    List.Pairwise stableBefore (l.orderedInsert newerFirst a) := by
  induction l with
  | nil => simp
  | cons b t ih =>
    rw [List.orderedInsert]
    rw [List.pairwise_cons] at hl
    split_ifs with hab
    · rw [List.pairwise_cons]
      refine ⟨?_, List.pairwise_cons.mpr hl⟩
      intro y hy
      refine ⟨?_, fun _ => ha y hy⟩
      rcases List.mem_cons.mp hy with rfl | hyt
      · exact hab
      · have := (hl.1 y hyt).1
        unfold newerFirst at hab this ⊢
        omega
    · rw [List.pairwise_cons]
      refine ⟨?_, ih hl.2 fun y hy => ha y (List.mem_cons_of_mem _ hy)⟩
      intro y hy
      rcases (List.mem_orderedInsert (r := newerFirst)).mp hy with rfl | hyt
      · refine ⟨?_, fun h => absurd h hab⟩
        unfold newerFirst at hab ⊢
        omega
      · exact hl.1 y hyt

theorem sortNewestFirst_stable (l : List Capture) (hl : List.Pairwise groupBefore l) :
    List.Pairwise stableBefore (sortNewestFirst l) := by
  induction l with
  | nil => simp [sortNewestFirst]
  | cons a t ih =>
    rw [List.pairwise_cons] at hl
    show List.Pairwise stableBefore ((sortNewestFirst t).orderedInsert newerFirst a)
    apply orderedInsert_stable a _ (ih hl.2)
    intro b hb
    exact hl.1 b ((sortNewestFirst_perm t).subset hb)

theorem trimCaptures_subset (l : List Capture) (c : Capture) (hc : c ∈ trimCaptures l) :
    c ∈ l :=
  (trimCaptures_decomposition l).symm.subset (List.mem_append_left _ hc)

theorem trimCaptures_stable (l : List Capture) (hkeys : ∀ c ∈ l, tabKey c < 2 ^ 32 - 1) :
    List.Pairwise stableBefore (trimCaptures l) := by
  rw [trimCaptures_eq]
  exact (sortNewestFirst_stable _ (keptPerTab_pairwise l hkeys)).sublist (List.take_sublist _ _)

theorem insertionSort_middle (a : Capture) (xs ys : List Capture)
    (hx : ∀ x ∈ xs, ¬ newerFirst x a) (hy : ∀ y ∈ xs ++ ys, newerFirst a y) :
    sortNewestFirst (xs ++ a :: ys) = a :: sortNewestFirst (xs ++ ys) := by
  induction xs with
  | nil =>
    simp only [List.nil_append] at hy ⊢
    show (sortNewestFirst ys).orderedInsert newerFirst a = a :: sortNewestFirst ys
    cases hs : sortNewestFirst ys with
    | nil => rfl
    | cons b t =>
      have hb : b ∈ ys := (sortNewestFirst_perm ys).subset (by rw [hs]; exact List.mem_cons_self _ _)
      rw [List.orderedInsert, if_pos (hy b hb)]
  | cons x t ih =>
    show (sortNewestFirst (t ++ a :: ys)).orderedInsert newerFirst x =
      a :: (sortNewestFirst (t ++ ys)).orderedInsert newerFirst x
    rw [ih (fun z hz => hx z (List.mem_cons_of_mem _ hz))
      (fun z hz => hy z (List.mem_cons_of_mem _ hz))]
    rw [List.orderedInsert, if_neg (hx x (List.mem_cons_self _ _))]

theorem tabGroup_cons_self (a : Capture) (t : List Capture) :
    tabGroup (a :: t) (tabKey a) = a :: tabGroup t (tabKey a) := by
  simp [tabGroup]

theorem tabGroup_cons_of_ne (a : Capture) (t : List Capture) (k : Nat) (h : tabKey a ≠ k) :
    tabGroup (a :: t) k = tabGroup t k := by
  simp [tabGroup, h]

theorem flatMap_tabGroup_cons (a : Capture) (t : List Capture) (ks : List Nat)
    (h : tabKey a ∉ ks) : ks.flatMap (tabGroup (a :: t)) = ks.flatMap (tabGroup t) := by
  induction ks with
  | nil => rfl
  | cons k rest ih =>
    simp only [List.flatMap_cons]
    rw [tabGroup_cons_of_ne a t k (fun hk => h (by simp [hk])),
      ih (fun hk => h (List.mem_cons_of_mem _ hk))]

theorem sort_groups_eq (ks : List Nat) (hks : List.Pairwise tabBefore ks) (t : List Capture)
    (ht : List.Pairwise stableBefore t) (hcover : ∀ c ∈ t, tabKey c ∈ ks) :
    sortNewestFirst (ks.flatMap (tabGroup t)) = t := by
  induction t with
  | nil =>
    have : ks.flatMap (tabGroup []) = [] := by
      rw [List.flatMap_eq_nil_iff]
      intro k _
      rfl
    rw [this]
    rfl
  | cons a t ih =>
    rw [List.pairwise_cons] at ht
    have hih := ih ht.2 (fun c hc => hcover c (List.mem_cons_of_mem _ hc))
    obtain ⟨k1, k2, hsplit⟩ := List.append_of_mem (hcover a (List.mem_cons_self _ _))
    rw [hsplit] at hks hih ⊢
    rw [List.pairwise_append, List.pairwise_cons] at hks
    obtain ⟨_, ⟨hk2, _⟩, hk1⟩ := hks
    have hn1 : tabKey a ∉ k1 := fun h =>
      tabBefore_irrefl _ (hk1 _ h _ (List.mem_cons_self _ _))
    have hn2 : tabKey a ∉ k2 := fun h => tabBefore_irrefl _ (hk2 _ h)
    rw [List.flatMap_append, List.flatMap_cons] at hih ⊢
    rw [flatMap_tabGroup_cons a t k1 hn1, flatMap_tabGroup_cons a t k2 hn2,
      tabGroup_cons_self, List.cons_append]
    rw [insertionSort_middle, hih]
    · intro x hx hxa
      obtain ⟨k, hk, hxk⟩ := List.mem_flatMap.mp hx
      have hxt : x ∈ t := (List.mem_filter.mp hxk).1
      have hkey : tabKey x = k := by simpa using (List.mem_filter.mp hxk).2
      have hbefore : tabBefore (tabKey x) (tabKey a) := by
        rw [hkey]
        exact hk1 k hk _ (List.mem_cons_self _ _)
      rcases (ht.1 x hxt).2 hxa with h | h
      · rw [h] at hbefore
        exact tabBefore_irrefl _ hbefore
      · exact tabBefore_asymm _ _ h hbefore
    · intro y hy
      have hyt : y ∈ t := by
        rw [← hih]
        exact (sortNewestFirst_perm _).symm.subset hy
      exact (ht.1 y hyt).1

theorem trimCaptures_of_stable (t : List Capture) (hkeys : ∀ c ∈ t, tabKey c < 2 ^ 32 - 1)
    (ht : List.Pairwise stableBefore t) (hlen : t.length ≤ MAX_TOTAL_CAPTURES)
    (htab : ∀ k : Nat, t.countP (fun c => tabKey c = k) ≤ MAX_CAPTURES_PER_TAB) :
    trimCaptures t = t := by
  rw [trimCaptures_eq]
  have hkept : keptPerTab t = (tabOrder t).flatMap (tabGroup t) := by
    unfold keptPerTab
    congr 1
    funext k
    unfold keptOfTab
    have hsorted : List.Sorted newerFirst (tabGroup t k) :=
      (ht.imp fun h => h.1).sublist (List.filter_sublist _)
    rw [sortNewestFirst, List.Sorted.insertionSort_eq hsorted]
    apply List.take_of_length_le
    have := htab k
    rw [List.countP_eq_length_filter] at this
    exact this
  rw [hkept, sort_groups_eq _ (tabOrder_pairwise t hkeys) t ht
    (fun c hc => (mem_tabOrder t _).mpr (List.mem_map_of_mem _ hc))]
  exact List.take_of_length_le hlen

/-- Counterexample to C28: with tab ids 0 and 4294967295 neither key of `byTab`
is an array index, so the groups are visited in creation order. The first trim
leaves the capture of tab 0 before the capture of the same timestamp of tab
4294967295; the trimmed list starts with tab 4294967295, a second trim visits
that group first, and the two captures of timestamp 1 change places. -/
theorem trim_idempotent_counterexample :
    trimCaptures exampleLargeTabIds =
      [{ id := some "b", tabId := some 4294967295, timestamp := 2 },
       { id := some "a", tabId := some 0, timestamp := 1 },
       { id := some "c", tabId := some 4294967295, timestamp := 1 }] ∧
    trimCaptures (trimCaptures exampleLargeTabIds) =
      [{ id := some "b", tabId := some 4294967295, timestamp := 2 },
       { id := some "c", tabId := some 4294967295, timestamp := 1 },
       { id := some "a", tabId := some 0, timestamp := 1 }] := by
  decide

/-- C28, amended. The method `trimCaptures` invents nothing and is idempotent:
for every list of captures, every element of `trimCaptures(xs)` is an element
of `xs` and occurs no more often than in `xs`; and for every list whose tab
ids, natural numbers here, are below 4294967295 (`2^32 - 1`, so that every key
of `byTab` other than `unknown` is an array index),
`trimCaptures(trimCaptures(xs))` equals `trimCaptures(xs)`, the same elements
in the same order. -/
theorem trim_idempotent (xs : List Capture) :
    (∀ c ∈ trimCaptures xs, c ∈ xs) ∧
    (∀ c : Capture, (trimCaptures xs).count c ≤ xs.count c) ∧
    ((∀ c ∈ xs, tabKey c < 2 ^ 32 - 1) →
      trimCaptures (trimCaptures xs) = trimCaptures xs) := by
  refine ⟨trimCaptures_subset xs, ?_, ?_⟩
  · intro c
    rw [(trimCaptures_decomposition xs).count_eq c, List.count_append]
    exact Nat.le_add_right _ _
  · intro hkeys
    apply trimCaptures_of_stable _ (fun c hc => hkeys c (trimCaptures_subset xs c hc))
      (trimCaptures_stable xs hkeys) (trimCaptures_bounded xs).1
    intro k
    exact countP_key_trimCaptures xs k

/-- Witness of C28 (amended): three captures of tab 0 and tab 7. -/
theorem trim_idempotent_witness :
    trimCaptures (trimCaptures
      [{ id := some "a", tabId := some 0, timestamp := 1 },
       { id := some "b", tabId := some 7, timestamp := 2 },
       { id := some "c", tabId := some 7, timestamp := 1 }]) =
    trimCaptures
      [{ id := some "a", tabId := some 0, timestamp := 1 },
       { id := some "b", tabId := some 7, timestamp := 2 },
       { id := some "c", tabId := some 7, timestamp := 1 }] :=
  (trim_idempotent
      [{ id := some "a", tabId := some 0, timestamp := 1 },
       { id := some "b", tabId := some 7, timestamp := 2 },
       { id := some "c", tabId := some 7, timestamp := 1 }]).2.2 (by decide)

/-! ## Signatures -/

theorem digitChar_facts : ∀ k ∈ List.range 10,
    digitValue (Nat.digitChar k) = k ∧ Nat.digitChar k ∈ "0123456789".data := by
  decide

theorem toDigitsCore_spec (fuel n : Nat) (ds : List Char) (h : n < fuel) :
    ∃ pre, Nat.toDigitsCore 10 fuel n ds = pre ++ ds ∧ decimalValue pre = n ∧ pre ≠ [] ∧
      ∀ c ∈ pre, c ∈ "0123456789".data := by
  induction fuel generalizing n ds with
  | zero => exact absurd h (Nat.not_lt_zero _)
  | succ fuel ih =>
    have hd := digitChar_facts (n % 10) (List.mem_range.mpr (Nat.mod_lt _ (by decide)))
    rw [Nat.toDigitsCore]
    by_cases h0 : n / 10 = 0
    · simp only [h0, if_true]
      refine ⟨[Nat.digitChar (n % 10)], rfl, ?_, by simp, ?_⟩
      · simp only [decimalValue, List.foldl_cons, List.foldl_nil, hd.1]
        omega
      · intro c hc
        rw [List.mem_singleton] at hc
        rw [hc]
        exact hd.2
    · simp only [h0, if_false]
      obtain ⟨pre, hpre, hval, hne, hdig⟩ := ih (n / 10) (Nat.digitChar (n % 10) :: ds) (by omega)
      refine ⟨pre ++ [Nat.digitChar (n % 10)], by rw [hpre]; simp, ?_, by simp, ?_⟩
      · unfold decimalValue at hval ⊢
        rw [List.foldl_append, hval]
        simp only [List.foldl_cons, List.foldl_nil, hd.1]
        omega
      · intro c hc
        rcases List.mem_append.mp hc with h1 | h1
        · exact hdig c h1
        · rw [List.mem_singleton] at h1
          rw [h1]
          exact hd.2

theorem natToString_spec (n : Nat) :
    decimalValue (toString n).data = n ∧ (toString n).data ≠ [] ∧
      ∀ c ∈ (toString n).data, c ∈ "0123456789".data := by
  obtain ⟨pre, hpre, hval, hne, hdig⟩ := toDigitsCore_spec (n + 1) n [] (Nat.lt_succ_self n)
  have : (toString n).data = pre := by
    show (Nat.repr n).data = pre
    unfold Nat.repr Nat.toDigits
    rw [hpre]
    simp [List.asString]
  rw [this]
  exact ⟨hval, hne, hdig⟩

theorem intToString_data (z : Int) :
    (toString z).data =
      if 0 ≤ z then (toString z.toNat).data else '-' :: (toString z.natAbs).data := by
  cases z with
  | ofNat m =>
    show (toString m).data = _
    simp
  | negSucc m =>
    show ("-" ++ toString (m + 1)).data = _
    rw [if_neg (by simp [Int.negSucc_lt_zero])]
    simp [Int.natAbs]

theorem intToString_injective (a b : Int) (h : toString a = toString b) : a = b := by
  have h2 := congrArg String.data h
  rw [intToString_data, intToString_data] at h2
  have ha := natToString_spec a.toNat
  have hb := natToString_spec b.toNat
  have ha' := natToString_spec a.natAbs
  have hb' := natToString_spec b.natAbs
  have hdash : '-' ∉ "0123456789".data := by decide
  by_cases h0 : 0 ≤ a <;> by_cases h1 : 0 ≤ b
  · rw [if_pos h0, if_pos h1] at h2
    have := ha.1
    rw [h2, hb.1] at this
    omega
  · rw [if_pos h0, if_neg h1] at h2
    exfalso
    cases hx : (toString a.toNat).data with
    | nil => exact ha.2.1 hx
    | cons c t =>
      rw [hx] at h2
      have hc := ha.2.2 c (by rw [hx]; exact List.mem_cons_self _ _)
      injection h2 with h2 _
      rw [h2] at hc
      exact hdash hc
  · rw [if_neg h0, if_pos h1] at h2
    exfalso
    cases hx : (toString b.toNat).data with
    | nil => exact hb.2.1 hx
    | cons c t =>
      rw [hx] at h2
      have hc := hb.2.2 c (by rw [hx]; exact List.mem_cons_self _ _)
      injection h2 with h2 _
      rw [← h2] at hc
      exact hdash hc
  · rw [if_neg h0, if_neg h1] at h2
    injection h2 with _ h2
    have := ha'.1
    rw [h2, hb'.1] at this
    omega

theorem intToString_no_bar (z : Int) : '|' ∉ (toString z).data := by
  have hbar : '|' ∉ "0123456789".data := by decide
  rw [intToString_data]
  split_ifs
  · exact fun h => hbar ((natToString_spec _).2.2 _ h)
  · intro h
    rcases List.mem_cons.mp h with h | h
    · exact absurd h (by decide)
    · exact hbar ((natToString_spec _).2.2 _ h)

theorem generateSignature_data (c : Capture) :
    (generateSignature c).data =
      (strOr c.category "canvas").data ++ '|' :: (c.method.getD "").data ++
        '|' :: (sigUrl c).data ++ '|' :: (toString (sigLine c)).data ++
          sigTail (discriminators c) := by
  unfold generateSignature discriminators sigCode sigText sigProperty sigTail sigUrl sigLine
  simp only []
  by_cases h1 : c.method = some "getParameter" ∧
      truthyInt (c.data.bind fun d => d.parameterCode) = true <;>
  by_cases h2 : c.method = some "measureText" ∧
      truthyStr (c.arguments.bind fun a => a.text) = true <;>
  by_cases h3 : truthyStr (c.data.bind fun d => d.property) = true
  all_goals
    simp only [h1, h2, h3, if_true, if_false]
    cases hp : (c.data.bind fun d => d.property) <;>
    cases hc : (c.data.bind fun d => d.parameterCode) <;>
    simp [String.intercalate, String.intercalate.go, hp, hc, truthyStr, truthyInt] at h1 h3 ⊢

theorem bar_split_unique (a a' r r' : List Char) (ha : '|' ∉ a) (ha' : '|' ∉ a')
    (h : a ++ '|' :: r = a' ++ '|' :: r') : a = a' ∧ r = r' := by
  induction a generalizing a' with
  | nil =>
    cases a' with
    | nil => simpa using h
    | cons c t =>
      simp only [List.nil_append, List.cons_append, List.cons.injEq] at h
      exact absurd (by rw [← h.1]; exact List.mem_cons_self _ _) ha'
  | cons c t ih =>
    cases a' with
    | nil =>
      simp only [List.nil_append, List.cons_append, List.cons.injEq] at h
      exact absurd (by rw [h.1]; exact List.mem_cons_self _ _) ha
    | cons c' t' =>
      simp only [List.cons_append, List.cons.injEq] at h
      obtain ⟨h1, h2⟩ := ih t' (fun hm => ha (List.mem_cons_of_mem _ hm))
        (fun hm => ha' (List.mem_cons_of_mem _ hm)) h.2
      exact ⟨by rw [h.1, h1], h2⟩

theorem bar_head_unique (a a' t t' : List Char) (ha : '|' ∉ a) (ha' : '|' ∉ a')
    (ht : t = [] ∨ ∃ r, t = '|' :: r) (ht' : t' = [] ∨ ∃ r, t' = '|' :: r)
    (h : a ++ t = a' ++ t') : a = a' ∧ t = t' := by
  rcases ht with rfl | ⟨r, rfl⟩ <;> rcases ht' with rfl | ⟨r', rfl⟩
  · simpa using h
  · exfalso
    apply ha
    rw [List.append_nil] at h
    rw [h]
    simp
  · exfalso
    apply ha'
    rw [List.append_nil] at h
    rw [← h]
    simp
  · obtain ⟨h1, h2⟩ := bar_split_unique a a' r r' ha ha' h
    exact ⟨h1, by rw [h2]⟩

theorem sigTail_head (ds : List String) : sigTail ds = [] ∨ ∃ r, sigTail ds = '|' :: r := by
  cases ds with
  | nil => exact Or.inl rfl
  | cons d rest => exact Or.inr ⟨_, rfl⟩

theorem sigTail_injective (ds ds' : List String) (h : ∀ d ∈ ds, '|' ∉ d.data)
    (h' : ∀ d ∈ ds', '|' ∉ d.data) (heq : sigTail ds = sigTail ds') : ds = ds' := by
  induction ds generalizing ds' with
  | nil =>
    cases ds' with
    | nil => rfl
    | cons d rest => simp [sigTail] at heq
  | cons d rest ih =>
    cases ds' with
    | nil => simp [sigTail] at heq
    | cons d' rest' =>
      have hcons : ∀ (x : String) (xs : List String),
          sigTail (x :: xs) = '|' :: (x.data ++ sigTail xs) := fun _ _ => rfl
      rw [hcons, hcons] at heq
      injection heq with _ heq
      obtain ⟨h1, h2⟩ := bar_head_unique d.data d'.data (sigTail rest) (sigTail rest')
        (h d (List.mem_cons_self _ _)) (h' d' (List.mem_cons_self _ _))
        (sigTail_head rest) (sigTail_head rest') heq
      rw [String.ext h1, ih rest' (fun x hx => h x (List.mem_cons_of_mem _ hx))
        (fun x hx => h' x (List.mem_cons_of_mem _ hx)) h2]

theorem signature_parts_eq (c1 c2 : Capture) (hcat : c1.category = c2.category)
    (hm : c1.method = c2.method) (hu1 : '|' ∉ (sigUrl c1).data) (hu2 : '|' ∉ (sigUrl c2).data)
    (h : generateSignature c1 = generateSignature c2) :
    sigUrl c1 = sigUrl c2 ∧ sigLine c1 = sigLine c2 ∧
      sigTail (discriminators c1) = sigTail (discriminators c2) := by
  have hd := congrArg String.data h
  rw [generateSignature_data, generateSignature_data, hcat, hm] at hd
  simp only [List.append_assoc, List.cons_append] at hd
  have hd1 := List.append_cancel_left hd
  injection hd1 with _ hd1
  have hd2 := List.append_cancel_left hd1
  injection hd2 with _ hd2
  obtain ⟨hu, hrest⟩ := bar_split_unique _ _ _ _ hu1 hu2 hd2
  obtain ⟨hl, ht⟩ := bar_head_unique _ _ _ _ (intToString_no_bar _) (intToString_no_bar _)
    (sigTail_head _) (sigTail_head _) hrest
  exact ⟨String.ext hu, intToString_injective _ _ (String.ext hl), ht⟩

theorem discriminators_eq (c1 c2 : Capture) (hm : c1.method = c2.method)
    (hp : (sigProperty c1).isSome = (sigProperty c2).isSome)
    (h : discriminators c1 = discriminators c2) :
    sigCode c1 = sigCode c2 ∧ sigText c1 = sigText c2 ∧ sigProperty c1 = sigProperty c2 := by
  have hcode : ∀ c : Capture, c.method ≠ some "getParameter" → sigCode c = none := by
    intro c hc
    unfold sigCode
    rw [if_neg]
    simp [hc]
  have htext : ∀ c : Capture, c.method ≠ some "measureText" → sigText c = none := by
    intro c hc
    unfold sigText
    rw [if_neg]
    simp [hc]
  unfold discriminators at h
  have hlen : (sigProperty c1).toList.length = (sigProperty c2).toList.length := by
    cases h1 : sigProperty c1 <;> cases h2 : sigProperty c2 <;> simp [h1, h2] at hp ⊢
  obtain ⟨hfront, hprop⟩ := List.append_inj' h hlen
  have hprop2 : sigProperty c1 = sigProperty c2 := by
    cases h1 : sigProperty c1 <;> cases h2 : sigProperty c2 <;> simp [h1, h2] at hprop ⊢
    exact hprop
  refine ⟨?_, ?_, hprop2⟩
  · by_cases hg : c1.method = some "getParameter"
    · have ht1 : sigText c1 = none := htext c1 (by rw [hg]; decide)
      have ht2 : sigText c2 = none := htext c2 (by rw [← hm, hg]; decide)
      rw [ht1, ht2] at hfront
      cases h1 : sigCode c1 <;> cases h2 : sigCode c2 <;> simp [h1, h2] at hfront ⊢
      exact intToString_injective _ _ hfront
    · rw [hcode c1 hg, hcode c2 (by rw [← hm]; exact hg)]
  · by_cases hg : c1.method = some "measureText"
    · have hc1 : sigCode c1 = none := hcode c1 (by rw [hg]; decide)
      have hc2 : sigCode c2 = none := hcode c2 (by rw [← hm, hg]; decide)
      rw [hc1, hc2] at hfront
      cases h1 : sigText c1 <;> cases h2 : sigText c2 <;> simp [h1, h2] at hfront ⊢
      exact hfront
    · rw [htext c1 hg, htext c2 (by rw [← hm]; exact hg)]

/-- Counterexample to C22: three pairs of captures with the same category and
method and the same signature. The first pair differs in the discriminator of
`getParameter`: parameter code 5 and no property, against no parameter code
and the property `5`. The second differs in source url, `a|7` against `a`, the
line and a property supplying the rest. The third differs in source line only
as 0 differs from a missing line. -/
theorem signature_counterexample :
    generateSignature { method := some "getParameter", data := some { parameterCode := some 5 } } =
      generateSignature { method := some "getParameter", data := some { property := some "5" } } ∧
    generateSignature { method := some "toDataURL", source := some { url := some "a|7", line := some 1 } } =
      generateSignature { method := some "toDataURL", source := some { url := some "a", line := some 7 },
                          data := some { property := some "1" } } ∧
    generateSignature { method := some "toDataURL", source := some { line := some 0 } } =
      generateSignature { method := some "toDataURL" } := by
  decide

/-- C22, amended. Signatures keep distinct calls apart: for every two captures
with the same category and method whose source urls contain no `|`, if they
differ in source url (a missing url counting as the empty string) or in source
line (a missing line counting as 0), `generateSignature` returns different
strings for them; and so it does if they differ in a discriminator
(`data.parameterCode` for `getParameter` when it is not zero, the first 50
characters of `arguments.text` for `measureText` when it is not empty,
`data.property` when it is not empty), provided that no discriminator contains
`|` and that `data.property` is pushed for both captures or for neither. -/
theorem signatures_keep_apart (c1 c2 : Capture) (hcat : c1.category = c2.category)
    (hm : c1.method = c2.method) (hu1 : '|' ∉ (sigUrl c1).data) (hu2 : '|' ∉ (sigUrl c2).data) :
    (sigUrl c1 ≠ sigUrl c2 → generateSignature c1 ≠ generateSignature c2) ∧
    (sigLine c1 ≠ sigLine c2 → generateSignature c1 ≠ generateSignature c2) ∧
    ((∀ d ∈ discriminators c1 ++ discriminators c2, '|' ∉ d.data) →
      (sigProperty c1).isSome = (sigProperty c2).isSome →
      (sigCode c1 ≠ sigCode c2 ∨ sigText c1 ≠ sigText c2 ∨ sigProperty c1 ≠ sigProperty c2) →
      generateSignature c1 ≠ generateSignature c2) := by
  refine ⟨?_, ?_, ?_⟩
  · intro hne h
    exact hne (signature_parts_eq c1 c2 hcat hm hu1 hu2 h).1
  · intro hne h
    exact hne (signature_parts_eq c1 c2 hcat hm hu1 hu2 h).2.1
  · intro hbar hp hne h
    have ht := (signature_parts_eq c1 c2 hcat hm hu1 hu2 h).2.2
    have hds := sigTail_injective _ _ (fun d hd => hbar d (List.mem_append_left _ hd))
      (fun d hd => hbar d (List.mem_append_right _ hd)) ht
    obtain ⟨h1, h2, h3⟩ := discriminators_eq c1 c2 hm hp hds
    rcases hne with hne | hne | hne
    · exact hne h1
    · exact hne h2
    · exact hne h3

/-- Witness of C22 (amended): two `getParameter` captures of the same source
location with parameter codes 37445 and 37446. -/
theorem signatures_keep_apart_witness :
    generateSignature { method := some "getParameter", source := some { url := some "a.js", line := some 1 },
                        data := some { parameterCode := some 37445 } } ≠
      generateSignature { method := some "getParameter", source := some { url := some "a.js", line := some 1 },
                          data := some { parameterCode := some 37446 } } :=
  (signatures_keep_apart
    { method := some "getParameter", source := some { url := some "a.js", line := some 1 },
      data := some { parameterCode := some 37445 } }
    { method := some "getParameter", source := some { url := some "a.js", line := some 1 },
      data := some { parameterCode := some 37446 } } rfl rfl (by decide) (by decide)).2.2
    (by decide) (by decide) (Or.inl (by decide))

/-! ## CSV export -/

theorem undouble_double (text : List Char) : undoubleQuotes (doubleQuotes text) = text := by
  induction text with
  | nil => rfl
  | cons c t ih =>
    have hcons : doubleQuotes (c :: t) =
        (if c = '"' then ['"', '"'] else [c]) ++ doubleQuotes t := rfl
    rw [hcons]
    by_cases hc : c = '"'
    · subst hc
      show undoubleQuotes ('"' :: '"' :: doubleQuotes t) = '"' :: t
      rw [undoubleQuotes, if_pos ⟨rfl, rfl⟩, ih]
    · rw [if_neg hc]
      simp only [List.cons_append, List.nil_append]
      cases hd : doubleQuotes t with
      | nil =>
        rw [hd] at ih
        simp only [undoubleQuotes] at ih ⊢
        rw [← ih]
      | cons d rest =>
        rw [hd] at ih
        rw [undoubleQuotes, if_neg (fun h => hc h.1), ih]

theorem csvCellText_csvCell (cell : String) : csvCellText (csvCell cell) = cell := by
  show String.mk (undoubleQuotes (doubleQuotes cell.data ++ ['"']).dropLast) = cell
  rw [List.dropLast_concat, undouble_double]

theorem csvRows_of_valid (I : IsoFormatter) (captures : List Capture)
    (h : ∀ c ∈ captures, I c.timestamp ≠ none) :
    csvRows I captures = some (captures.map fun c => csvCells ((I c.timestamp).getD "") c) := by
  induction captures with
  | nil => rfl
  | cons c rest ih =>
    cases hI : I c.timestamp with
    | none => exact absurd hI (h c (List.mem_cons_self _ _))
    | some iso =>
      rw [csvRows, ih (fun x hx => h x (List.mem_cons_of_mem _ hx))]
      simp [hI]

/-- Counterexample to C23: a stored capture whose timestamp is 8640000000000001,
one millisecond beyond the largest time value of a `Date`; `toISOString` throws
and `exportAsCSV` emits nothing. -/
theorem csv_export_counterexample :
    ((StorageManager.mk [{ id := some "a", timestamp := 8640000000000001 }] none 0).exportAsCSV
      exampleParser exampleIso {} {}).1 = Except.error invalidTimeError := by
  rfl

/-- C23, amended. CSV cell escaping: for every capture list whose timestamps
are valid time values (`toISOString` returns for each), `exportAsCSV` emits one
header line followed by one row per capture with exactly 8 cells, each cell
written as a double quote, the cell's string with every double quote doubled,
and a closing double quote; consequently the cell encoding is injective:
un-doubling the quotes of an emitted cell recovers the original string. -/
theorem csv_cell_escaping (P : UrlParser) (I : IsoFormatter) (s : StorageManager)
    (filters : Filters) (b : Backend)
    (hvalid : ∀ c ∈ (s.getCaptures P filters b).1, I c.timestamp ≠ none) :
    (s.exportAsCSV P I filters b).1 =
      Except.ok ("\n".intercalate
        ("ID,Method,Timestamp,Page URL,Source URL,Source Line,Canvas Width,Canvas Height" ::
          (s.getCaptures P filters b).1.map fun c =>
            ",".intercalate ((csvCells ((I c.timestamp).getD "") c).map csvCell))) ∧
    (∀ (iso : String) (c : Capture), (csvCells iso c).length = 8) ∧
    (∀ cell : String, (csvCell cell).data = '"' :: doubleQuotes cell.data ++ ['"']) ∧
    (∀ cell : String, csvCellText (csvCell cell) = cell) ∧
    Function.Injective csvCell := by
  refine ⟨?_, fun _ _ => rfl, fun _ => rfl, csvCellText_csvCell, ?_⟩
  · unfold StorageManager.exportAsCSV
    simp only []
    rw [csvRows_of_valid I _ hvalid]
    simp only [List.map_map]
    rfl
  · intro x y hxy
    rw [← csvCellText_csvCell x, ← csvCellText_csvCell y, hxy]

/-- Witness of C23 (amended): a capture whose `pageUrl` contains a literal
double quote. -/
theorem csv_cell_escaping_witness :
    ((StorageManager.mk
        [{ id := some "a", method := some "toDataURL", pageUrl := some "https://a.com/x\"y" }]
        none 0).exportAsCSV exampleParser exampleIso {} {}).1 =
    Except.ok ("ID,Method,Timestamp,Page URL,Source URL,Source Line,Canvas Width,Canvas Height\n" ++
      "\"a\",\"toDataURL\",\"1970-01-01T00:00:00.000Z\",\"https://a.com/x\"\"y\",\"\",\"\",\"\",\"\"") :=
  (csv_cell_escaping exampleParser exampleIso
    (StorageManager.mk
      [{ id := some "a", method := some "toDataURL", pageUrl := some "https://a.com/x\"y" }]
      none 0) {} {} (by decide)).1.trans (by rfl)

/-! ## The write queue -/

theorem afterRead_stage (op : WriteOp) (captures : List Capture) :
    (∃ l, op.afterRead captures = Stage.writing l) ∨
      op.afterRead captures = Stage.settled Settlement.fulfilled := by
  cases op with
  | add c =>
    unfold WriteOp.afterRead
    simp only []
    split_ifs
    · exact Or.inr rfl
    · exact Or.inl ⟨_, rfl⟩
  | clear t =>
    cases t with
    | none => exact Or.inl ⟨_, rfl⟩
    | some t => exact Or.inl ⟨_, rfl⟩
  | clearByTab t => exact Or.inl ⟨_, rfl⟩
  | cleanup m now =>
    unfold WriteOp.afterRead
    simp only []
    split_ifs
    · exact Or.inl ⟨_, rfl⟩
    · exact Or.inr rfl

theorem start_stage (op : WriteOp) :
    op.start = Stage.reading ∨ op.start = Stage.writing [] := by
  cases op with
  | add c => exact Or.inl rfl
  | clear t =>
    cases t with
    | none => exact Or.inr rfl
    | some t => exact Or.inl rfl
  | clearByTab t => exact Or.inl rfl
  | cleanup m now => exact Or.inl rfl

theorem applyOp_durable (s : StorageManager) (op : WriteOp) (b : Backend) :
    (s.applyOp op b).2.durable = op.durableAfter s.durable b := by
  cases op with
  | add c =>
    unfold StorageManager.applyOp WriteOp.durableAfter WriteOp.start WriteOp.afterRead
      StorageManager.addCapture
    rw [getAllCaptures_bypass]
    cases hr : b.readOk <;> cases hw : b.writeOk <;>
      simp [StorageManager.saveCaptures, hw] <;> split_ifs <;> simp
  | clear t =>
    cases t with
    | none =>
      unfold StorageManager.applyOp WriteOp.durableAfter WriteOp.start
        StorageManager.clearCaptures
      cases hw : b.writeOk <;> simp [StorageManager.saveCaptures, hw]
    | some t =>
      unfold StorageManager.applyOp WriteOp.durableAfter WriteOp.start WriteOp.afterRead
        StorageManager.clearCaptures StorageManager.clearCapturesByTabImmediate
      rw [getAllCaptures_bypass]
      cases hr : b.readOk <;> cases hw : b.writeOk <;> simp [StorageManager.saveCaptures, hw]
  | clearByTab t =>
    unfold StorageManager.applyOp WriteOp.durableAfter WriteOp.start WriteOp.afterRead
      StorageManager.clearCapturesByTab StorageManager.clearCapturesByTabImmediate
    rw [getAllCaptures_bypass]
    cases hr : b.readOk <;> cases hw : b.writeOk <;> simp [StorageManager.saveCaptures, hw]
  | cleanup m now =>
    unfold StorageManager.applyOp WriteOp.durableAfter WriteOp.start WriteOp.afterRead
      StorageManager.cleanupOldCaptures
    rw [getAllCaptures_bypass]
    cases hr : b.readOk <;> cases hw : b.writeOk <;>
      simp [StorageManager.saveCaptures, hw] <;> split_ifs <;> simp

theorem applyAll_durable (ops : List (WriteOp × Backend)) (s : StorageManager) :
    (s.applyAll ops).durable = durableAfterAll s.durable ops := by
  induction ops generalizing s with
  | nil => rfl
  | cons e rest ih =>
    show (StorageManager.applyAll (s.applyOp e.1 e.2).2 rest).durable = _
    rw [ih, applyOp_durable]
    rfl

theorem durableAfterAll_take_succ (d0 : List Capture) (ops : List (WriteOp × Backend))
    (i : Nat) (e : WriteOp × Backend) (h : ops[i]? = some e) :
    durableAfterAll d0 (ops.take (i + 1)) =
      e.1.durableAfter (durableAfterAll d0 (ops.take i)) e.2 := by
  rw [List.take_succ, h]
  unfold durableAfterAll
  rw [List.foldl_append]
  rfl

theorem ops_set (q : WriteQueue) (i : Nat) (t t' : WriteTask) (h : q.tasks[i]? = some t)
    (hop : t'.op = t.op) (hb : t'.backend = t.backend) :
    (q.tasks.set i t').map (fun t => (t.op, t.backend)) =
      q.tasks.map (fun t => (t.op, t.backend)) := by
  rw [List.map_set]
  apply List.ext_getElem?
  intro j
  rw [List.getElem?_set]
  split_ifs with hij hlt
  · subst hij
    rw [List.getElem?_map, h, hop, hb]
    rfl
  · subst hij
    rw [List.length_map] at hlt
    rw [List.getElem?_eq_none (by rw [List.length_map]; omega)]
  · rfl

theorem settle_pending (q : WriteQueue) (p : Nat) (how : Settlement) (rs : List Reaction)
    (h : q.promises p = { settled := none, reactions := rs }) :
    q.settle p how =
      { q with
        promises := Function.update q.promises p { settled := some how, reactions := [] }
        jobs := q.jobs ++ rs.map (reactionJob how) } := by
  unfold WriteQueue.settle
  rw [h]
  simp

theorem promiseThen_pending (q : WriteQueue) (p : Nat) (onF onR : Handler) (rs : List Reaction)
    (h : q.promises p = { settled := none, reactions := rs }) (hne : p ≠ q.allocated) :
    q.promiseThen p onF onR =
      (q.allocated,
        { q with
          allocated := q.allocated + 1
          promises := Function.update (Function.update q.promises q.allocated {}) p
            { settled := none,
              reactions := rs ++ [{ onFulfilled := onF, onRejected := onR,
                                    derived := q.allocated }] } }) := by
  unfold WriteQueue.promiseThen
  simp only [Function.update_noteq hne, h]

theorem promiseThen_settled (q : WriteQueue) (p : Nat) (onF onR : Handler) (how : Settlement)
    (h : (q.promises p).settled = some how) (hne : p ≠ q.allocated) :
    q.promiseThen p onF onR =
      (q.allocated,
        { q with
          allocated := q.allocated + 1
          promises := Function.update q.promises q.allocated {}
          jobs := q.jobs ++ [reactionJob how { onFulfilled := onF, onRejected := onR,
                                               derived := q.allocated }] }) := by
  unfold WriteQueue.promiseThen
  simp only [Function.update_noteq hne, h]

theorem enqueueWrite_pending (q : WriteQueue) (task : Nat) (rs : List Reaction)
    (h : q.promises q.writeQueue = { settled := none, reactions := rs })
    (hlt : q.writeQueue < q.allocated) :
    q.enqueueWrite task =
      (q.allocated,
        { q with
          allocated := q.allocated + 2
          writeQueue := q.allocated + 1
          promises :=
            Function.update
              (Function.update
                (Function.update (Function.update q.promises q.allocated {}) q.writeQueue
                  { settled := none,
                    reactions := rs ++ [{ onFulfilled := Handler.callTask task,
                                          onRejected := Handler.callTask task,
                                          derived := q.allocated }] })
                (q.allocated + 1) {})
              q.allocated
              { settled := none,
                reactions := [{ onFulfilled := Handler.passOn,
                                onRejected := Handler.returnUndefined,
                                derived := q.allocated + 1 }] } }) := by
  have hne : q.writeQueue ≠ q.allocated := by omega
  unfold WriteQueue.enqueueWrite
  rw [promiseThen_pending q _ _ _ rs h hne]
  simp only []
  rw [promiseThen_pending _ _ _ _ [] (by
    simp only [Function.update_noteq (Ne.symm hne), Function.update_same]) (by simp)]
  simp

theorem enqueueWrite_settled (q : WriteQueue) (task : Nat) (how : Settlement)
    (h : (q.promises q.writeQueue).settled = some how)
    (hlt : q.writeQueue < q.allocated) :
    q.enqueueWrite task =
      (q.allocated,
        { q with
          allocated := q.allocated + 2
          writeQueue := q.allocated + 1
          jobs := q.jobs ++ [reactionJob how
            { onFulfilled := Handler.callTask task,
              onRejected := Handler.callTask task, derived := q.allocated }]
          promises :=
            Function.update
              (Function.update (Function.update q.promises q.allocated {}) (q.allocated + 1) {})
              q.allocated
              { settled := none,
                reactions := [{ onFulfilled := Handler.passOn,
                                onRejected := Handler.returnUndefined,
                                derived := q.allocated + 1 }] } }) := by
  have hne : q.writeQueue ≠ q.allocated := by omega
  unfold WriteQueue.enqueueWrite
  rw [promiseThen_settled q _ _ _ how h hne]
  simp only []
  rw [promiseThen_pending _ _ _ _ [] (by simp only [Function.update_same]) (by simp)]
  simp

theorem call_pending (q : WriteQueue) (op : WriteOp) (b : Backend) (rs : List Reaction)
    (h : q.promises q.writeQueue = { settled := none, reactions := rs })
    (hlt : q.writeQueue < q.allocated) :
    q.call op b =
      { q with
        tasks := q.tasks ++ [{ op := op, backend := b }]
        allocated := q.allocated + 2
        writeQueue := q.allocated + 1
        promises :=
          Function.update
            (Function.update
              (Function.update (Function.update q.promises q.allocated {}) q.writeQueue
                { settled := none,
                  reactions := rs ++ [{ onFulfilled := Handler.callTask q.tasks.length,
                                        onRejected := Handler.callTask q.tasks.length,
                                        derived := q.allocated }] })
              (q.allocated + 1) {})
            q.allocated
            { settled := none,
              reactions := [{ onFulfilled := Handler.passOn,
                              onRejected := Handler.returnUndefined,
                              derived := q.allocated + 1 }] } } := by
  unfold WriteQueue.call
  simp only []
  rw [enqueueWrite_pending
    ({ q with tasks := q.tasks ++ [{ op := op, backend := b }] } : WriteQueue)
    q.tasks.length rs h hlt]

theorem call_settled (q : WriteQueue) (op : WriteOp) (b : Backend) (how : Settlement)
    (h : (q.promises q.writeQueue).settled = some how)
    (hlt : q.writeQueue < q.allocated) :
    q.call op b =
      { q with
        tasks := q.tasks ++ [{ op := op, backend := b }]
        allocated := q.allocated + 2
        writeQueue := q.allocated + 1
        jobs := q.jobs ++ [reactionJob how
          { onFulfilled := Handler.callTask q.tasks.length,
            onRejected := Handler.callTask q.tasks.length, derived := q.allocated }]
        promises :=
          Function.update
            (Function.update (Function.update q.promises q.allocated {}) (q.allocated + 1) {})
            q.allocated
            { settled := none,
              reactions := [{ onFulfilled := Handler.passOn,
                              onRejected := Handler.returnUndefined,
                              derived := q.allocated + 1 }] } } := by
  unfold WriteQueue.call
  simp only []
  rw [enqueueWrite_settled
    ({ q with tasks := q.tasks ++ [{ op := op, backend := b }] } : WriteQueue)
    q.tasks.length how h hlt]

theorem token_bounds (n : Nat) (tok : Token) (h : tok.valid n) :
    tok.settledCount n ≤ n ∧ tok.firstQueued n ≤ n ∧ tok.firstNext n ≤ n ∧ tok.firstQueue n ≤ n ∧
      tok.firstQueued n ≤ tok.settledCount n + 1 ∧ tok.settledCount n ≤ tok.firstQueued n := by
  cases tok <;> simp only [Token.valid, Token.settledCount, Token.firstQueued, Token.firstNext,
    Token.firstQueue] at h ⊢ <;> omega

theorem token_succ (n : Nat) (tok : Token) (h : tok ≠ Token.idle) :
    tok.settledCount (n + 1) = tok.settledCount n ∧ tok.firstQueued (n + 1) = tok.firstQueued n ∧
      tok.firstNext (n + 1) = tok.firstNext n ∧ tok.firstQueue (n + 1) = tok.firstQueue n ∧
      (tok.valid n → tok.firstQueue n < n) ∧ (tok.valid n → tok.valid (n + 1)) := by
  cases tok
  · exact absurd rfl h
  all_goals
    simp only [Token.valid, Token.settledCount, Token.firstQueued, Token.firstNext,
      Token.firstQueue]
    refine ⟨trivial, trivial, trivial, trivial, fun h => h, fun h => by omega⟩

theorem ops_call (q : WriteQueue) (op : WriteOp) (b : Backend) :
    (q.call op b).ops = q.ops ++ [(op, b)] ∧ (q.call op b).storage = q.storage ∧
      (q.call op b).tasks = q.tasks ++ [{ op := op, backend := b }] := by
  unfold WriteQueue.call WriteQueue.enqueueWrite WriteQueue.promiseThen WriteQueue.ops
  simp only []
  refine ⟨?_, ?_, ?_⟩ <;> split <;> split <;> simp

theorem inv_call_busy (d0 : List Capture) (q : WriteQueue) (tok : Token) (op : WriteOp)
    (b : Backend) (hbusy : tok ≠ Token.idle) (h : QueueInv d0 q tok) :
    QueueInv d0 (q.call op b) tok := by
  obtain ⟨hs, hq, hn, hqu, hlt, hv⟩ := token_succ q.tasks.length tok hbusy
  have hb := token_bounds q.tasks.length tok h.valid
  have hpos : 0 < q.tasks.length := by have := hlt h.valid; omega
  have hwq : q.promises q.writeQueue = { settled := none, reactions := [] } := by
    have := h.queuePromises (q.tasks.length - 1) (by have := hlt h.valid; omega) (by omega)
    rw [show 2 * (q.tasks.length - 1) + 2 = 2 * q.tasks.length by omega] at this
    rw [h.writeQueue, this]
    simp [queueReactions]
    omega
  have hc := call_pending q op b [] hwq (by rw [h.writeQueue, h.allocated]; omega)
  obtain ⟨hops, hst, htasks⟩ := ops_call q op b
  have halloc := h.allocated
  have hwqn := h.writeQueue
  have hlen : (q.call op b).tasks.length = q.tasks.length + 1 := by rw [htasks]; simp
  constructor
  · rw [hlen]
    exact hv h.valid
  · rw [hlen, hc]
    show q.allocated + 2 = _
    omega
  · rw [hlen, hc]
    show q.allocated + 1 = _
    omega
  · rw [hc]
    exact h.jobs
  · intro j t hj hlt2
    rw [hlen, hs] at hlt2
    rw [htasks, List.getElem?_append_left (by omega)] at hj
    exact h.settledTasks j t hj hlt2
  · intro j t hj hge
    rw [hlen, hq] at hge
    rw [htasks] at hj
    by_cases hjn : j < q.tasks.length
    · rw [List.getElem?_append_left hjn] at hj
      exact h.queuedTasks j t hj hge
    · rw [List.getElem?_append_right (by omega)] at hj
      have hj0 : j - q.tasks.length = 0 := by
        by_contra hne
        rw [List.getElem?_eq_none (by simp; omega)] at hj
        exact absurd hj (by simp)
      rw [hj0] at hj
      simp at hj
      rw [← hj]
  · intro i hi
    obtain ⟨t, ht, hact⟩ := h.activeTask i hi
    have : i < q.tasks.length := by
      rw [List.getElem?_eq_some] at ht
      exact ht.1
    refine ⟨t, ?_, ?_⟩
    · rw [htasks, List.getElem?_append_left this]
      exact ht
    · rw [hst]
      exact hact
  · intro j hge hjlt
    rw [hlen] at hge hjlt
    rw [hn] at hge
    rw [hc]
    simp only [Function.update_apply]
    by_cases hjn : j < q.tasks.length
    · rw [if_neg (by omega), if_neg (by omega), if_neg (by omega), if_neg (by omega)]
      exact h.nextPromises j hge hjn
    · have : j = q.tasks.length := by omega
      subst this
      rw [if_pos (by omega)]
      simp only [nextReaction]
      rw [halloc]
  · intro j hge hjlt
    rw [hlen] at hge hjlt ⊢
    rw [hqu] at hge
    rw [hc]
    simp only [Function.update_apply]
    by_cases hjn : j < q.tasks.length
    · by_cases hjl : j + 1 < q.tasks.length
      · rw [if_neg (by omega), if_neg (by omega), if_neg (by omega), if_neg (by omega)]
        rw [h.queuePromises j hge hjn]
        simp only [queueReactions]
        rw [if_pos hjl, if_pos (by omega)]
      · rw [if_neg (by omega), if_neg (by omega), if_pos (by omega)]
        simp only [queueReactions, List.nil_append]
        rw [if_pos (by omega), halloc]
        have : j + 1 = q.tasks.length := by omega
        simp only [this, PromiseRecord.mk.injEq, List.cons.injEq, Reaction.mk.injEq, and_true,
          true_and]
        omega
    · have : j = q.tasks.length := by omega
      subst this
      rw [if_neg (by omega), if_pos (by omega)]
      simp [queueReactions]
  · intro hi
    exact absurd hi hbusy
  · rw [hlen, hs, hops, hst, List.take_append_of_le_length (by
      simp only [WriteQueue.ops, List.length_map]; exact hb.1)]
    exact h.durable

theorem inv_call_idle (d0 : List Capture) (q : WriteQueue) (op : WriteOp)
    (b : Backend) (h : QueueInv d0 q Token.idle) :
    QueueInv d0 (q.call op b) (Token.start q.tasks.length) := by
  have hwq : (q.promises q.writeQueue).settled = some Settlement.fulfilled := by
    rw [h.writeQueue]
    exact h.idleQueue rfl
  have hc := call_settled q op b Settlement.fulfilled hwq (by rw [h.writeQueue, h.allocated]; omega)
  obtain ⟨hops, hst, htasks⟩ := ops_call q op b
  have halloc := h.allocated
  have hwqn := h.writeQueue
  have hlen : (q.call op b).tasks.length = q.tasks.length + 1 := by rw [htasks]; simp
  constructor
  · rw [hlen]
    show q.tasks.length < q.tasks.length + 1
    omega
  · rw [hlen, hc]
    show q.allocated + 2 = _
    omega
  · rw [hlen, hc]
    show q.allocated + 1 = _
    omega
  · rw [hc]
    show q.jobs ++ _ = _
    rw [h.jobs, halloc]
    rfl
  · intro j t hj hlt2
    simp only [Token.settledCount] at hlt2
    rw [htasks, List.getElem?_append_left (by omega)] at hj
    exact h.settledTasks j t hj hlt2
  · intro j t hj hge
    simp only [Token.firstQueued] at hge
    rw [htasks] at hj
    rw [List.getElem?_append_right (by omega)] at hj
    have hj0 : j - q.tasks.length = 0 := by
      by_contra hne
      rw [List.getElem?_eq_none (by simp; omega)] at hj
      exact absurd hj (by simp)
    rw [hj0] at hj
    simp at hj
    rw [← hj]
  · intro i hi
    exact absurd hi (by simp)
  · intro j hge hjlt
    rw [hlen] at hjlt
    simp only [Token.firstNext] at hge
    rw [hc]
    simp only [Function.update_apply]
    have : j = q.tasks.length := by omega
    subst this
    rw [if_pos (by omega)]
    simp only [nextReaction]
    rw [halloc]
  · intro j hge hjlt
    rw [hlen] at hjlt ⊢
    simp only [Token.firstQueue] at hge
    rw [hc]
    simp only [Function.update_apply]
    have : j = q.tasks.length := by omega
    subst this
    rw [if_neg (by omega), if_pos (by omega)]
    simp [queueReactions]
  · intro hi
    exact absurd hi (by simp)
  · simp only [Token.settledCount]
    rw [hops, hst, List.take_append_of_le_length (by
      simp only [WriteQueue.ops, List.length_map]; exact le_refl _)]
    have := h.durable
    simp only [Token.settledCount] at this
    exact this

theorem inv_microtask_quiet (d0 : List Capture) (q : WriteQueue) (tok : Token)
    (h : QueueInv d0 q tok) (htok : tok = Token.idle ∨ ∃ i, tok = Token.active i) :
    q.step QueueEvent.microtask = q := by
  have : q.jobs = [] := by
    rw [h.jobs]
    rcases htok with rfl | ⟨i, rfl⟩ <;> rfl
  unfold WriteQueue.step
  rw [this]

theorem inv_microtask_start (d0 : List Capture) (q : WriteQueue) (i : Nat)
    (h : QueueInv d0 q (Token.start i)) :
    QueueInv d0 (q.step QueueEvent.microtask) (Token.active i) := by
  have hi : i < q.tasks.length := h.valid
  obtain ⟨t, ht⟩ : ∃ t, q.tasks[i]? = some t := ⟨q.tasks[i], List.getElem?_eq_getElem hi⟩
  have hstep : q.step QueueEvent.microtask =
      { q with
        jobs := []
        tasks := q.tasks.set i
          { t with
            stage := t.op.start
            reactions :=
              [{ onFulfilled := Handler.resolveDerived, onRejected := Handler.resolveDerived,
                 derived := 2 * i + 1 }] } } := by
    unfold WriteQueue.step
    rw [h.jobs]
    simp only [Token.jobs, WriteQueue.runJob, ht]
  rw [hstep]
  constructor
  · simpa using hi
  · simpa using h.allocated
  · simpa using h.writeQueue
  · rfl
  · intro j t' hj hlt
    simp only [List.length_set, Token.settledCount] at hj hlt
    rw [List.getElem?_set_ne (by omega)] at hj
    exact h.settledTasks j t' hj hlt
  · intro j t' hj hge
    simp only [List.length_set, Token.firstQueued] at hj hge
    rw [List.getElem?_set_ne (by omega)] at hj
    exact h.queuedTasks j t' hj (by simp only [Token.firstQueued]; omega)
  · intro i' hi'
    injection hi' with hi'
    subst hi'
    refine ⟨_, by simp only []; rw [List.getElem?_set_self hi], rfl, ?_⟩
    simp only []
    rcases start_stage t.op with hs | hs
    · exact Or.inl ⟨hs, hs⟩
    · refine Or.inr ⟨[], hs, ?_⟩
      unfold WriteOp.durableAfter
      simp only [hs]
  · intro j hge hjlt
    simp only [List.length_set, Token.firstNext] at hge hjlt ⊢
    exact h.nextPromises j hge hjlt
  · intro j hge hjlt
    simp only [List.length_set, Token.firstQueue] at hge hjlt ⊢
    exact h.queuePromises j hge hjlt
  · intro hi'
    exact absurd hi' (by simp)
  · simp only [List.length_set, Token.settledCount, WriteQueue.ops]
    rw [ops_set q i t _ ht (by rfl) (by rfl)]
    exact h.durable

theorem inv_microtask_adopting (d0 : List Capture) (q : WriteQueue) (i : Nat)
    (how : Settlement) (h : QueueInv d0 q (Token.adopting i how)) :
    QueueInv d0 (q.step QueueEvent.microtask) (Token.releasing i how) := by
  have hi : i < q.tasks.length := h.valid
  have hp := h.nextPromises i (le_refl _) hi
  have hstep : q.step QueueEvent.microtask =
      { q with
        jobs := [reactionJob how (nextReaction i)]
        promises := Function.update q.promises (2 * i + 1)
          { settled := some how, reactions := [] } } := by
    unfold WriteQueue.step
    rw [h.jobs]
    simp only [Token.jobs, WriteQueue.runJob]
    rw [settle_pending ({ q with jobs := [] } : WriteQueue) _ _ [nextReaction i] hp]
    rfl
  rw [hstep]
  constructor
  · exact hi
  · exact h.allocated
  · exact h.writeQueue
  · rfl
  · exact h.settledTasks
  · exact h.queuedTasks
  · intro i' hi'
    exact absurd hi' (by simp)
  · intro j hge hjlt
    simp only [Token.firstNext] at hge
    simp only [Function.update_apply]
    rw [if_neg (by omega)]
    exact h.nextPromises j (by simp only [Token.firstNext]; omega) hjlt
  · intro j hge hjlt
    simp only [Function.update_apply]
    rw [if_neg (by omega)]
    exact h.queuePromises j hge hjlt
  · intro hi'
    exact absurd hi' (by simp)
  · exact h.durable

theorem releasing_job (how : Settlement) (i : Nat) (q : WriteQueue) :
    q.runJob (reactionJob how (nextReaction i)) = q.settle (2 * i + 2) Settlement.fulfilled := by
  cases how <;> rfl

theorem inv_microtask_releasing (d0 : List Capture) (q : WriteQueue) (i : Nat)
    (how : Settlement) (h : QueueInv d0 q (Token.releasing i how)) :
    QueueInv d0 (q.step QueueEvent.microtask)
      (if i + 1 < q.tasks.length then Token.start (i + 1) else Token.idle) := by
  have hi : i < q.tasks.length := h.valid
  have hp := h.queuePromises i (le_refl _) hi
  have hstep : q.step QueueEvent.microtask =
      { q with
        jobs := (queueReactions q.tasks.length i).map (reactionJob Settlement.fulfilled)
        promises := Function.update q.promises (2 * i + 2)
          { settled := some Settlement.fulfilled, reactions := [] } } := by
    unfold WriteQueue.step
    rw [h.jobs]
    simp only [Token.jobs]
    rw [releasing_job, settle_pending ({ q with jobs := [] } : WriteQueue) _ _ _ hp]
    rfl
  rw [hstep]
  by_cases hnext : i + 1 < q.tasks.length
  · rw [if_pos hnext]
    constructor
    · exact hnext
    · exact h.allocated
    · exact h.writeQueue
    · simp only [queueReactions, if_pos hnext, List.map_cons, List.map_nil, Token.jobs,
        reactionJob]
      congr 2
    · exact h.settledTasks
    · exact h.queuedTasks
    · intro i' hi'
      exact absurd hi' (by simp)
    · intro j hge hjlt
      simp only [Function.update_apply]
      rw [if_neg (by omega)]
      exact h.nextPromises j hge hjlt
    · intro j hge hjlt
      simp only [Token.firstQueue] at hge
      simp only [Function.update_apply]
      rw [if_neg (by omega)]
      exact h.queuePromises j (by simp only [Token.firstQueue]; omega) hjlt
    · intro hi'
      exact absurd hi' (by simp)
    · exact h.durable
  · rw [if_neg hnext]
    have hn : q.tasks.length = i + 1 := by omega
    constructor
    · trivial
    · exact h.allocated
    · exact h.writeQueue
    · simp only [queueReactions, if_neg hnext, List.map_nil, Token.jobs]
    · intro j t hj hlt
      simp only [Token.settledCount] at hlt
      exact h.settledTasks j t hj (by simp only [Token.settledCount]; omega)
    · intro j t hj hge
      simp only [Token.firstQueued] at hge
      exact h.queuedTasks j t hj (by simp only [Token.firstQueued]; omega)
    · intro i' hi'
      exact absurd hi' (by simp)
    · intro j hge hjlt
      have h1 : q.tasks.length ≤ j := hge
      have h2 : j < q.tasks.length := hjlt
      omega
    · intro j hge hjlt
      have h1 : q.tasks.length ≤ j := hge
      have h2 : j < q.tasks.length := hjlt
      omega
    · intro _
      simp only []
      rw [hn, show 2 * (i + 1) = 2 * i + 2 by omega, Function.update_same]
    · have := h.durable
      simp only [Token.settledCount] at this ⊢
      rw [hn]
      exact this

theorem inv_finish (d0 : List Capture) (q : WriteQueue) (i : Nat) (t : WriteTask)
    (st : StorageManager) (how : Settlement) (h : QueueInv d0 q (Token.active i))
    (ht : q.tasks[i]? = some t)
    (hre : t.reactions =
      [{ onFulfilled := Handler.resolveDerived, onRejected := Handler.resolveDerived,
         derived := 2 * i + 1 }])
    (hst : st.durable = t.op.durableAfter q.storage.durable t.backend) :
    QueueInv d0 (WriteQueue.finish { q with storage := st } i t how) (Token.adopting i how) := by
  have hi : i < q.tasks.length := h.valid
  have hstep : WriteQueue.finish { q with storage := st } i t how =
      { q with
        storage := st
        jobs := [{ handler := Handler.resolveDerived, settlement := how, derived := 2 * i + 1 }]
        tasks := q.tasks.set i { t with stage := Stage.settled how, reactions := [] } } := by
    unfold WriteQueue.finish
    simp only [h.jobs, Token.jobs, hre, List.nil_append, List.map_cons, List.map_nil]
    cases how <;> rfl
  rw [hstep]
  constructor
  · simpa using hi
  · simpa using h.allocated
  · simpa using h.writeQueue
  · rfl
  · intro j t' hj hlt
    simp only [List.length_set, Token.settledCount] at hj hlt
    by_cases hji : j = i
    · subst hji
      rw [List.getElem?_set_self hi] at hj
      injection hj with hj
      exact ⟨how, by rw [← hj]⟩
    · rw [List.getElem?_set_ne (by omega)] at hj
      exact h.settledTasks j t' hj (by simp only [Token.settledCount]; omega)
  · intro j t' hj hge
    simp only [List.length_set, Token.firstQueued] at hj hge
    rw [List.getElem?_set_ne (by omega)] at hj
    exact h.queuedTasks j t' hj (by simp only [Token.firstQueued]; omega)
  · intro i' hi'
    exact absurd hi' (by simp)
  · intro j hge hjlt
    simp only [List.length_set, Token.firstNext] at hge hjlt ⊢
    exact h.nextPromises j hge hjlt
  · intro j hge hjlt
    simp only [List.length_set, Token.firstQueue] at hge hjlt ⊢
    exact h.queuePromises j hge hjlt
  · intro hi'
    exact absurd hi' (by simp)
  · simp only [List.length_set, Token.settledCount, WriteQueue.ops]
    rw [ops_set q i t _ ht (by rfl) (by rfl)]
    have hop : q.ops[i]? = some (t.op, t.backend) := by
      simp only [WriteQueue.ops, List.getElem?_map, ht, Option.map_some']
    have := durableAfterAll_take_succ d0 q.ops i (t.op, t.backend) hop
    simp only [WriteQueue.ops] at this
    rw [this, hst]
    have hd := h.durable
    simp only [Token.settledCount, WriteQueue.ops] at hd
    rw [← hd]

theorem inv_storageCallDone_active (d0 : List Capture) (q : WriteQueue) (i : Nat)
    (h : QueueInv d0 q (Token.active i)) :
    (QueueInv d0 (q.storageCallDone i) (Token.active i) ∧
      (∃ t, q.tasks[i]? = some t ∧ t.stage = Stage.reading) ∧
      ∃ t l, (q.storageCallDone i).tasks[i]? = some t ∧ t.stage = Stage.writing l) ∨
    ∃ how, QueueInv d0 (q.storageCallDone i) (Token.adopting i how) := by
  have hi : i < q.tasks.length := h.valid
  obtain ⟨t, ht, hre, hstage⟩ := h.activeTask i rfl
  rcases hstage with ⟨hreading, hstart⟩ | ⟨captures, hwriting, hrel⟩
  · have hread := getAllCaptures_bypass q.storage t.backend
    have hdur := getAllCaptures_durable q.storage true t.backend
    have hfst : (q.storage.getAllCaptures true t.backend).1 =
        if t.backend.readOk then q.storage.durable else [] := by
      rw [hread]
      split_ifs <;> rfl
    have hunf : q.storageCallDone i =
        WriteQueue.advance { q with storage := (q.storage.getAllCaptures true t.backend).2 } i t
          (t.op.afterRead (q.storage.getAllCaptures true t.backend).1) := by
      unfold WriteQueue.storageCallDone
      simp only [ht, hreading]
    rcases afterRead_stage t.op (q.storage.getAllCaptures true t.backend).1 with ⟨l, hl⟩ | hl
    · left
      have hstep : q.storageCallDone i =
          { q with
            storage := (q.storage.getAllCaptures true t.backend).2
            tasks := q.tasks.set i { t with stage := Stage.writing l } } := by
        rw [hunf, hl]
        rfl
      rw [hstep]
      refine ⟨?_, ⟨t, ht, hreading⟩,
        ⟨{ t with stage := Stage.writing l }, l,
          by simp only []; rw [List.getElem?_set_self hi], rfl⟩⟩
      constructor
      · simpa using hi
      · simpa using h.allocated
      · simpa using h.writeQueue
      · exact h.jobs
      · intro j t' hj hlt
        simp only [List.length_set, Token.settledCount] at hj hlt
        rw [List.getElem?_set_ne (by omega)] at hj
        exact h.settledTasks j t' hj hlt
      · intro j t' hj hge
        simp only [List.length_set, Token.firstQueued] at hj hge
        rw [List.getElem?_set_ne (by omega)] at hj
        exact h.queuedTasks j t' hj hge
      · intro i' hi'
        injection hi' with hi'
        subst hi'
        refine ⟨{ t with stage := Stage.writing l },
          by simp only []; rw [List.getElem?_set_self hi], hre, Or.inr ⟨l, rfl, ?_⟩⟩
        simp only []
        rw [hdur]
        unfold WriteOp.durableAfter
        simp only [hstart]
        rw [← hfst, hl]
      · intro j hge hjlt
        simp only [List.length_set] at hge hjlt ⊢
        exact h.nextPromises j hge hjlt
      · intro j hge hjlt
        simp only [List.length_set] at hge hjlt ⊢
        exact h.queuePromises j hge hjlt
      · intro hi'
        exact absurd hi' (by simp)
      · simp only [List.length_set, Token.settledCount, WriteQueue.ops]
        rw [ops_set q i t _ ht (by rfl) (by rfl), hdur]
        exact h.durable
    · right
      refine ⟨Settlement.fulfilled, ?_⟩
      rw [hunf, hl]
      apply inv_finish d0 q i t _ _ h ht hre
      rw [hdur]
      unfold WriteOp.durableAfter
      simp only [hstart]
      rw [← hfst, hl]
  · right
    have hsave := saveCaptures_durable q.storage captures t.backend
    cases hs : q.storage.saveCaptures captures t.backend with
    | mk r st =>
      rw [hs] at hsave
      simp only [] at hsave
      cases r with
      | ok u =>
        refine ⟨Settlement.fulfilled, ?_⟩
        have hunf : q.storageCallDone i =
            WriteQueue.finish { q with storage := st } i t Settlement.fulfilled := by
          unfold WriteQueue.storageCallDone
          simp only [ht, hwriting, hs]
        rw [hunf]
        exact inv_finish d0 q i t st _ h ht hre (by rw [hsave, hrel])
      | error e =>
        refine ⟨Settlement.rejected e, ?_⟩
        have hunf : q.storageCallDone i =
            WriteQueue.finish { q with storage := st } i t (Settlement.rejected e) := by
          unfold WriteQueue.storageCallDone
          simp only [ht, hwriting, hs]
        rw [hunf]
        exact inv_finish d0 q i t st _ h ht hre (by rw [hsave, hrel])

theorem inv_storageCallDone_other (d0 : List Capture) (q : WriteQueue) (tok : Token) (j : Nat)
    (h : QueueInv d0 q tok) (hne : tok ≠ Token.active j) : q.storageCallDone j = q := by
  unfold WriteQueue.storageCallDone
  cases ht : q.tasks[j]? with
  | none => rfl
  | some t =>
    simp only []
    have hb := token_bounds q.tasks.length tok h.valid
    by_cases h1 : j < tok.settledCount q.tasks.length
    · obtain ⟨how, hhow⟩ := h.settledTasks j t ht h1
      rw [hhow]
    · by_cases h2 : tok.firstQueued q.tasks.length ≤ j
      · rw [h.queuedTasks j t ht h2]
      · exfalso
        cases tok with
        | idle => simp only [Token.settledCount, Token.firstQueued] at h1 h2; omega
        | start i => simp only [Token.settledCount, Token.firstQueued] at h1 h2; omega
        | active i =>
          simp only [Token.settledCount, Token.firstQueued] at h1 h2
          apply hne
          congr
          omega
        | adopting i how => simp only [Token.settledCount, Token.firstQueued] at h1 h2; omega
        | releasing i how => simp only [Token.settledCount, Token.firstQueued] at h1 h2; omega

theorem inv_init (s0 : StorageManager) :
    QueueInv s0.durable { storage := s0 } Token.idle := by
  constructor
  · trivial
  · rfl
  · rfl
  · rfl
  · intro j t hj
    simp at hj
  · intro j t hj
    simp at hj
  · intro i hi
    exact absurd hi (by simp)
  · intro j _ hj
    simp at hj
  · intro j _ hj
    simp at hj
  · intro _
    rfl
  · rfl

theorem inv_step (d0 : List Capture) (q : WriteQueue) (tok : Token) (e : QueueEvent)
    (h : QueueInv d0 q tok) : ∃ tok', QueueInv d0 (q.step e) tok' := by
  cases e with
  | call op b =>
    by_cases hidle : tok = Token.idle
    · subst hidle
      exact ⟨_, inv_call_idle d0 q op b h⟩
    · exact ⟨tok, inv_call_busy d0 q tok op b hidle h⟩
  | microtask =>
    cases tok with
    | idle =>
      rw [inv_microtask_quiet d0 q _ h (Or.inl rfl)]
      exact ⟨_, h⟩
    | active i =>
      rw [inv_microtask_quiet d0 q _ h (Or.inr ⟨i, rfl⟩)]
      exact ⟨_, h⟩
    | start i => exact ⟨_, inv_microtask_start d0 q i h⟩
    | adopting i how => exact ⟨_, inv_microtask_adopting d0 q i how h⟩
    | releasing i how => exact ⟨_, inv_microtask_releasing d0 q i how h⟩
  | storageCallDone j =>
    by_cases hact : tok = Token.active j
    · subst hact
      rcases inv_storageCallDone_active d0 q j h with ⟨h1, _⟩ | ⟨how, h1⟩
      · exact ⟨_, h1⟩
      · exact ⟨_, h1⟩
    · show ∃ tok', QueueInv d0 (q.storageCallDone j) tok'
      rw [inv_storageCallDone_other d0 q tok j h hact]
      exact ⟨_, h⟩

theorem inv_run (d0 : List Capture) (events : List QueueEvent) (q : WriteQueue) (tok : Token)
    (h : QueueInv d0 q tok) : ∃ tok', QueueInv d0 (q.run events) tok' := by
  induction events generalizing q tok with
  | nil => exact ⟨tok, h⟩
  | cons e rest ih =>
    obtain ⟨tok1, h1⟩ := inv_step d0 q tok e h
    exact ih (q.step e) tok1 h1

theorem inv_serial (d0 : List Capture) (q : WriteQueue) (tok : Token) (h : QueueInv d0 q tok)
    (i j : Nat) (ti tj : WriteTask) (hij : i < j) (hi : q.tasks[i]? = some ti)
    (hj : q.tasks[j]? = some tj) (hstarted : tj.stage ≠ Stage.queued) :
    ∃ how, ti.stage = Stage.settled how := by
  have hb := token_bounds q.tasks.length tok h.valid
  apply h.settledTasks i ti hi
  by_contra hlt
  apply hstarted
  apply h.queuedTasks j tj hj
  omega

theorem inv_all_settled (d0 : List Capture) (q : WriteQueue) (tok : Token)
    (h : QueueInv d0 q tok) (hall : ∀ t ∈ q.tasks, ∃ how, t.stage = Stage.settled how) :
    tok.settledCount q.tasks.length = q.tasks.length := by
  have hget : ∀ i, i < q.tasks.length → ∃ how, (q.tasks[i]?).map (fun t => t.stage) =
      some (Stage.settled how) := by
    intro i hi
    obtain ⟨how, hhow⟩ := hall q.tasks[i] (List.getElem_mem hi)
    exact ⟨how, by rw [List.getElem?_eq_getElem hi]; simp [hhow]⟩
  cases tok with
  | idle => rfl
  | start i =>
    exfalso
    have hi : i < q.tasks.length := h.valid
    obtain ⟨how, hhow⟩ := hget i hi
    have := h.queuedTasks i q.tasks[i] (List.getElem?_eq_getElem hi) (le_refl _)
    rw [List.getElem?_eq_getElem hi] at hhow
    simp [this] at hhow
  | active i =>
    exfalso
    have hi : i < q.tasks.length := h.valid
    obtain ⟨how, hhow⟩ := hget i hi
    obtain ⟨t, ht, _, hstage⟩ := h.activeTask i rfl
    rw [ht] at hhow
    rcases hstage with ⟨hs, _⟩ | ⟨l, hs, _⟩ <;> simp [hs] at hhow
  | adopting i how =>
    have hi : i < q.tasks.length := h.valid
    simp only [Token.settledCount]
    by_contra hne
    have hi2 : i + 1 < q.tasks.length := by omega
    obtain ⟨how', hhow⟩ := hget (i + 1) hi2
    have := h.queuedTasks (i + 1) q.tasks[i + 1] (List.getElem?_eq_getElem hi2) (le_refl _)
    rw [List.getElem?_eq_getElem hi2] at hhow
    simp [this] at hhow
  | releasing i how =>
    have hi : i < q.tasks.length := h.valid
    simp only [Token.settledCount]
    by_contra hne
    have hi2 : i + 1 < q.tasks.length := by omega
    obtain ⟨how', hhow⟩ := hget (i + 1) hi2
    have := h.queuedTasks (i + 1) q.tasks[i + 1] (List.getElem?_eq_getElem hi2) (le_refl _)
    rw [List.getElem?_eq_getElem hi2] at hhow
    simp [this] at hhow

theorem inv_final (s0 : StorageManager) (q : WriteQueue) (tok : Token)
    (h : QueueInv s0.durable q tok)
    (hall : ∀ t ∈ q.tasks, ∃ how, t.stage = Stage.settled how) :
    q.storage.durable = (s0.applyAll q.ops).durable := by
  rw [applyAll_durable, h.durable, inv_all_settled _ q tok h hall]
  rw [List.take_of_length_le (by simp [WriteQueue.ops])]

theorem settle_ops (q : WriteQueue) (p : Nat) (how : Settlement) :
    (q.settle p how).ops = q.ops := by
  unfold WriteQueue.settle WriteQueue.ops
  split_ifs <;> rfl

theorem finish_ops (q : WriteQueue) (i : Nat) (t : WriteTask) (how : Settlement)
    (ht : q.tasks[i]? = some t) : (q.finish i t how).ops = q.ops := by
  unfold WriteQueue.finish WriteQueue.ops
  simp only []
  exact ops_set q i t _ ht (by rfl) (by rfl)

theorem step_ops (q : WriteQueue) (e : QueueEvent) :
    (q.step e).ops = q.ops ++ calledOps [e] := by
  cases e with
  | call op b =>
    rw [show q.step (QueueEvent.call op b) = q.call op b from rfl, (ops_call q op b).1]
    rfl
  | microtask =>
    simp only [calledOps, List.append_nil]
    unfold WriteQueue.step
    cases hj : q.jobs with
    | nil => rfl
    | cons job rest =>
      simp only []
      unfold WriteQueue.runJob
      cases hh : job.handler with
      | callTask i =>
        simp only []
        cases ht : q.tasks[i]? with
        | none => rfl
        | some t =>
          simp only [WriteQueue.ops]
          exact ops_set q i t _ ht (by rfl) (by rfl)
      | returnUndefined => simp only []; rw [settle_ops]; rfl
      | passOn => simp only []; rw [settle_ops]; rfl
      | resolveDerived => simp only []; rw [settle_ops]; rfl
  | storageCallDone i =>
    simp only [calledOps, List.append_nil]
    show (q.storageCallDone i).ops = q.ops
    unfold WriteQueue.storageCallDone
    cases ht : q.tasks[i]? with
    | none => rfl
    | some t =>
      simp only []
      cases hs : t.stage with
      | queued => rfl
      | settled how => rfl
      | reading =>
        simp only []
        unfold WriteQueue.advance
        cases ha : t.op.afterRead (q.storage.getAllCaptures true t.backend).1 with
        | settled how =>
          simp only []
          exact finish_ops _ i t how ht
        | queued =>
          simp only [WriteQueue.ops]
          exact ops_set q i t _ ht (by rfl) (by rfl)
        | reading =>
          simp only [WriteQueue.ops]
          exact ops_set q i t _ ht (by rfl) (by rfl)
        | writing l =>
          simp only [WriteQueue.ops]
          exact ops_set q i t _ ht (by rfl) (by rfl)
      | writing l =>
        simp only []
        cases hs2 : q.storage.saveCaptures l t.backend with
        | mk r st =>
          cases r with
          | ok u =>
            simp only []
            exact finish_ops _ i t _ ht
          | error e =>
            simp only []
            exact finish_ops _ i t _ ht

theorem calledOps_append (a b : List QueueEvent) :
    calledOps (a ++ b) = calledOps a ++ calledOps b := by
  induction a with
  | nil => rfl
  | cons e rest ih =>
    cases e <;> simp [calledOps, ih]

theorem run_ops (events : List QueueEvent) (q : WriteQueue) :
    (q.run events).ops = q.ops ++ calledOps events := by
  induction events generalizing q with
  | nil => simp [WriteQueue.run, calledOps]
  | cons e rest ih =>
    show ((q.step e).run rest).ops = _
    rw [ih, step_ops, List.append_assoc, ← calledOps_append]
    rfl

theorem drive_ops (fuel : Nat) (q : WriteQueue) : (q.drive fuel).ops = q.ops := by
  induction fuel generalizing q with
  | zero => rfl
  | succ fuel ih =>
    unfold WriteQueue.drive
    cases hj : q.jobs with
    | cons job rest =>
      simp only []
      rw [ih, step_ops]
      simp [calledOps]
    | nil =>
      simp only []
      cases ha : q.awaiting with
      | none => rfl
      | some i =>
        simp only []
        rw [ih, step_ops]
        simp [calledOps]

theorem awaiting_idle (d0 : List Capture) (q : WriteQueue) (h : QueueInv d0 q Token.idle) :
    q.awaiting = none := by
  unfold WriteQueue.awaiting
  simp only []
  rw [if_neg]
  rw [not_lt]
  apply le_of_eq
  symm
  rw [List.findIdx_eq_length]
  intro t ht
  obtain ⟨j, hj, hjt⟩ := List.getElem_of_mem ht
  obtain ⟨how, hhow⟩ := h.settledTasks j t (by rw [List.getElem?_eq_getElem hj, hjt]) hj
  rw [hhow]
  rfl

theorem awaiting_active (d0 : List Capture) (q : WriteQueue) (i : Nat)
    (h : QueueInv d0 q (Token.active i)) : q.awaiting = some i := by
  have hi : i < q.tasks.length := h.valid
  obtain ⟨t, ht, _, hstage⟩ := h.activeTask i rfl
  have hidx : (q.tasks.findIdx fun t => t.stage.awaitsStorage) = i := by
    rw [List.findIdx_eq hi]
    constructor
    · have : q.tasks[i] = t := by
        rw [List.getElem?_eq_getElem hi] at ht
        exact Option.some.inj ht
      rw [this]
      rcases hstage with ⟨hs, _⟩ | ⟨l, hs, _⟩ <;> rw [hs] <;> rfl
    · intro j hji
      obtain ⟨how, hhow⟩ := h.settledTasks j q.tasks[j]
        (List.getElem?_eq_getElem (by omega)) hji
      rw [hhow]
      rfl
  unfold WriteQueue.awaiting
  simp only [hidx, if_pos hi]

theorem step_length (q : WriteQueue) (e : QueueEvent) (he : calledOps [e] = []) :
    (q.step e).tasks.length = q.tasks.length := by
  have h := congrArg List.length (step_ops q e)
  rw [he] at h
  simpa [WriteQueue.ops] using h

theorem inv_drive (d0 : List Capture) (fuel : Nat) (q : WriteQueue) (tok : Token)
    (h : QueueInv d0 q tok) (hfuel : stepsLeft q tok ≤ fuel) :
    QueueInv d0 (q.drive fuel) Token.idle := by
  induction fuel generalizing q tok with
  | zero =>
    have hv := h.valid
    cases tok with
    | idle => exact h
    | start i =>
      simp only [stepsLeft, Token.valid] at hfuel hv
      omega
    | active i =>
      simp only [stepsLeft, Token.valid] at hfuel hv
      split_ifs at hfuel <;> omega
    | adopting i how =>
      simp only [stepsLeft, Token.valid] at hfuel hv
      omega
    | releasing i how =>
      simp only [stepsLeft, Token.valid] at hfuel hv
      omega
  | succ fuel ih =>
    have hv := h.valid
    have hlen := step_length q QueueEvent.microtask rfl
    cases tok with
    | idle =>
      unfold WriteQueue.drive
      rw [h.jobs]
      simp only [Token.jobs, awaiting_idle d0 q h]
      exact h
    | start i =>
      unfold WriteQueue.drive
      rw [h.jobs]
      simp only [Token.jobs]
      have h1 := inv_microtask_start d0 q i h
      apply ih _ _ h1
      simp only [stepsLeft, Token.valid] at hfuel hv ⊢
      rw [hlen]
      split_ifs <;> omega
    | adopting i how =>
      unfold WriteQueue.drive
      rw [h.jobs]
      simp only [Token.jobs]
      have h1 := inv_microtask_adopting d0 q i how h
      apply ih _ _ h1
      simp only [stepsLeft, Token.valid] at hfuel hv ⊢
      rw [hlen]
      omega
    | releasing i how =>
      unfold WriteQueue.drive
      rw [h.jobs]
      simp only [Token.jobs]
      have h1 := inv_microtask_releasing d0 q i how h
      apply ih _ _ h1
      simp only [stepsLeft, Token.valid] at hfuel hv ⊢
      split_ifs
      · simp only [stepsLeft]
        rw [hlen]
        omega
      · simp only [stepsLeft]
        omega
    | active i =>
      unfold WriteQueue.drive
      rw [h.jobs]
      simp only [Token.jobs, awaiting_active d0 q i h]
      have hlen2 : (q.storageCallDone i).tasks.length = q.tasks.length :=
        step_length q (QueueEvent.storageCallDone i) rfl
      show QueueInv d0 ((q.storageCallDone i).drive fuel) Token.idle
      rcases inv_storageCallDone_active d0 q i h with
        ⟨h1, ⟨t, ht, hreading⟩, ⟨t', l, ht', hwriting⟩⟩ | ⟨how, h1⟩
      · apply ih _ _ h1
        simp only [stepsLeft, Token.valid, ht, hreading, Option.map_some', Stage.isWriting] at hfuel hv ⊢
        rw [ht', hlen2]
        simp only [Option.map_some', hwriting, Stage.isWriting, if_true]
        simp at hfuel
        omega
      · apply ih _ _ h1
        simp only [stepsLeft, Token.valid] at hfuel hv ⊢
        rw [hlen2]
        split_ifs at hfuel <;> omega

theorem stepsLeft_le (q : WriteQueue) (tok : Token) : stepsLeft q tok ≤ 5 * q.tasks.length := by
  cases tok <;> simp only [stepsLeft] <;> omega

theorem inv_idle_settled (d0 : List Capture) (q : WriteQueue) (h : QueueInv d0 q Token.idle) :
    ∀ t ∈ q.tasks, ∃ how, t.stage = Stage.settled how := by
  intro t ht
  obtain ⟨j, hj, hjt⟩ := List.getElem_of_mem ht
  exact h.settledTasks j t (by rw [List.getElem?_eq_getElem hj, hjt]) hj

theorem inv_quiet (d0 : List Capture) (q : WriteQueue) (tok : Token) (h : QueueInv d0 q tok)
    (hjobs : q.jobs = []) (hawait : q.awaiting = none) : tok = Token.idle := by
  cases tok with
  | idle => rfl
  | active i =>
    rw [awaiting_active d0 q i h] at hawait
    exact absurd hawait (by simp)
  | start i => rw [h.jobs] at hjobs; exact absurd hjobs (by simp [Token.jobs])
  | adopting i how => rw [h.jobs] at hjobs; exact absurd hjobs (by simp [Token.jobs])
  | releasing i how => rw [h.jobs] at hjobs; exact absurd hjobs (by simp [Token.jobs])

/-- C24. The write queue serialises and never stalls. For every sequence of
events (calls of `addCapture`, `clearCaptures`, `clearCapturesByTab` and
`cleanupOldCaptures`, microtasks, completions of storage calls, in any
interleaving) on a fresh queue: the tasks are the bodies of the calls, in the
order of the calls; a task whose body has started comes after tasks that have
all settled, so a body starts only after the previous one has settled; when no
microtask is queued and no storage call is awaited every task has settled, and
driving the queue on settles every task within five steps per task, whatever
the outcomes of the storage calls, so a task that fails does not keep a later
one from running; and once every task has settled the persisted collection is
the one obtained by applying the operations one after another in enqueue
order. -/
theorem write_queue_serialises (s0 : StorageManager) (events : List QueueEvent) :
    ((WriteQueue.init s0).run events).ops = calledOps events ∧
    (∀ (i j : Nat) (ti tj : WriteTask), i < j →
      ((WriteQueue.init s0).run events).tasks[i]? = some ti →
      ((WriteQueue.init s0).run events).tasks[j]? = some tj →
      tj.stage ≠ Stage.queued → ∃ how, ti.stage = Stage.settled how) ∧
    (((WriteQueue.init s0).run events).jobs = [] →
      ((WriteQueue.init s0).run events).awaiting = none →
      ∀ t ∈ ((WriteQueue.init s0).run events).tasks, ∃ how, t.stage = Stage.settled how) ∧
    (∀ fuel : Nat, 5 * ((WriteQueue.init s0).run events).tasks.length ≤ fuel →
      (∀ t ∈ (((WriteQueue.init s0).run events).drive fuel).tasks,
        ∃ how, t.stage = Stage.settled how) ∧
      (((WriteQueue.init s0).run events).drive fuel).ops = calledOps events ∧
      (((WriteQueue.init s0).run events).drive fuel).storage.durable =
        (s0.applyAll (calledOps events)).durable) ∧
    ((∀ t ∈ ((WriteQueue.init s0).run events).tasks, ∃ how, t.stage = Stage.settled how) →
      ((WriteQueue.init s0).run events).storage.durable =
        (s0.applyAll (calledOps events)).durable) := by
  obtain ⟨tok, h⟩ := inv_run s0.durable events (WriteQueue.init s0) Token.idle (inv_init s0)
  have hops : ((WriteQueue.init s0).run events).ops = calledOps events := by
    rw [run_ops]
    rfl
  refine ⟨hops, ?_, ?_, ?_, ?_⟩
  · intro i j ti tj hij hi hj hstarted
    exact inv_serial _ _ tok h i j ti tj hij hi hj hstarted
  · intro hjobs hawait
    have := inv_quiet _ _ tok h hjobs hawait
    subst this
    exact inv_idle_settled _ _ h
  · intro fuel hfuel
    have hd := inv_drive _ fuel _ tok h (le_trans (stepsLeft_le _ tok) hfuel)
    have hall := inv_idle_settled _ _ hd
    refine ⟨hall, by rw [drive_ops, hops], ?_⟩
    rw [inv_final s0 _ _ hd hall, drive_ops, hops]
  · intro hall
    rw [inv_final s0 _ tok h hall, hops]

/-- Witness of C24: three `addCapture` calls of which the second fails to
write; all three settle, the second rejected, and the persisted collection
holds the first and the third capture. -/
theorem write_queue_serialises_witness :
    ((((WriteQueue.init {}).run exampleQueueEvents).drive 15).tasks.map fun t => t.stage) =
      [Stage.settled Settlement.fulfilled, Stage.settled (Settlement.rejected writeError),
       Stage.settled Settlement.fulfilled] ∧
    (((WriteQueue.init {}).run exampleQueueEvents).drive 15).storage.durable =
      [{ id := some "c", tabId := some 1, timestamp := 3 },
       { id := some "a", tabId := some 1, timestamp := 1 }] :=
  ⟨by decide,
   ((write_queue_serialises {} exampleQueueEvents).2.2.2.1 15 (by decide)).2.2.trans (by decide)⟩

end Hooker
